import Mathlib

/-!
Build-mode resolution and artifact assembly of aws-lex-web-ui.

A shallow embedding of the build scripts of the repository

* `lex-web-ui/vite.config.js` (environment classification, output naming),
* `lex-web-ui/plugins/banner-plugin.js` and `lex-web-ui/scripts/post-build-css.js`
  (banner stamping),
* `lex-web-ui/plugins/asset-handler-plugin.js` (asset fallback, public directory mirror),
* `build/copy-assets.js` (assembly of the dist directory),

followed by the properties proved about them.

JavaScript strings are modelled by `String` (sequences of Unicode scalar values), the
value `undefined` of an environment variable or of a field of `package.json` by `none`.
The file system is a tree of regular files and directories; a file system call either
returns the new tree or fails with an error code and leaves the tree as it was. The
recursive directory mirror takes the depth of nesting that the platform allows: a call
nested deeper ends by an exception, as it does when a path gets too long or the call stack
is used up.
-/

namespace LexWebUi

/-! ## JavaScript string primitives -/

/-- The code points removed by `String.prototype.trim`: ECMAScript WhiteSpace
(TAB, VT, FF, ZWNBSP and the Unicode space separators) and LineTerminator. -/
def isJsWhitespace (c : Char) : Bool :=
  c.toNat == 0x09 || c.toNat == 0x0A || c.toNat == 0x0B || c.toNat == 0x0C ||
  c.toNat == 0x0D || c.toNat == 0x20 || c.toNat == 0xA0 || c.toNat == 0x1680 ||
  (0x2000 ≤ c.toNat && c.toNat ≤ 0x200A) ||
  c.toNat == 0x2028 || c.toNat == 0x2029 || c.toNat == 0x202F || c.toNat == 0x205F ||
  c.toNat == 0x3000 || c.toNat == 0xFEFF

/-- The method `String.prototype.trim`: white space removed from both ends. -/
def jsTrim (s : String) : String :=
  ⟨((s.data.dropWhile isJsWhitespace).reverse.dropWhile isJsWhitespace).reverse⟩

/-- The expression `raw?.trim()` on a value of type `string | undefined`. -/
def optTrim (raw : Option String) : Option String :=
  raw.map jsTrim

/-- JavaScript truthiness of a value of type `string | undefined`. -/
def truthy : Option String → Bool
  | none => false
  | some s => s != ""

/-- The call `xs.includes(v)` for an array of strings and `v : string | undefined`. -/
def includes (xs : List String) : Option String → Bool
  | none => false
  | some s => xs.contains s

/-- The method `s.startsWith(p)`. -/
def jsStartsWith (s p : String) : Bool :=
  p.data.isPrefixOf s.data

/-- The method `s.endsWith(p)`. -/
def jsEndsWith (s p : String) : Bool :=
  p.data.isSuffixOf s.data

/-- The call `s.replace(/p$/, "")` for a literal pattern `p`: without the multiline flag
`$` matches at the end of input only, so the one possible match is a trailing `p`. -/
def removeTrailing (p s : String) : String :=
  if p.data.isSuffixOf s.data then ⟨s.data.take (s.data.length - p.data.length)⟩ else s

/-- The number of positions of `s` at which an occurrence of `p` starts. -/
def countOccurrences (p : List Char) : List Char → Nat
  | [] => if p = [] then 1 else 0
  | c :: cs => (if p.isPrefixOf (c :: cs) then 1 else 0) + countOccurrences p cs

/-! ## Environment classification (`lex-web-ui/vite.config.js`) -/

/-- The two variables of `process.env` the build reads. -/
structure ProcessEnv where
  BUILD_TARGET : Option String
  NODE_ENV : Option String

/-- The object `buildConfig`. -/
structure BuildConfig where
  isLib : Bool
  isApp : Bool
  isProd : Bool
  isDev : Bool
  outputDir : String
  assetsDir : String
  bundleDir : String
  faviconPath : String
  logoPath : String
  fallbackIconPath : String

/-- The object literal `buildConfig` of `lex-web-ui/vite.config.js`, evaluated at module load. -/
def buildConfig (env : ProcessEnv) : BuildConfig where
  isLib := optTrim env.BUILD_TARGET == some "lib"
  isApp := optTrim env.BUILD_TARGET == some "app" || !truthy (optTrim env.BUILD_TARGET)
  isProd := optTrim env.NODE_ENV == some "production"
  isDev := optTrim env.NODE_ENV == some "development"
  outputDir := "dist"
  assetsDir := ""
  bundleDir := "bundle"
  faviconPath := "src/assets/favicon.png"
  logoPath := "src/assets/logo.png"
  fallbackIconPath :=
    "node_modules/material-design-icons/maps/2x_web/ic_local_florist_white_18dp.png"

/-- The method `buildUtils.getBuildMode`. -/
def getBuildMode (cfg : BuildConfig) : String :=
  if cfg.isLib then "lib" else "app"

/-- The method `buildUtils.getEnvironment`. -/
def getEnvironment (cfg : BuildConfig) : String :=
  if cfg.isProd then "production" else "development"

/-- The method `buildUtils.getBuildTarget`. -/
def getBuildTarget (cfg : BuildConfig) : String :=
  getBuildMode cfg ++ "-" ++ getEnvironment cfg

/-- The method `buildUtils.validateEnvironment`: `Except.error` carries the message of the
thrown `Error`, `Except.ok` the lines written to the console. -/
def validateEnvironment (env : ProcessEnv) (cfg : BuildConfig) (packageVersion : String) :
    Except String (List String) :=
  let buildTarget := optTrim env.BUILD_TARGET
  if truthy buildTarget && !includes ["lib", "app"] buildTarget then
    .error ("Invalid BUILD_TARGET: '" ++ buildTarget.getD "" ++ "'. Must be 'lib' or 'app'")
  else
    let nodeEnv := optTrim env.NODE_ENV
    if truthy nodeEnv && !includes ["production", "development"] nodeEnv then
      .error ("Invalid NODE_ENV: '" ++ nodeEnv.getD "" ++
        "'. Must be 'production' or 'development'")
    else
      .ok ["🔧 Build Configuration:",
           "   Mode: " ++ getBuildMode cfg,
           "   Environment: " ++ getEnvironment cfg,
           "   Target: " ++ getBuildTarget cfg,
           "   Package Version: " ++ packageVersion]

/-- The selector under which the exported configuration is built. -/
structure BuildSelector where
  mode : String
  environment : String
deriving DecidableEq, Repr

/-- Evaluation of the module `lex-web-ui/vite.config.js`: `buildConfig` is computed,
`validateEnvironment` runs, and only when it returns is the configuration for the resolved
mode and environment exported. -/
def viteConfigModule (env : ProcessEnv) (packageVersion : String) : Except String BuildSelector :=
  let cfg := buildConfig env
  match validateEnvironment env cfg packageVersion with
  | .error e => .error e
  | .ok _ => .ok { mode := getBuildMode cfg, environment := getEnvironment cfg }

/-! ## Worker chunk naming (`lex-web-ui/vite.config.js`) -/

/-- The function `worker.rollupOptions.output.entryFileNames`, applied to `chunkInfo.name`. -/
def entryFileNames (cfg : BuildConfig) (chunkName : String) : String :=
  let baseName := removeTrailing "-worker" chunkName
  let suffix := if cfg.isProd then ".min.js" else ".js"
  baseName ++ "-worker" ++ suffix

/-! ## Library and application output naming (`lex-web-ui/vite.config.js`) -/

/-- The template literal with the single placeholder `x`, for `x : string | undefined`. -/
def templateString : Option String → String
  | some s => s
  | none => "undefined"

/-- The name without the extension that `entryFileNames` appends: a trailing `.min.js` is
removed, or else a trailing `.js`. -/
def stripWorkerExtension (name : String) : String :=
  if jsEndsWith name ".min.js" then removeTrailing ".min.js" name else removeTrailing ".js" name

namespace LibraryConfig

/-- The function `libraryConfig.build.lib.fileName`. -/
def fileName (cfg : BuildConfig) : String :=
  if cfg.isProd then "lex-web-ui.min.js" else "lex-web-ui.js"

/-- The function `libraryConfig.build.rollupOptions.output.assetFileNames`, applied to
`assetInfo.name`. -/
def assetFileNames (cfg : BuildConfig) (assetName : Option String) : String :=
  if assetName == some "style.css" then
    if cfg.isProd then "lex-web-ui.min.css" else "lex-web-ui.css"
  else templateString assetName

end LibraryConfig

namespace AppConfig

/-- The function `appConfig.build.rollupOptions.output.assetFileNames`, applied to
`assetInfo.name`. -/
def assetFileNames (cfg : BuildConfig) (assetName : Option String) : String :=
  if truthy assetName && jsEndsWith (assetName.getD "") ".css" then
    if cfg.isProd then "lex-web-ui.min.css" else "lex-web-ui.css"
  else "[name].[ext]"

end AppConfig

/-! ## Text encoding -/

/-- File contents and `Uint8Array` values: sequences of byte values. -/
abbrev Bytes := List Nat

/-- UTF-8 encoding of one scalar value. -/
def utf8EncodeChar (c : Char) : Bytes :=
  if c.toNat < 0x80 then [c.toNat]
  else if c.toNat < 0x800 then [0xC0 + c.toNat / 0x40, 0x80 + c.toNat % 0x40]
  else if c.toNat < 0x10000 then
    [0xE0 + c.toNat / 0x1000, 0x80 + c.toNat / 0x40 % 0x40, 0x80 + c.toNat % 0x40]
  else
    [0xF0 + c.toNat / 0x40000, 0x80 + c.toNat / 0x1000 % 0x40, 0x80 + c.toNat / 0x40 % 0x40,
      0x80 + c.toNat % 0x40]

/-- The method `TextEncoder.prototype.encode`, also the encoding `utf8` of `fs.writeFileSync`. -/
def utf8Encode (s : String) : Bytes :=
  s.data.flatMap utf8EncodeChar

/-- A multi-byte sequence in progress: the code point collected so far, the number of
continuation bytes still needed, and the range allowed for the next byte. -/
structure Utf8Pending where
  codePoint : Nat
  needed : Nat
  lower : Nat
  upper : Nat

/-- The UTF-8 decoder on a lead byte: the characters emitted and the sequence started. -/
def utf8Lead (b : Nat) : List Char × Option Utf8Pending :=
  if b ≤ 0x7F then ([Char.ofNat b], none)
  else if 0xC2 ≤ b ∧ b ≤ 0xDF then ([], some ⟨b % 0x20, 1, 0x80, 0xBF⟩)
  else if 0xE0 ≤ b ∧ b ≤ 0xEF then
    ([], some ⟨b % 0x10, 2, if b = 0xE0 then 0xA0 else 0x80, if b = 0xED then 0x9F else 0xBF⟩)
  else if 0xF0 ≤ b ∧ b ≤ 0xF4 then
    ([], some ⟨b % 0x08, 3, if b = 0xF0 then 0x90 else 0x80, if b = 0xF4 then 0x8F else 0xBF⟩)
  else ([Char.ofNat 0xFFFD], none)

/-- The UTF-8 decoder of the Encoding standard in replacement mode: every ill-formed
sequence becomes U+FFFD and the offending byte is processed again as a lead byte. -/
def utf8DecodeFrom : Option Utf8Pending → Bytes → List Char
  | none, [] => []
  | some _, [] => [Char.ofNat 0xFFFD]
  | none, b :: bs => (utf8Lead b).1 ++ utf8DecodeFrom (utf8Lead b).2 bs
  | some p, b :: bs =>
    if p.lower ≤ b ∧ b ≤ p.upper then
      if p.needed ≤ 1 then
        Char.ofNat (p.codePoint * 0x40 + b % 0x40) :: utf8DecodeFrom none bs
      else
        utf8DecodeFrom (some ⟨p.codePoint * 0x40 + b % 0x40, p.needed - 1, 0x80, 0xBF⟩) bs
    else
      Char.ofNat 0xFFFD :: ((utf8Lead b).1 ++ utf8DecodeFrom (utf8Lead b).2 bs)

/-- Decoding as done by `buffer.toString("utf8")`, the reading mode `utf8` of
`fs.readFileSync`: a byte order mark is kept. -/
def utf8Decode (b : Bytes) : String :=
  ⟨utf8DecodeFrom none b⟩

/-- The method `decode` of `new TextDecoder("utf-8")`: a leading byte order mark is dropped. -/
def textDecoderDecode (b : Bytes) : String :=
  match utf8DecodeFrom none b with
  | c :: cs => if c.toNat = 0xFEFF then ⟨cs⟩ else ⟨c :: cs⟩
  | [] => ⟨[]⟩

/-! ## File system -/

/-- A location: the names from the file system root down to the entry. The path strings of
the scripts are represented by the locations they denote; `path.join(p, name)` for an entry
name is `p ++ [name]`, and `path.dirname` of that is `p`. -/
abbrev Path := List String

/-- A file system tree of regular files and directories. In a directory the first entry of a
name is the entry of that name. -/
inductive FsNode where
  | file (content : Bytes)
  | dir (entries : List (String × FsNode))

/-- Errors of file system calls. -/
inductive FsError where
  | ENOENT
  | ENOTDIR
  | EISDIR
  | EEXIST
  | ENAMETOOLONG
deriving DecidableEq, Repr

/-- What `fs.statSync` tells of an entry, with the content of a regular file. -/
inductive Stat where
  | file (content : Bytes)
  | dir
deriving DecidableEq, Repr

/-- The kind and content of a node. -/
def FsNode.toStat : FsNode → Stat
  | .file content => .file content
  | .dir _ => .dir

/-- Whether a node is a directory. -/
def FsNode.isDir : FsNode → Bool
  | .file _ => false
  | .dir _ => true

/-- The entry of a name in a directory. -/
def findEntry (name : String) : List (String × FsNode) → Option FsNode
  | [] => none
  | (k, v) :: es => if k = name then some v else findEntry name es

/-- A directory with the entry of a name created or replaced. -/
def setEntry (name : String) (n : FsNode) : List (String × FsNode) → List (String × FsNode)
  | [] => [(name, n)]
  | (k, v) :: es => if k = name then (name, n) :: es else (k, v) :: setEntry name n es

/-- The node at a location. -/
def FsNode.lookup (fs : FsNode) (p : Path) : Option FsNode :=
  match p with
  | [] => some fs
  | name :: rest =>
    match fs with
    | .file _ => none
    | .dir es =>
      match findEntry name es with
      | some child => child.lookup rest
      | none => none

/-- Kind and content of the entry at a location, `none` when there is none. -/
def FsNode.stat (fs : FsNode) (p : Path) : Option Stat :=
  (fs.lookup p).map FsNode.toStat

/-- The call `fs.existsSync(p)`. -/
def existsSync (fs : FsNode) (p : Path) : Bool :=
  (fs.lookup p).isSome

/-- The tree with the node at a location created or replaced; the parent of the location
has to be a directory. -/
def FsNode.put (fs : FsNode) (p : Path) (new : FsNode) : Except FsError FsNode :=
  match p with
  | [] => .error .EISDIR
  | name :: rest =>
    match fs with
    | .file _ => .error .ENOTDIR
    | .dir es =>
      match rest with
      | [] => .ok (.dir (setEntry name new es))
      | _ :: _ =>
        match findEntry name es with
        | some child =>
          match child.put rest new with
          | .ok child2 => .ok (.dir (setEntry name child2 es))
          | .error e => .error e
        | none => .error .ENOENT

/-- The call `fs.copyFileSync(src, dest)`: `src` has to be a regular file, `dest` must not
be a directory, and the directory of `dest` has to exist; a file at `dest` is replaced. -/
def copyFileSync (fs : FsNode) (src dest : Path) : Except FsError FsNode :=
  match fs.lookup src with
  | none => .error .ENOENT
  | some (.dir _) => .error .EISDIR
  | some (.file content) =>
    match fs.lookup dest with
    | some (.dir _) => .error .EISDIR
    | _ => fs.put dest (.file content)

/-- The call `fs.readFileSync(p, "utf8")`. -/
def readFileSync (fs : FsNode) (p : Path) : Except FsError String :=
  match fs.lookup p with
  | none => .error .ENOENT
  | some (.dir _) => .error .EISDIR
  | some (.file content) => .ok (utf8Decode content)

/-- The call `fs.writeFileSync(p, text, "utf8")`. -/
def writeFileSync (fs : FsNode) (p : Path) (text : String) : Except FsError FsNode :=
  match fs.lookup p with
  | some (.dir _) => .error .EISDIR
  | _ => fs.put p (.file (utf8Encode text))

/-- The call `fs.mkdirSync(p, { recursive: true })`: the missing directories along `p` are
created; it fails when a regular file is in the way. -/
def mkdirSync (fs : FsNode) (p : Path) : Except FsError FsNode :=
  match p with
  | [] =>
    match fs with
    | .file _ => .error .EEXIST
    | .dir es => .ok (.dir es)
  | name :: rest =>
    match fs with
    | .file _ => .error .ENOTDIR
    | .dir es =>
      match mkdirSync ((findEntry name es).getD (.dir [])) rest with
      | .ok child2 => .ok (.dir (setEntry name child2 es))
      | .error e => .error e

/-- One `fs.Dirent`: the name of the entry and whether it is a directory. -/
structure Dirent where
  name : String
  isDirectory : Bool
deriving DecidableEq, Repr

/-- The entries of a directory, one per name. -/
def listEntries : List (String × FsNode) → List Dirent
  | [] => []
  | (k, v) :: es => ⟨k, v.isDir⟩ :: (listEntries es).filter (fun e => e.name != k)

/-- The call `fs.readdirSync(p, { withFileTypes: true })`. -/
def readdirSync (fs : FsNode) (p : Path) : Except FsError (List Dirent) :=
  match fs.lookup p with
  | none => .error .ENOENT
  | some (.file _) => .error .ENOTDIR
  | some (.dir es) => .ok (listEntries es)

/-! ## Console and host -/

/-- One line written to the console, by `console.log`, `console.warn` or `console.error`. -/
inductive Console where
  | log (text : String)
  | warn (text : String)
  | error (text : String)
deriving DecidableEq, Repr

/-- The functions of the `path` module and of the platform that the scripts call on path
strings: `path.resolve(root, p)` as a location, the location a path string denotes when it
is handed to `fs`, `path.relative(root, p)`, and the message of a file system error. -/
structure Host where
  resolve : String → String → Path
  locate : String → Path
  relative : String → Path → String
  message : FsError → String

/-- The expression `a || b` for `a : string | undefined`. -/
def orElse (a : Option String) (b : String) : String :=
  match a with
  | some s => if s != "" then s else b
  | none => b

/-! ## Banner stamping (`plugins/banner-plugin.js`, `scripts/post-build-css.js`) -/

/-- The fields of `package.json` that the banner reads, each a string or missing. -/
structure PackageInfo where
  name : Option String
  version : Option String
  description : Option String
  author : Option String
  license : Option String

/-- What `new Date()` gives at the time of a call: `getFullYear()` and `toISOString()`. -/
structure Clock where
  fullYear : Nat
  isoString : String

/-- The expression `new Date().toISOString().split("T")[0]`. -/
def isoDate (clock : Clock) : String :=
  ⟨clock.isoString.data.takeWhile (fun c => c != 'T')⟩

/-- A `source` of a bundle asset: a string or a `Uint8Array`. -/
inductive AssetSource where
  | text (s : String)
  | bytes (b : Bytes)
deriving DecidableEq, Repr

/-- An entry of a Rollup output bundle, with the fields the plugin reads or writes: a chunk
(`type` is `chunk`) with its `code`, or an asset (`type` is `asset`) with its `source`. -/
inductive OutputFile where
  | chunk (fileName : String) (code : String)
  | asset (fileName : String) (source : AssetSource)
deriving DecidableEq, Repr

/-- An output bundle: its keys in order, each with its file. -/
abbrev Bundle := List (String × OutputFile)

namespace BannerPlugin

/-- The function `createBanner` of `plugins/banner-plugin.js`. -/
def createBanner (packageInfo : PackageInfo) (clock : Clock) : String :=
  "/*!\n * " ++ orElse packageInfo.name "Unknown Package" ++ " v" ++
    orElse packageInfo.version "0.0.0" ++ "\n * " ++
    orElse packageInfo.description "" ++ "\n * \n * Copyright (c) " ++
    toString clock.fullYear ++ " " ++ orElse packageInfo.author "Unknown Author" ++
    "\n * Licensed under " ++ orElse packageInfo.license "Unknown License" ++
    "\n * \n * Built on: " ++ isoDate clock ++ "\n */"

/-- The body of the `forEach` callback of `generateBundle`, applied to one bundle file. -/
def stampFile (banner : String) : OutputFile → OutputFile
  | .chunk fileName code => .chunk fileName (banner ++ "\n" ++ code)
  | .asset fileName source =>
    if jsEndsWith fileName ".css" then
      match source with
      | .text s => .asset fileName (.text (banner ++ "\n" ++ s))
      | .bytes b => .asset fileName (.bytes (utf8Encode (banner ++ "\n" ++ textDecoderDecode b)))
    else .asset fileName source

/-- The hook `generateBundle` of the banner plugin of a library build. -/
def generateBundle (packageInfo : PackageInfo) (clock : Clock) (bundle : Bundle) : Bundle :=
  let banner := createBanner packageInfo clock
  bundle.map (fun entry => (entry.1, stampFile banner entry.2))

end BannerPlugin

namespace PostBuildCss

/-- The function `createBanner` of `scripts/post-build-css.js`; `packageInfo` is the parsed
`package.json` it reads. -/
def createBanner (packageInfo : PackageInfo) (clock : Clock) : String :=
  "/*!\n * " ++ orElse packageInfo.name "Unknown Package" ++ " v" ++
    orElse packageInfo.version "0.0.0" ++ "\n * " ++
    orElse packageInfo.description "" ++ "\n * \n * Copyright (c) " ++
    toString clock.fullYear ++ " " ++ orElse packageInfo.author "Unknown Author" ++
    "\n * Licensed under " ++ orElse packageInfo.license "Unknown License" ++
    "\n * \n * Built on: " ++ isoDate clock ++ "\n */"

/-- The function `addBannerToCssFile`: the file system afterwards and the console line, or
the error thrown by a file system call. -/
def addBannerToCssFile (packageInfo : PackageInfo) (clock : Clock) (fs : FsNode)
    (filePath : Path) : Except FsError (FsNode × List Console) :=
  let banner := createBanner packageInfo clock
  match readFileSync fs filePath with
  | .error e => .error e
  | .ok cssContent =>
    if !jsStartsWith cssContent "/*!" then
      let newContent := banner ++ "\n" ++ cssContent
      match writeFileSync fs filePath newContent with
      | .error e => .error e
      | .ok fs2 => .ok (fs2, [.log ("✓ Added banner to " ++ filePath.getLast?.getD "")])
    else
      .ok (fs, [.log ("✓ Banner already present in " ++ filePath.getLast?.getD "")])

end PostBuildCss

/-! ## Asset handling (`plugins/asset-handler-plugin.js`) -/

/-- The state of the file system after a run of statements, with the error thrown if the run
ended by an exception. -/
structure Outcome where
  fs : FsNode
  thrown : Option FsError

/-- The function `handleAssetCopy`; `outputPath` is the location of the output file. -/
def handleAssetCopy (host : Host) (customPath fallbackPath : String) (outputPath : Path)
    (assetType : String) (root : String) (fs : FsNode) : FsNode × List Console :=
  let customAsset := host.resolve root customPath
  let fallbackAsset := host.resolve root fallbackPath
  if existsSync fs customAsset then
    match copyFileSync fs customAsset outputPath with
    | .ok fs2 =>
      (fs2, [.log ("✅ Copied custom " ++ assetType ++ ": " ++ customPath ++ " → " ++
        host.relative root outputPath)])
    | .error e => (fs, [.error ("❌ Error copying " ++ assetType ++ ": " ++ host.message e)])
  else if existsSync fs fallbackAsset then
    match copyFileSync fs fallbackAsset outputPath with
    | .ok fs2 =>
      (fs2, [.log ("⚠️  Copied fallback " ++ assetType ++ ": " ++ fallbackPath ++ " → " ++
        host.relative root outputPath)])
    | .error e => (fs, [.error ("❌ Error copying " ++ assetType ++ ": " ++ host.message e)])
  else
    (fs, [.warn ("❌ Neither custom nor fallback " ++ assetType ++ " found")])

/-- The loop of `copyDirectoryRecursive` over the entries read from `src`; `recurse` is the
recursive call, `none` a call that does not return. -/
def copyEntries (recurse : FsNode → Path → Path → Option Outcome) (src dest : Path) :
    List Dirent → FsNode → Option Outcome
  | [], fs => some ⟨fs, none⟩
  | entry :: rest, fs =>
    let srcPath := src ++ [entry.name]
    let destPath := dest ++ [entry.name]
    if entry.isDirectory then
      match (if !existsSync fs destPath then mkdirSync fs destPath else .ok fs) with
      | .error e => some ⟨fs, some e⟩
      | .ok fs1 =>
        match recurse fs1 srcPath destPath with
        | none => none
        | some ⟨fs2, some e⟩ => some ⟨fs2, some e⟩
        | some ⟨fs2, none⟩ => copyEntries recurse src dest rest fs2
    else if entry.name != "index.html" then
      let destDir := dest
      match (if !existsSync fs destDir then mkdirSync fs destDir else .ok fs) with
      | .error e => some ⟨fs, some e⟩
      | .ok fs1 =>
        match copyFileSync fs1 srcPath destPath with
        | .error e => some ⟨fs1, some e⟩
        | .ok fs2 => copyEntries recurse src dest rest fs2
    else copyEntries recurse src dest rest fs

/-- The function `copyDirectoryRecursive` on a platform that allows a nesting of `depth`
calls. A call nested deeper ends by an exception before it has changed anything: the path
has become too long for the file system (`ENAMETOOLONG`), or the call stack is used up (a
`RangeError`, which a `catch` takes in the same way). So the function always returns or
throws. -/
def copyDirectoryRecursive : Nat → FsNode → Path → Path → Option Outcome
  | 0, fs, _, _ => some ⟨fs, some .ENAMETOOLONG⟩
  | depth + 1, fs, src, dest =>
    match readdirSync fs src with
    | .error e => some ⟨fs, some e⟩
    | .ok entries => copyEntries (copyDirectoryRecursive depth) src dest entries fs

/-- The function `copyPublicDirectory`. -/
def copyPublicDirectory (depth : Nat) (host : Host) (publicDir : String) (outputPath : Path)
    (root : String) (fs : FsNode) : Option (FsNode × List Console) :=
  let publicPath := host.resolve root publicDir
  if !existsSync fs publicPath then
    some (fs, [.log ("ℹ️  Public directory not found: " ++ publicDir)])
  else
    match copyDirectoryRecursive depth fs publicPath outputPath with
    | none => none
    | some ⟨fs2, none⟩ =>
      some (fs2, [.log ("✅ Copied public directory: " ++ publicDir ++ " → " ++
        host.relative root outputPath)])
    | some ⟨fs2, some e⟩ =>
      some (fs2, [.error ("❌ Error copying public directory: " ++ host.message e)])

/-- The options of `assetHandlerPlugin`, after the defaults of the destructuring. -/
structure AssetHandlerOptions where
  faviconPath : String := "src/assets/favicon.png"
  logoPath : String := "src/assets/logo.png"
  fallbackFaviconPath : String :=
    "node_modules/material-design-icons/maps/2x_web/ic_local_florist_white_18dp.png"
  fallbackLogoPath : String :=
    "node_modules/material-design-icons/maps/2x_web/ic_local_florist_white_24dp.png"
  outputDir : String := "dist"
  publicDir : String := "public"

/-- The variables `isProduction` and `root` of the plugin closure. -/
structure PluginState where
  isProduction : Bool
  root : String

/-- One action of a dev-server middleware on its response or on the handler chain. -/
inductive ServerEffect where
  | setHeader (name value : String)
  | pipeFile (source : Path)
  | next
deriving DecidableEq, Repr

namespace AssetHandler

/-- The hook `configResolved`, given `config.command`, `config.root` and `process.cwd()`. -/
def configResolved (command : String) (configRoot : Option String) (cwd : String) :
    PluginState :=
  ⟨command == "build", orElse configRoot cwd⟩

/-- The hook `resolveId`. -/
def resolveId (id : String) : Option String :=
  if id = "virtual:favicon" ∨ id = "virtual:logo" then some id else none

/-- The hook `load`: the module text returned (`none` for `null`) and the console line. -/
def load (host : Host) (opts : AssetHandlerOptions) (st : PluginState) (fs : FsNode)
    (id : String) : Option String × List Console :=
  if id = "virtual:favicon" then
    let customFavicon := host.resolve st.root opts.faviconPath
    if existsSync fs customFavicon then
      (some ("export default \"" ++ opts.faviconPath ++ "\""),
        [.log ("✅ Using custom favicon: " ++ opts.faviconPath)])
    else
      (some ("export default \"" ++ opts.fallbackFaviconPath ++ "\""),
        [.log ("⚠️  Custom favicon not found, using fallback: " ++ opts.fallbackFaviconPath)])
  else if id = "virtual:logo" then
    let customLogo := host.resolve st.root opts.logoPath
    if existsSync fs customLogo then
      (some ("export default \"" ++ opts.logoPath ++ "\""),
        [.log ("✅ Using custom logo: " ++ opts.logoPath)])
    else
      (some ("export default \"" ++ opts.fallbackLogoPath ++ "\""),
        [.log ("⚠️  Custom logo not found, using fallback: " ++ opts.fallbackLogoPath)])
  else (none, [])

/-- The hook `generateBundle` of the asset handler; `optionsDir` is `options.dir`. -/
def generateBundle (depth : Nat) (host : Host) (opts : AssetHandlerOptions) (st : PluginState)
    (optionsDir : Option String) (fs : FsNode) : Option (Outcome × List Console) :=
  if !st.isProduction then some (⟨fs, none⟩, [])
  else
    let outputPath := host.locate (orElse optionsDir opts.outputDir)
    match (if !existsSync fs outputPath then mkdirSync fs outputPath else .ok fs) with
    | .error e => some (⟨fs, some e⟩, [])
    | .ok fs1 =>
      let r2 := handleAssetCopy host opts.faviconPath opts.fallbackFaviconPath
        (outputPath ++ ["favicon.png"]) "favicon" st.root fs1
      let r3 := handleAssetCopy host opts.logoPath opts.fallbackLogoPath
        (outputPath ++ ["logo.png"]) "logo" st.root r2.1
      match copyPublicDirectory depth host opts.publicDir outputPath st.root r3.1 with
      | none => none
      | some r4 => some (⟨r4.1, none⟩, r2.2 ++ r3.2 ++ r4.2)

/-- The middleware that `configureServer` installs for `/favicon.png`. -/
def faviconMiddleware (host : Host) (opts : AssetHandlerOptions) (st : PluginState)
    (fs : FsNode) : List ServerEffect :=
  let customFavicon := host.resolve st.root opts.faviconPath
  let fallbackFavicon := host.resolve st.root opts.fallbackFaviconPath
  if existsSync fs customFavicon then
    [.setHeader "Content-Type" "image/png", .pipeFile customFavicon]
  else if existsSync fs fallbackFavicon then
    [.setHeader "Content-Type" "image/png", .pipeFile fallbackFavicon]
  else [.next]

/-- The middleware that `configureServer` installs for `/logo.png`. -/
def logoMiddleware (host : Host) (opts : AssetHandlerOptions) (st : PluginState)
    (fs : FsNode) : List ServerEffect :=
  let customLogo := host.resolve st.root opts.logoPath
  let fallbackLogo := host.resolve st.root opts.fallbackLogoPath
  if existsSync fs customLogo then
    [.setHeader "Content-Type" "image/png", .pipeFile customLogo]
  else if existsSync fs fallbackLogo then
    [.setHeader "Content-Type" "image/png", .pipeFile fallbackLogo]
  else [.next]

end AssetHandler

/-! ## The two fallback assets -/

/-- The two assets the plugin resolves with a fallback. -/
inductive AssetKind where
  | favicon
  | logo
deriving DecidableEq, Repr

/-- The preferred (custom) path of an asset. -/
def AssetKind.customPath (opts : AssetHandlerOptions) : AssetKind → String
  | .favicon => opts.faviconPath
  | .logo => opts.logoPath

/-- The fallback path of an asset. -/
def AssetKind.fallbackPath (opts : AssetHandlerOptions) : AssetKind → String
  | .favicon => opts.fallbackFaviconPath
  | .logo => opts.fallbackLogoPath

/-- The fixed name of an asset in the output directory. -/
def AssetKind.outputName : AssetKind → String
  | .favicon => "favicon.png"
  | .logo => "logo.png"

/-- The word for an asset in the console lines. -/
def AssetKind.assetType : AssetKind → String
  | .favicon => "favicon"
  | .logo => "logo"

/-- The id of the virtual module of an asset. -/
def AssetKind.virtualId : AssetKind → String
  | .favicon => "virtual:favicon"
  | .logo => "virtual:logo"

/-- The dev-server middleware of an asset. -/
def AssetHandler.middleware (kind : AssetKind) (host : Host) (opts : AssetHandlerOptions)
    (st : PluginState) (fs : FsNode) : List ServerEffect :=
  match kind with
  | .favicon => AssetHandler.faviconMiddleware host opts st fs
  | .logo => AssetHandler.logoMiddleware host opts st fs

/-- The call of `handleAssetCopy` that `generateBundle` makes for an asset, the output
directory being at `outputPath`. -/
def AssetHandler.emitAsset (kind : AssetKind) (host : Host) (opts : AssetHandlerOptions)
    (st : PluginState) (outputPath : Path) (fs : FsNode) : FsNode × List Console :=
  handleAssetCopy host (kind.customPath opts) (kind.fallbackPath opts)
    (outputPath ++ [kind.outputName]) kind.assetType st.root fs

/-- Whether a stat is that of a directory. -/
def Stat.isDir : Stat → Bool
  | .dir => true
  | .file _ => false

/-- What a mirror of a tree holds at the relative path `rel`, given what the source holds
there: directories and regular files are taken over, except regular files named
`index.html`. -/
def mirrorStat (rel : Path) : Option Stat → Option Stat
  | some .dir => some .dir
  | some (.file c) => if rel.getLast? = some "index.html" then none else some (.file c)
  | none => none

/-! ## Kinds of bundle files -/

/-- The kind of an output artifact. -/
inductive ArtifactKind where
  | script
  | stylesheet
  | other
deriving DecidableEq, Repr

/-- The kind of a bundle file as the banner plugin tells it: a chunk is a script, an asset
whose file name ends in `.css` a stylesheet. -/
def OutputFile.kind : OutputFile → ArtifactKind
  | .chunk _ _ => .script
  | .asset fileName _ => if jsEndsWith fileName ".css" then .stylesheet else .other

/-- The text content of a bundle file: the `code` of a chunk, the `source` of an asset when
it is a string. -/
def OutputFile.text : OutputFile → Option String
  | .chunk _ code => some code
  | .asset _ (.text s) => some s
  | .asset _ (.bytes _) => none

/-- The field `fileName` of a bundle file. -/
def OutputFile.fileName : OutputFile → String
  | .chunk fileName _ => fileName
  | .asset fileName _ => fileName

/-! ## Output assembly (`build/copy-assets.js`) -/

namespace CopyAssets

/-- The test `file.match(/^(lex-web-ui|wav-worker)\.(min\.)?(js|css|map)$/)`: the whole name
is one of the two base names, a dot, optionally `min.`, and one of the three extensions. -/
def matchesBundlePattern (file : String) : Bool :=
  ["lex-web-ui", "wav-worker"].any fun base =>
    ["min.", ""].any fun min =>
      ["js", "css", "map"].any fun ext => file == base ++ "." ++ min ++ ext

/-- The `forEach` over the names read from the dependencies directory: every regular file
is copied into the dist directory under its own name. -/
def copyDependencyFiles (depsDir distDir : Path) :
    List String → FsNode → List Console → Outcome × List Console
  | [], fs, log => (⟨fs, none⟩, log)
  | file :: rest, fs, log =>
    match fs.stat (depsDir ++ [file]) with
    | none => (⟨fs, some .ENOENT⟩, log)
    | some st =>
      if !st.isDir then
        match copyFileSync fs (depsDir ++ [file]) (distDir ++ [file]) with
        | .error e => (⟨fs, some e⟩, log)
        | .ok fs2 =>
          copyDependencyFiles depsDir distDir rest fs2 (log ++ [.log ("  ✓ Copied: " ++ file)])
      else copyDependencyFiles depsDir distDir rest fs log

/-- The dependencies copy rule. -/
def dependenciesRule (depsDir distDir : Path) (fs : FsNode) : Outcome × List Console :=
  if existsSync fs depsDir then
    match readdirSync fs depsDir with
    | .error e => (⟨fs, some e⟩, [])
    | .ok entries => copyDependencyFiles depsDir distDir (entries.map Dirent.name) fs []
  else (⟨fs, none⟩, [.log "  ⚠ Dependencies directory not found"])

/-- The `forEach` over the names read from the bundle directory: every name that matches
the pattern is copied into the dist directory under its own name. -/
def copyBundleFiles (bundleDir distDir : Path) :
    List String → FsNode → List Console → Outcome × List Console
  | [], fs, log => (⟨fs, none⟩, log)
  | file :: rest, fs, log =>
    if matchesBundlePattern file then
      match copyFileSync fs (bundleDir ++ [file]) (distDir ++ [file]) with
      | .error e => (⟨fs, some e⟩, log)
      | .ok fs2 =>
        copyBundleFiles bundleDir distDir rest fs2
          (log ++ [.log ("  ✓ Copied bundle: " ++ file)])
    else copyBundleFiles bundleDir distDir rest fs log

/-- The bundle copy rule. -/
def bundleRule (bundleDir distDir : Path) (fs : FsNode) : Outcome × List Console :=
  if existsSync fs bundleDir then
    match readdirSync fs bundleDir with
    | .error e => (⟨fs, some e⟩, [])
    | .ok entries => copyBundleFiles bundleDir distDir (entries.map Dirent.name) fs []
  else
    (⟨fs, none⟩, [.log
      "  ⚠ Bundle directory not found - run \"cd lex-web-ui && npm run build-dist\" first"])

/-- The `forEach` over the array `websiteFiles`. -/
def copyWebsiteFiles (websiteDir distDir : Path) :
    List String → FsNode → List Console → Outcome × List Console
  | [], fs, log => (⟨fs, none⟩, log)
  | file :: rest, fs, log =>
    if existsSync fs (websiteDir ++ [file]) then
      match copyFileSync fs (websiteDir ++ [file]) (distDir ++ [file]) with
      | .error e => (⟨fs, some e⟩, log)
      | .ok fs2 =>
        copyWebsiteFiles websiteDir distDir rest fs2 (log ++ [.log ("  ✓ Copied: " ++ file)])
    else copyWebsiteFiles websiteDir distDir rest fs log

/-- The website copy rule. -/
def websiteRule (websiteDir distDir : Path) (fs : FsNode) : Outcome × List Console :=
  if existsSync fs websiteDir then
    copyWebsiteFiles websiteDir distDir ["custom-chatbot-style.css"] fs []
  else (⟨fs, none⟩, [])

/-- The script `build/copy-assets.js`, run with `rootDir` the location of the repository:
the state of the file system at its end, the exception that ended it if any, and the lines
on the console. -/
def script (rootDir : Path) (fs : FsNode) : Outcome × List Console :=
  let distDir := rootDir ++ ["dist"]
  let depsDir := rootDir ++ ["src", "dependencies"]
  let bundleDir := rootDir ++ ["lex-web-ui", "dist", "bundle"]
  let websiteDir := rootDir ++ ["src", "website"]
  match (if !existsSync fs distDir then mkdirSync fs distDir else .ok fs) with
  | .error e => (⟨fs, some e⟩, [])
  | .ok fs0 =>
    let r1 := dependenciesRule depsDir distDir fs0
    let log1 := [Console.log "[INFO] Copying dependencies..."] ++ r1.2
    match r1.1.thrown with
    | some _ => (r1.1, log1)
    | none =>
      let r2 := bundleRule bundleDir distDir r1.1.fs
      let log2 := log1 ++ [Console.log "[INFO] Copying lex-web-ui bundle files..."] ++ r2.2
      match r2.1.thrown with
      | some _ => (r2.1, log2)
      | none =>
        let r3 := websiteRule websiteDir distDir r2.1.fs
        let log3 := log2 ++ [Console.log "[INFO] Copying website files..."] ++ r3.2
        match r3.1.thrown with
        | some _ => (r3.1, log3)
        | none => (r3.1, log3 ++ [Console.log "[INFO] Asset copying complete!"])

end CopyAssets

/-! ## Source maps (`lex-web-ui/vite.config.js`, `vite.config.js`) -/

/-- The option `worker.sourcemap` of `lex-web-ui/vite.config.js`. -/
def workerSourcemap (cfg : BuildConfig) : Bool :=
  cfg.isDev

/-- The option `libraryConfig.build.sourcemap`. -/
def LibraryConfig.sourcemap (cfg : BuildConfig) : Bool :=
  cfg.isDev

/-- The option `libraryConfig.build.minify`. -/
def LibraryConfig.minify (cfg : BuildConfig) : Bool :=
  cfg.isProd

/-- The field `isDev` of the object `buildConfig` in the `vite.config.js` of the repository
root, the configuration of the loader. -/
def LoaderConfig.isDev (env : ProcessEnv) : Bool :=
  optTrim env.NODE_ENV == some "development" || !truthy env.NODE_ENV

/-! ## Resolution as the specification words it -/

/-- The result of a resolution in the words of the specification: the path selected, with
the flag `usedFallback`, or the failure `AssetNotFound`. -/
inductive Resolution where
  | resolved (sourcePath : String) (usedFallback : Bool)
  | assetNotFound
deriving DecidableEq, Repr

/-- The resolution algorithm of the specification: the preferred path is selected when
something exists there, else the fallback path when something exists there, else the
resolution fails. -/
def specResolve (host : Host) (root : String) (fs : FsNode)
    (preferredPath fallbackPath : String) : Resolution :=
  if existsSync fs (host.resolve root preferredPath) then .resolved preferredPath false
  else if existsSync fs (host.resolve root fallbackPath) then .resolved fallbackPath true
  else .assetNotFound

/-! ## The dev server over time (`plugins/asset-handler-plugin.js`) -/

/-- What happens at a running dev server: a request for the reserved path of an asset, or
a change of the file system made from outside. -/
inductive ServerEvent where
  | request (kind : AssetKind)
  | change (newFs : FsNode)

/-- The file system after a sequence of events. -/
def AssetHandler.stateAfter : FsNode → List ServerEvent → FsNode
  | fs, [] => fs
  | fs, .request _ :: rest => AssetHandler.stateAfter fs rest
  | _, .change newFs :: rest => AssetHandler.stateAfter newFs rest

/-- The responses of the dev server to the requests of a sequence of events: the
middlewares that `configureServer` installed run on the file system as it is at the time
of the request; they assign to no variable of the plugin. -/
def AssetHandler.serve (host : Host) (opts : AssetHandlerOptions) (st : PluginState) :
    FsNode → List ServerEvent → List (List ServerEffect)
  | _, [] => []
  | fs, .request kind :: rest =>
    AssetHandler.middleware kind host opts st fs :: AssetHandler.serve host opts st fs rest
  | _, .change newFs :: rest => AssetHandler.serve host opts st newFs rest

/-! ## Reading the project metadata (`plugins/banner-plugin.js`) -/

/-- What the banner makes of one property of the parsed `package.json`. The property is
missing (`undefined`); or it holds a falsy value (`null`, `false`, `0` or the empty string);
or it holds a truthy value that the template literal prints as `text` (a string prints as
itself, a number and `true` as they are written, an array as its elements joined by commas,
an object without a property `toString` of its own as `[object Object]`); or it holds a
truthy value whose conversion to a string throws a `TypeError`: `JSON.parse` makes no
function, so an object with a property `toString` of its own (a `name` that is an object
with the one property `toString`, of value `null`, is the plainest such) has no method
that converts it, and an array that holds such an object has none either. -/
inductive JsonField where
  | missing
  | falsy
  | printable (text : String)
  | unprintable
deriving DecidableEq, Repr

/-- The five properties of the parsed `package.json` that the banner reads. -/
structure JsonObject where
  name : JsonField
  version : JsonField
  description : JsonField
  author : JsonField
  license : JsonField
deriving DecidableEq, Repr

/-- The value that `JSON.parse` returns for the text of `package.json`, as far as the
banner reads it: `null`, an object, or a value without any of the five properties (a
boolean, a number, a string or an array). -/
inductive JsonValue where
  | null
  | object (fields : JsonObject)
  | other
deriving DecidableEq, Repr

/-- How a build step ends when it does not return: by `this.error(message)` of the plugin
context, or by a `TypeError`. -/
inductive BuildError where
  | pluginError (message : String)
  | typeError (message : String)
deriving DecidableEq, Repr

/-- The interpolation of `value || fallback` into the template literal of `createBanner`:
a missing or falsy value gives way to the fallback, and what stands is converted to a
string. -/
def JsonField.render (fallback : String) : JsonField → Except BuildError String
  | .missing => .ok fallback
  | .falsy => .ok fallback
  | .printable text => .ok text
  | .unprintable => .error (.typeError "Cannot convert object to primitive value")

/-- The reads `packageInfo.name`, ..., `packageInfo.license` of `createBanner`: reading a
property of `null` or of `undefined` throws a `TypeError`; a boolean, a number, a string
and an array have none of the five properties. -/
def readPackageInfo : Option JsonValue → Except BuildError JsonObject
  | none => .error (.typeError "Cannot read properties of undefined (reading 'name')")
  | some .null => .error (.typeError "Cannot read properties of null (reading 'name')")
  | some (.object fields) => .ok fields
  | some .other => .ok ⟨.missing, .missing, .missing, .missing, .missing⟩

/-- The property of the parsed `package.json` that holds the string `s`, or is missing. -/
def JsonField.ofText : Option String → JsonField
  | none => .missing
  | some s => if s = "" then .falsy else .printable s

/-- The parsed `package.json` whose five properties are strings or missing. -/
def JsonObject.ofInfo (info : PackageInfo) : JsonObject :=
  ⟨.ofText info.name, .ofText info.version, .ofText info.description, .ofText info.author,
    .ofText info.license⟩

namespace BannerPlugin

/-- The hook `buildStart` of a library build: the value assigned to the variable
`packageInfo`, or the error that `this.error` ends the build with. `jsonParse` is
`JSON.parse`, with the message of its `SyntaxError`; `cwd` the working directory against
which `path.resolve` takes `packageJsonPath`. -/
def buildStart (host : Host) (jsonParse : String → Except String JsonValue)
    (cwd packageJsonPath : String) (fs : FsNode) : Except BuildError JsonValue :=
  match readFileSync fs (host.resolve cwd packageJsonPath) with
  | .error e => .error (.pluginError ("Failed to read package.json: " ++ host.message e))
  | .ok packageJsonContent =>
    match jsonParse packageJsonContent with
    | .error message => .error (.pluginError ("Failed to read package.json: " ++ message))
    | .ok value => .ok value

/-- The function `createBanner` of `plugins/banner-plugin.js` on the variable `packageInfo`
as it stands, be it unassigned or any value that `JSON.parse` has returned: the banner, or
the `TypeError` thrown by a read of a property or by the conversion of a value to a
string. -/
def createBannerOfValue (packageInfo : Option JsonValue) (clock : Clock) :
    Except BuildError String := do
  let fields ← readPackageInfo packageInfo
  let name ← fields.name.render "Unknown Package"
  let version ← fields.version.render "0.0.0"
  let description ← fields.description.render ""
  let author ← fields.author.render "Unknown Author"
  let license ← fields.license.render "Unknown License"
  pure ("/*!\n * " ++ name ++ " v" ++ version ++ "\n * " ++ description ++
    "\n * \n * Copyright (c) " ++ toString clock.fullYear ++ " " ++ author ++
    "\n * Licensed under " ++ license ++ "\n * \n * Built on: " ++ isoDate clock ++ "\n */")

/-- The hook `generateBundle` on the variable `packageInfo` as it stands: the banner is
made first, so an exception of `createBanner` leaves every file of the bundle as it was. -/
def generateBundleWith (packageInfo : Option JsonValue) (clock : Clock) (bundle : Bundle) :
    Except BuildError Bundle :=
  match createBannerOfValue packageInfo clock with
  | .error e => .error e
  | .ok banner => .ok (bundle.map (fun entry => (entry.1, stampFile banner entry.2)))

/-- The banner step of a build with the plugin `bannerPlugin(options)`: `buildStart`, then,
unless the build was ended, `generateBundle`. A plugin made for a build that is not a
library build has no hooks. -/
def run (isLibraryBuild : Bool) (host : Host) (jsonParse : String → Except String JsonValue)
    (cwd packageJsonPath : String) (fs : FsNode) (clock : Clock) (bundle : Bundle) :
    Except BuildError Bundle :=
  if !isLibraryBuild then .ok bundle
  else
    match buildStart host jsonParse cwd packageJsonPath fs with
    | .error e => .error e
    | .ok value => generateBundleWith (some value) clock bundle

end BannerPlugin

/-! ## Relations between file system states -/

/-- The state `fs2` differs from `fs` at most by regular files written directly in the
directory `d`, at names where `fs` has no directory; away from `d` the nodes are the same. -/
def WrittenInto (d : Path) (fs fs2 : FsNode) : Prop :=
  (∀ q, ¬ d <+: q → ¬ q <+: d → fs2.lookup q = fs.lookup q) ∧
  ∀ q, fs2.stat q = fs.stat q ∨
    ∃ name c, q = d ++ [name] ∧ fs2.stat q = some (.file c) ∧ fs.stat q ≠ some .dir

/-- Two runs, from `x` to `x2` and from `y` to `y2`, that made the same writes: at every
location either both left what was there or both left the same. -/
def SameWrites (x y x2 y2 : FsNode) : Prop :=
  ∀ q, (x2.stat q = x.stat q ∧ y2.stat q = y.stat q) ∨ x2.stat q = y2.stat q

/-- Two states that copies into the directory `d` cannot tell apart: the same nodes away
from `d`, and directories at the same places at `d` and directly in it. -/
def AgreeAround (d : Path) (x y : FsNode) : Prop :=
  (∀ q, ¬ d <+: q → ¬ q <+: d → x.lookup q = y.lookup q) ∧
  (x.stat d = some .dir ↔ y.stat d = some .dir) ∧
  ∀ name, x.stat (d ++ [name]) = some .dir ↔ y.stat (d ++ [name]) = some .dir

/-- Two runs of copies into `d`, ending in `rx` from `x` and in `ry` from `y`, that went
the same way. -/
def Lockstep (d : Path) (x y : FsNode) (rx ry : Outcome) : Prop :=
  WrittenInto d x rx.fs ∧ WrittenInto d y ry.fs ∧ SameWrites x y rx.fs ry.fs ∧
    rx.thrown.isSome = ry.thrown.isSome

/-! ## Sample inputs -/

/-- A sample `package.json`. -/
def samplePackage : PackageInfo :=
  ⟨some "widget-ui", some "1.2.0", some "A chat widget", some "Example Corp", some "MIT"⟩

/-- A sample time of build. -/
def sampleClock : Clock :=
  ⟨2024, "2024-05-17T09:30:00.000Z"⟩

/-- The names between the `/` of a path string; `cur` holds the name being read, reversed. -/
def splitSlash : List Char → List Char → List String
  | cur, [] => if cur = [] then [] else [String.mk cur.reverse]
  | cur, c :: cs =>
    if c = '/' then
      if cur = [] then splitSlash [] cs else String.mk cur.reverse :: splitSlash [] cs
    else splitSlash (c :: cur) cs

/-- A sample host for path strings without `.` and `..`: `path.resolve` appends a relative
path to the root, a path string given to `fs` is taken from the working directory `/app`,
and `path.relative` is shown by the names joined by `/`. -/
def sampleHost : Host where
  resolve := fun root p => splitSlash [] (root.data ++ '/' :: p.data)
  locate := fun p => splitSlash [] ("/app/".data ++ p.data)
  relative := fun _ p => "/".intercalate p
  message := fun e =>
    match e with
    | .ENOENT => "ENOENT: no such file or directory"
    | .ENOTDIR => "ENOTDIR: not a directory"
    | .EISDIR => "EISDIR: illegal operation on a directory"
    | .EEXIST => "EEXIST: file already exists"
    | .ENAMETOOLONG => "ENAMETOOLONG: name too long"

/-- Sample plugin options with short paths. -/
def sampleOptions : AssetHandlerOptions where
  faviconPath := "assets/favicon.png"
  logoPath := "assets/logo.png"
  fallbackFaviconPath := "icons/flower18.png"
  fallbackLogoPath := "icons/flower24.png"
  outputDir := "dist"
  publicDir := "public"

/-- The plugin state of a build rooted at `/app`. -/
def sampleState : PluginState :=
  AssetHandler.configResolved "build" (some "/app") "/app"

/-- A sample file system: the project at `/app` with a custom favicon, the two fallback
icons and an empty output directory. -/
def sampleTree : FsNode :=
  .dir [("app", .dir [
    ("assets", .dir [("favicon.png", .file [1, 2, 3])]),
    ("icons", .dir [("flower18.png", .file [7, 7]), ("flower24.png", .file [8, 8])]),
    ("dist", .dir [])])]

/-- A sample file system without any icon. -/
def sampleTreeNoIcons : FsNode :=
  .dir [("app", .dir [("dist", .dir [("favicon.png", .file [5])])])]

/-- A location strictly below the location `d`. -/
def Below (d q : Path) : Prop :=
  ∃ name rest, q = d ++ name :: rest

/-- The locations a mirror from `s` to `d` may change in `fs`: those below `d`, under a
name that `s` has an entry of. -/
def Touched (fs : FsNode) (s d q : Path) : Prop :=
  ∃ name rest, q = d ++ name :: rest ∧ fs.stat (s ++ [name]) ≠ none

/-- A sample file system with the fallback icons only, a public directory without icons
and an earlier `dist/favicon.png`. -/
def sampleTreeFallback : FsNode :=
  .dir [("app", .dir [
    ("icons", .dir [("flower18.png", .file [7, 7]), ("flower24.png", .file [8, 8])]),
    ("public", .dir [("robots.txt", .file [1])]),
    ("dist", .dir [("favicon.png", .file [5])])])]

/-- A sample file system with the fallback icons only and a public directory that holds a
`favicon.png` of its own. -/
def sampleTreePublicIcon : FsNode :=
  .dir [("app", .dir [
    ("icons", .dir [("flower18.png", .file [7, 7]), ("flower24.png", .file [8, 8])]),
    ("public", .dir [("favicon.png", .file [9, 9, 9]), ("robots.txt", .file [1])]),
    ("dist", .dir [])])]

/-- A sample file system with a public directory to mirror and an empty `dist`. -/
def sampleTreePublic : FsNode :=
  .dir [("app", .dir [
    ("public", .dir [
      ("index.html", .file [1]),
      ("robots.txt", .file [2]),
      ("img", .dir [("a.png", .file [3]), ("index.html", .file [4])])]),
    ("dist", .dir [])])]

/-- A sample repository for the output assembly: a built library bundle, an earlier
`dist` and no `src` directory. -/
def sampleRepo : FsNode :=
  .dir [("repo", .dir [
    ("dist", .dir [("lex-web-ui.min.js", .file [0]), ("index.html", .file [9])]),
    ("lex-web-ui", .dir [("dist", .dir [("bundle", .dir [
      ("lex-web-ui.min.js", .file [1]),
      ("lex-web-ui.min.css", .file [2]),
      ("lex-web-ui.js.map", .file [3]),
      ("wav-worker.min.js", .file [4]),
      ("report.html", .file [5])])])])])]

/-- A sample repository in which none of the three source roots of the output assembly is
there. -/
def sampleRepoBare : FsNode :=
  .dir [("repo", .dir [("dist", .dir [("index.html", .file [9])])])]

/-- A sample `JSON.parse`, right on three texts: `null`, the object without fields, and the
object whose one field `name` is an object with the field `toString` of value `null`; every
other text counts as malformed. -/
def sampleJsonParse (text : String) : Except String JsonValue :=
  if text = "null" then .ok .null
  else if text = "\x7b\x7d" then
    .ok (.object ⟨.missing, .missing, .missing, .missing, .missing⟩)
  else if text = "\x7b\"name\":\x7b\"toString\":null\x7d\x7d" then
    .ok (.object ⟨.unprintable, .missing, .missing, .missing, .missing⟩)
  else .error "Unexpected token"

/-- A sample file system with a `package.json` that holds an object without fields. -/
def sampleTreeMetadata : FsNode :=
  .dir [("app", .dir [("package.json", .file [0x7B, 0x7D])])]

/-- A sample file system with a `package.json` that holds `null`. -/
def sampleTreeMetadataNull : FsNode :=
  .dir [("app", .dir [("package.json", .file (utf8Encode "null"))])]

/-- A sample file system with a `package.json` whose `name` is an object with the field
`toString` of value `null`. -/
def sampleTreeMetadataToString : FsNode :=
  .dir [("app", .dir [("package.json",
    .file (utf8Encode "\x7b\"name\":\x7b\"toString\":null\x7d\x7d"))])]

/-- A sample file system in which `dist` is a regular file. -/
def sampleTreeDistFile : FsNode :=
  .dir [("app", .dir [("dist", .file [5])])]

/-- A sample file system with the fallback icons and a directory in the place of
`dist/favicon.png`. -/
def sampleTreeNameTaken : FsNode :=
  .dir [("app", .dir [
    ("assets", .dir [("favicon.png", .file [1, 2, 3])]),
    ("icons", .dir [("flower18.png", .file [7, 7]), ("flower24.png", .file [8, 8])]),
    ("dist", .dir [("favicon.png", .dir [])])])]

/-- A sample file system with the custom favicon and the fallback icons, in which `dist` is
a regular file. -/
def sampleTreeIconsDistFile : FsNode :=
  .dir [("app", .dir [
    ("assets", .dir [("favicon.png", .file [1, 2, 3])]),
    ("icons", .dir [("flower18.png", .file [7, 7]), ("flower24.png", .file [8, 8])]),
    ("dist", .file [5])])]

/-- A sample file system with the fallback icons only and a directory in the place of
`dist/favicon.png`. -/
def sampleTreeFallbackNameTaken : FsNode :=
  .dir [("app", .dir [
    ("icons", .dir [("flower18.png", .file [7, 7]), ("flower24.png", .file [8, 8])]),
    ("dist", .dir [("favicon.png", .dir [])])])]

/-- A sample file system with the fallback icons only, in which `dist` is a regular file. -/
def sampleTreeFallbackDistFile : FsNode :=
  .dir [("app", .dir [
    ("icons", .dir [("flower18.png", .file [7, 7]), ("flower24.png", .file [8, 8])]),
    ("dist", .file [5])])]

/-- A sample file system with the fallback icons only and no output directory. -/
def sampleTreeFallbackNoDist : FsNode :=
  .dir [("app", .dir [
    ("icons", .dir [("flower18.png", .file [7, 7]), ("flower24.png", .file [8, 8])])])]

/-- A sample file system with the fallback icons only and an empty output directory. -/
def sampleTreeFallbackEmptyDist : FsNode :=
  .dir [("app", .dir [
    ("icons", .dir [("flower18.png", .file [7, 7]), ("flower24.png", .file [8, 8])]),
    ("dist", .dir [])])]

/-- Sample options whose preferred favicon path is the directory `dist`, on the way to the
output directory `dist/bundle`. -/
def sampleOptionsFaviconOnPath : AssetHandlerOptions where
  faviconPath := "dist"
  logoPath := "assets/logo.png"
  fallbackFaviconPath := "icons/flower18.png"
  fallbackLogoPath := "icons/flower24.png"
  outputDir := "dist"
  publicDir := "public"

/-- Sample options whose preferred logo path is the output location of the favicon. -/
def sampleOptionsLogoAtFavicon : AssetHandlerOptions where
  faviconPath := "assets/favicon.png"
  logoPath := "dist/favicon.png"
  fallbackFaviconPath := "icons/flower18.png"
  fallbackLogoPath := "icons/flower24.png"
  outputDir := "dist"
  publicDir := "public"

/-- Sample options whose fallback logo path is the output location of the favicon. -/
def sampleOptionsLogoFallbackAtFavicon : AssetHandlerOptions where
  faviconPath := "assets/favicon.png"
  logoPath := "assets/logo.png"
  fallbackFaviconPath := "icons/flower18.png"
  fallbackLogoPath := "dist/favicon.png"
  outputDir := "dist"
  publicDir := "public"

/-- A sample file system in which the output directory `public/dist` lies inside the public
directory. -/
def sampleTreeNested : FsNode :=
  .dir [("app", .dir [
    ("icons", .dir [("flower18.png", .file [7, 7]), ("flower24.png", .file [8, 8])]),
    ("public", .dir [("robots.txt", .file [1]), ("dist", .dir [])])])]

/-- A sample repository in which a directory has the place of `dist/lex-web-ui.js`. -/
def sampleRepoNameTaken : FsNode :=
  .dir [("repo", .dir [
    ("dist", .dir [("lex-web-ui.js", .dir [])]),
    ("lex-web-ui", .dir [("dist", .dir [("bundle", .dir [
      ("lex-web-ui.js", .file [1]),
      ("lex-web-ui.min.js", .file [2])])])])])]

/-- A sample repository in which `dist` is a regular file. -/
def sampleRepoDistFile : FsNode :=
  .dir [("repo", .dir [
    ("dist", .file [5]),
    ("lex-web-ui", .dir [("dist", .dir [("bundle", .dir [
      ("lex-web-ui.js", .file [1]),
      ("lex-web-ui.min.js", .file [2])])])])])]

/-- A sample repository in which a directory has the place of `dist/lex-web-ui.min.js`. -/
def sampleRepoMinTaken : FsNode :=
  .dir [("repo", .dir [
    ("dist", .dir [("lex-web-ui.min.js", .dir [])]),
    ("lex-web-ui", .dir [("dist", .dir [("bundle", .dir [
      ("lex-web-ui.min.js", .file [1]),
      ("wav-worker.min.js", .file [4])])])])])]

/-- A sample repository whose bundle directory holds a directory named `lex-web-ui.js`. -/
def sampleRepoBundleDir : FsNode :=
  .dir [("repo", .dir [
    ("dist", .dir []),
    ("lex-web-ui", .dir [("dist", .dir [("bundle", .dir [
      ("lex-web-ui.js", .dir []),
      ("lex-web-ui.min.js", .file [2])])])])])]

/-- A sample repository whose bundle directory holds, next to the outputs of a production
build, the directory `images` mirrored from the public directory. -/
def sampleRepoMirrored : FsNode :=
  .dir [("repo", .dir [
    ("dist", .dir [("lex-web-ui.min.js", .file [0]), ("index.html", .file [9])]),
    ("lex-web-ui", .dir [("dist", .dir [("bundle", .dir [
      ("images", .dir [("icon.png", .file [6])]),
      ("lex-web-ui.min.js", .file [1]),
      ("lex-web-ui.min.css", .file [2]),
      ("lex-web-ui.js.map", .file [3]),
      ("wav-worker.min.js", .file [4])])])])])]

/-! ## Properties: environment classification -/

/-- A raw value is rejected when, once trimmed, it is non-empty and not among `allowed`. -/
theorem rejected_iff (allowed : List String) (raw : Option String) :
    (truthy (optTrim raw) && !includes allowed (optTrim raw)) = true ↔
      ∃ s, raw = some s ∧ jsTrim s ≠ "" ∧ jsTrim s ∉ allowed := by
  cases raw with
  | none => simp [optTrim, truthy]
  | some s => simp [optTrim, truthy, includes]

/-- Validation throws exactly on a rejected `BUILD_TARGET` or a rejected `NODE_ENV`. -/
theorem validateEnvironment_fails_iff (env : ProcessEnv) (ver : String) :
    (validateEnvironment env (buildConfig env) ver).isOk = false ↔
      ((∃ s, env.BUILD_TARGET = some s ∧ jsTrim s ≠ "" ∧ jsTrim s ≠ "lib" ∧ jsTrim s ≠ "app") ∨
       (∃ s, env.NODE_ENV = some s ∧ jsTrim s ≠ "" ∧ jsTrim s ≠ "production" ∧
          jsTrim s ≠ "development")) := by
  have h1 := rejected_iff ["lib", "app"] env.BUILD_TARGET
  have h2 := rejected_iff ["production", "development"] env.NODE_ENV
  simp only [List.mem_cons, List.mem_singleton, List.not_mem_nil, or_false, not_or] at h1 h2
  rw [← h1, ← h2]
  unfold validateEnvironment
  simp only []
  split
  · rename_i h; simp [Except.isOk, Except.toBool, h]
  · rename_i h
    split
    · rename_i h2; simp [Except.isOk, Except.toBool, h2]
    · rename_i h2; simp [Except.isOk, Except.toBool, h, h2]

/-- The module yields a selector exactly when validation returns. -/
theorem viteConfigModule_isOk (env : ProcessEnv) (ver : String) :
    (viteConfigModule env ver).isOk = (validateEnvironment env (buildConfig env) ver).isOk := by
  unfold viteConfigModule
  simp only []
  cases validateEnvironment env (buildConfig env) ver <;> rfl

theorem dropWhile_all_iff (p : Char → Bool) (l : List Char) :
    (l.dropWhile p).all p = true ↔ l.all p = true := by
  induction l with
  | nil => simp
  | cons c cs ih =>
    by_cases hc : p c = true
    · simp [List.dropWhile_cons, hc, ih]
    · simp [List.dropWhile_cons, hc]

/-- Trimming gives the empty string exactly for a string made of white space only. -/
theorem jsTrim_eq_empty_iff (s : String) :
    jsTrim s = "" ↔ s.data.all isJsWhitespace = true := by
  have h : jsTrim s = "" ↔
      ((s.data.dropWhile isJsWhitespace).reverse.dropWhile isJsWhitespace) = [] := by
    unfold jsTrim
    constructor
    · intro h
      have := congrArg String.data h
      simpa using this
    · intro h
      rw [h]; rfl
  rw [h, List.dropWhile_eq_nil_iff, ← dropWhile_all_iff]
  simp

/-- C1: `validateEnvironment` throws exactly when the trimmed `BUILD_TARGET` is non-empty and
neither `lib` nor `app`, or the trimmed `NODE_ENV` is non-empty and neither `production` nor
`development`; the module yields a selector exactly when validation returns; and the raw
target `bogus` is rejected whatever the environment value. -/
theorem C1_validateEnvironment_fails_iff (env : ProcessEnv) (ver : String) :
    ((validateEnvironment env (buildConfig env) ver).isOk = false ↔
      ((∃ s, env.BUILD_TARGET = some s ∧ jsTrim s ≠ "" ∧ jsTrim s ≠ "lib" ∧ jsTrim s ≠ "app") ∨
       (∃ s, env.NODE_ENV = some s ∧ jsTrim s ≠ "" ∧ jsTrim s ≠ "production" ∧
          jsTrim s ≠ "development"))) ∧
    ((viteConfigModule env ver).isOk = (validateEnvironment env (buildConfig env) ver).isOk) ∧
    (validateEnvironment ⟨some "bogus", env.NODE_ENV⟩
        (buildConfig ⟨some "bogus", env.NODE_ENV⟩) ver).isOk = false ∧
    (viteConfigModule ⟨some "bogus", env.NODE_ENV⟩ ver).isOk = false := by
  have bogus : (validateEnvironment ⟨some "bogus", env.NODE_ENV⟩
        (buildConfig ⟨some "bogus", env.NODE_ENV⟩) ver).isOk = false := by
    rw [validateEnvironment_fails_iff]
    exact Or.inl ⟨"bogus", rfl, by decide, by decide, by decide⟩
  exact ⟨validateEnvironment_fails_iff env ver, viteConfigModule_isOk env ver, bogus,
    by rw [viteConfigModule_isOk]; exact bogus⟩

theorem getBuildMode_eq_lib_iff (env : ProcessEnv) :
    getBuildMode (buildConfig env) = "lib" ↔ optTrim env.BUILD_TARGET = some "lib" := by
  unfold getBuildMode buildConfig
  by_cases h : optTrim env.BUILD_TARGET = some "lib"
  · simp [h]
  · simp [h]

theorem getBuildMode_eq_app_iff (env : ProcessEnv) :
    getBuildMode (buildConfig env) = "app" ↔ optTrim env.BUILD_TARGET ≠ some "lib" := by
  unfold getBuildMode buildConfig
  by_cases h : optTrim env.BUILD_TARGET = some "lib"
  · simp [h]
  · simp [h]

theorem getEnvironment_eq_production_iff (env : ProcessEnv) :
    getEnvironment (buildConfig env) = "production" ↔
      optTrim env.NODE_ENV = some "production" := by
  unfold getEnvironment buildConfig
  by_cases h : optTrim env.NODE_ENV = some "production"
  · simp [h]
  · simp [h]

theorem getEnvironment_eq_development_iff (env : ProcessEnv) :
    getEnvironment (buildConfig env) = "development" ↔
      optTrim env.NODE_ENV ≠ some "production" := by
  unfold getEnvironment buildConfig
  by_cases h : optTrim env.NODE_ENV = some "production"
  · simp [h]
  · simp [h]

/-- Among accepted raw values, those not trimming to `tok` are the absent ones, the blank ones
and those trimming to the other recognised token. -/
theorem accepted_other_iff (raw : Option String) (tok other : String) (hne : other ≠ tok)
    (hne2 : tok ≠ "")
    (hacc : ¬ ∃ s, raw = some s ∧ jsTrim s ≠ "" ∧ jsTrim s ≠ tok ∧ jsTrim s ≠ other) :
    optTrim raw ≠ some tok ↔
      (raw = none ∨ ∃ s, raw = some s ∧ (s.data.all isJsWhitespace = true ∨ jsTrim s = other)) := by
  cases raw with
  | none => simp [optTrim]
  | some s =>
    have e1 : optTrim (some s) ≠ some tok ↔ jsTrim s ≠ tok := by simp [optTrim]
    have e2 : (some s = none ∨ ∃ t, some s = some t ∧
        (t.data.all isJsWhitespace = true ∨ jsTrim t = other)) ↔
        (jsTrim s = "" ∨ jsTrim s = other) := by
      constructor
      · rintro (h | ⟨t, ht, h⟩)
        · cases h
        · cases ht
          rwa [jsTrim_eq_empty_iff]
      · intro h
        exact Or.inr ⟨s, rfl, by rwa [← jsTrim_eq_empty_iff]⟩
    rw [e1, e2]
    constructor
    · intro h
      by_contra hc
      push_neg at hc
      exact hacc ⟨s, rfl, hc.1, h, hc.2⟩
    · rintro (h | h) <;> rw [h]
      · exact fun e => hne2 e.symm
      · exact hne

/-- C2: for raw inputs that validation accepts, the mode is `lib` exactly when the trimmed
`BUILD_TARGET` is `lib` and `app` otherwise (so `app` for an absent, blank or `app` target,
and for nothing else), and the environment is `production` exactly when the trimmed
`NODE_ENV` is `production` and `development` otherwise (so `development` for an absent,
blank or `development` value, and for nothing else); the module exports that selector. -/
theorem C2_selector_resolution (env : ProcessEnv) (ver : String)
    (h : (validateEnvironment env (buildConfig env) ver).isOk = true) :
    (getBuildMode (buildConfig env) = "lib" ↔ optTrim env.BUILD_TARGET = some "lib") ∧
    (getBuildMode (buildConfig env) = "app" ↔ optTrim env.BUILD_TARGET ≠ some "lib") ∧
    (getBuildMode (buildConfig env) = "app" ↔
      (env.BUILD_TARGET = none ∨
        ∃ s, env.BUILD_TARGET = some s ∧
          (s.data.all isJsWhitespace = true ∨ jsTrim s = "app"))) ∧
    (getEnvironment (buildConfig env) = "production" ↔
      optTrim env.NODE_ENV = some "production") ∧
    (getEnvironment (buildConfig env) = "development" ↔
      optTrim env.NODE_ENV ≠ some "production") ∧
    (getEnvironment (buildConfig env) = "development" ↔
      (env.NODE_ENV = none ∨
        ∃ s, env.NODE_ENV = some s ∧
          (s.data.all isJsWhitespace = true ∨ jsTrim s = "development"))) ∧
    viteConfigModule env ver =
      .ok ⟨getBuildMode (buildConfig env), getEnvironment (buildConfig env)⟩ := by
  have hne : ¬ (validateEnvironment env (buildConfig env) ver).isOk = false := by simp [h]
  rw [validateEnvironment_fails_iff, not_or] at hne
  refine ⟨getBuildMode_eq_lib_iff env, getBuildMode_eq_app_iff env, ?_,
    getEnvironment_eq_production_iff env, getEnvironment_eq_development_iff env, ?_, ?_⟩
  · rw [getBuildMode_eq_app_iff]
    exact accepted_other_iff _ "lib" "app" (by decide) (by decide) hne.1
  · rw [getEnvironment_eq_development_iff]
    exact accepted_other_iff _ "production" "development" (by decide) (by decide) hne.2
  · unfold viteConfigModule
    simp only []
    cases hv : validateEnvironment env (buildConfig env) ver with
    | error e => rw [hv] at h; simp [Except.isOk, Except.toBool] at h
    | ok l => rfl

/-- C2 at the raw inputs ` lib ` and `production` followed by a newline. -/
theorem C2_selector_resolution_witness :
    (validateEnvironment ⟨some " lib ", some "production\n"⟩
        (buildConfig ⟨some " lib ", some "production\n"⟩) "1.0.0").isOk = true ∧
    viteConfigModule ⟨some " lib ", some "production\n"⟩ "1.0.0" = .ok ⟨"lib", "production"⟩ :=
  ⟨by decide,
   (C2_selector_resolution ⟨some " lib ", some "production\n"⟩ "1.0.0" (by decide)).2.2.2.2.2.2.trans
     rfl⟩

/-! ## Properties: worker chunk naming -/

/-- A pattern whose first character does not recur in it cannot start inside `x` and run
over into a copy of itself placed after `x`. -/
theorem prefix_append_self_iff {α : Type} (d : α) (w x e : List α) (hd : d ∉ w) (hx : x ≠ []) :
    (d :: w) <+: x ++ ((d :: w) ++ e) ↔ (d :: w) <+: x := by
  constructor
  · intro h
    by_cases hl : (d :: w).length ≤ x.length
    · exact List.prefix_of_prefix_length_le h (List.prefix_append x _) hl
    · exfalso
      push_neg at hl
      have hxp : x <+: d :: w :=
        List.prefix_of_prefix_length_le (List.prefix_append x _) h (le_of_lt hl)
      obtain ⟨r, hr⟩ := hxp
      have h1 : x ++ r <+: x ++ ((d :: w) ++ e) := by rw [hr]; exact h
      have h2 : r <+: (d :: w) ++ e := (List.prefix_append_right_inj x).1 h1
      cases x with
      | nil => exact hx rfl
      | cons y x' =>
        cases r with
        | nil =>
          rw [List.append_nil] at hr
          rw [hr] at hl
          exact lt_irrefl _ hl
        | cons z r' =>
          have hz : z = d := by
            obtain ⟨t, ht⟩ := h2
            simp at ht
            exact ht.1
          simp at hr
          apply hd
          rw [← hr.2, hz]
          simp
  · intro h
    exact h.trans (List.prefix_append x _)

theorem countOccurrences_append_self (d : Char) (w a e : List Char) (hd : d ∉ w) :
    countOccurrences (d :: w) (a ++ ((d :: w) ++ e)) =
      countOccurrences (d :: w) a + countOccurrences (d :: w) ((d :: w) ++ e) := by
  induction a with
  | nil => simp [countOccurrences]
  | cons c a ih =>
    have hb : (d :: w).isPrefixOf (c :: a ++ ((d :: w) ++ e)) = (d :: w).isPrefixOf (c :: a) := by
      rw [Bool.eq_iff_iff, List.isPrefixOf_iff_prefix, List.isPrefixOf_iff_prefix]
      exact prefix_append_self_iff d w (c :: a) e hd (by simp)
    show (if (d :: w).isPrefixOf (c :: a ++ ((d :: w) ++ e)) then 1 else 0) +
        countOccurrences (d :: w) (a ++ ((d :: w) ++ e)) = _
    rw [hb, ih]
    simp only [countOccurrences]
    omega

theorem entryFileNames_data (cfg : BuildConfig) (name : String) :
    (entryFileNames cfg name).data =
      (removeTrailing "-worker" name).data ++
        ("-worker".data ++ (if cfg.isProd then ".min.js" else ".js").data) := by
  simp [entryFileNames, String.data_append]

/-- C10 (as the code behaves): the name returned by `entryFileNames` contains `-worker` once
more than the chunk name from which one trailing `-worker` was removed; hence it contains
`-worker` exactly once precisely when that stripped base name contains none. -/
theorem C10_worker_suffix_count (cfg : BuildConfig) (name : String) :
    countOccurrences "-worker".data (entryFileNames cfg name).data =
      countOccurrences "-worker".data (removeTrailing "-worker" name).data + 1 ∧
    (countOccurrences "-worker".data (entryFileNames cfg name).data = 1 ↔
      countOccurrences "-worker".data (removeTrailing "-worker" name).data = 0) := by
  have h : countOccurrences "-worker".data (entryFileNames cfg name).data =
      countOccurrences "-worker".data (removeTrailing "-worker" name).data + 1 := by
    rw [entryFileNames_data]
    have hp : "-worker".data = '-' :: "worker".data := rfl
    rw [hp, countOccurrences_append_self '-' "worker".data _ _ (by decide)]
    cases cfg.isProd <;> rfl
  exact ⟨h, by omega⟩

/-- C10 fails as stated: the chunk name `a-worker-worker` is named `a-worker-worker.js`,
which contains `-worker` twice. -/
theorem C10_counterexample :
    entryFileNames (buildConfig ⟨some "lib", some "development"⟩) "a-worker-worker" =
      "a-worker-worker.js" ∧
    countOccurrences "-worker".data
      (entryFileNames (buildConfig ⟨some "lib", some "development"⟩) "a-worker-worker").data = 2 ∧
    countOccurrences "-worker".data
      (entryFileNames (buildConfig ⟨some "lib", some "development"⟩) "a-worker-worker").data ≠ 1 := by
  decide

theorem removeTrailing_append (p a : String) : removeTrailing p (a ++ p) = a := by
  unfold removeTrailing
  have h : p.data.isSuffixOf (a ++ p).data = true := by
    rw [List.isSuffixOf_iff_suffix, String.data_append]
    exact List.suffix_append _ _
  rw [if_pos h]
  apply String.ext
  simp [String.data_append]

/-- Whether a string ends with a pattern is decided by an end part that is as long as the
pattern. -/
theorem isSuffixOf_append (p a s : List Char) (h : p.length ≤ s.length) :
    p.isSuffixOf (a ++ s) = p.isSuffixOf s := by
  rw [Bool.eq_iff_iff, List.isSuffixOf_iff_suffix, List.isSuffixOf_iff_suffix]
  constructor
  · intro hp
    exact List.suffix_of_suffix_length_le hp (List.suffix_append a s) h
  · intro hp
    exact hp.trans (List.suffix_append a s)

theorem entryFileNames_eq (cfg : BuildConfig) (name : String) :
    entryFileNames cfg name =
      removeTrailing "-worker" name ++ "-worker" ++ (if cfg.isProd then ".min.js" else ".js") :=
  rfl

theorem jsEndsWith_entryFileNames (cfg : BuildConfig) (name p : String)
    (h : p.data.length ≤ 10) :
    jsEndsWith (entryFileNames cfg name) p =
      jsEndsWith ("-worker" ++ (if cfg.isProd then ".min.js" else ".js")) p := by
  unfold jsEndsWith
  rw [entryFileNames_eq, String.append_assoc, String.data_append]
  apply isSuffixOf_append
  cases cfg.isProd
  · exact h
  · exact h.trans (by decide)

/-- C11: worker naming is suffix-stable. The name that `entryFileNames` returns for a chunk
name, taken without its extension `.js` or `.min.js`, is named again to the same file name,
whatever the chunk name and the configuration; so `wav-worker` and `wav` are both named
`wav-worker.js` in development. -/
theorem C11_worker_naming_suffix_stable (cfg : BuildConfig) (name : String) :
    entryFileNames cfg (stripWorkerExtension (entryFileNames cfg name)) =
      entryFileNames cfg name ∧
    stripWorkerExtension (entryFileNames cfg name) = removeTrailing "-worker" name ++ "-worker" ∧
    entryFileNames (buildConfig ⟨some "lib", some "development"⟩) "wav-worker" =
      "wav-worker.js" ∧
    entryFileNames (buildConfig ⟨some "lib", some "development"⟩) "wav" = "wav-worker.js" := by
  have hstrip : stripWorkerExtension (entryFileNames cfg name) =
      removeTrailing "-worker" name ++ "-worker" := by
    unfold stripWorkerExtension
    rw [jsEndsWith_entryFileNames cfg name ".min.js" (by decide), entryFileNames_eq]
    cases cfg.isProd
    · rw [if_neg (by decide)]
      exact removeTrailing_append ".js" _
    · rw [if_pos (by decide)]
      exact removeTrailing_append ".min.js" _
  refine ⟨?_, hstrip, by decide, by decide⟩
  rw [hstrip, entryFileNames_eq, removeTrailing_append, entryFileNames_eq]

/-- C12: the name that `entryFileNames` returns ends with `.min.js` exactly when the
environment of the configuration is production; in development it ends with `.js` and not
with `.min.js`. -/
theorem C12_min_marker_iff_production (cfg : BuildConfig) (name : String) :
    (jsEndsWith (entryFileNames cfg name) ".min.js" = true ↔
      getEnvironment cfg = "production") ∧
    (jsEndsWith (entryFileNames cfg name) ".min.js" = false ↔
      getEnvironment cfg = "development") ∧
    jsEndsWith (entryFileNames cfg name) ".js" = true := by
  rw [jsEndsWith_entryFileNames cfg name ".min.js" (by decide),
    jsEndsWith_entryFileNames cfg name ".js" (by decide)]
  unfold getEnvironment
  cases cfg.isProd <;> decide

/-! ## Properties: library output naming -/

theorem getEnvironment_cases (cfg : BuildConfig) :
    (cfg.isProd = true ∧ getEnvironment cfg = "production") ∨
    (cfg.isProd = false ∧ getEnvironment cfg = "development") := by
  unfold getEnvironment
  cases cfg.isProd <;> simp

/-- C13: for a raw target that trims to `lib` (as the raw target `lib` does) and an accepted
raw environment value, the module resolves to library mode, and the library script is named
`lex-web-ui.min.js` exactly when the environment resolves to production, that is when the
trimmed `NODE_ENV` is `production`, and `lex-web-ui.js` otherwise; two configurations get the
same script name only when they resolve to the same environment. -/
theorem C13_library_script_name (env : ProcessEnv) (ver : String)
    (htarget : optTrim env.BUILD_TARGET = some "lib")
    (h : (validateEnvironment env (buildConfig env) ver).isOk = true) :
    viteConfigModule env ver = .ok ⟨"lib", getEnvironment (buildConfig env)⟩ ∧
    (LibraryConfig.fileName (buildConfig env) = "lex-web-ui.min.js" ↔
      getEnvironment (buildConfig env) = "production") ∧
    (LibraryConfig.fileName (buildConfig env) = "lex-web-ui.min.js" ↔
      optTrim env.NODE_ENV = some "production") ∧
    (LibraryConfig.fileName (buildConfig env) = "lex-web-ui.js" ↔
      getEnvironment (buildConfig env) = "development") ∧
    (∀ cfg2 : BuildConfig, LibraryConfig.fileName (buildConfig env) = LibraryConfig.fileName cfg2 ↔
      getEnvironment (buildConfig env) = getEnvironment cfg2) := by
  have hmode : getBuildMode (buildConfig env) = "lib" := (getBuildMode_eq_lib_iff env).2 htarget
  have hname : ∀ cfg : BuildConfig,
      (cfg.isProd = true ∧ getEnvironment cfg = "production" ∧
        LibraryConfig.fileName cfg = "lex-web-ui.min.js") ∨
      (cfg.isProd = false ∧ getEnvironment cfg = "development" ∧
        LibraryConfig.fileName cfg = "lex-web-ui.js") := by
    intro cfg
    unfold getEnvironment LibraryConfig.fileName
    cases cfg.isProd <;> simp
  have h1 : (LibraryConfig.fileName (buildConfig env) = "lex-web-ui.min.js" ↔
      getEnvironment (buildConfig env) = "production") := by
    rcases hname (buildConfig env) with ⟨_, he, hf⟩ | ⟨_, he, hf⟩ <;> rw [he, hf] <;> decide
  refine ⟨?_, h1, ?_, ?_, ?_⟩
  · unfold viteConfigModule
    simp only []
    cases hv : validateEnvironment env (buildConfig env) ver with
    | error e => rw [hv] at h; simp [Except.isOk, Except.toBool] at h
    | ok l => rw [hmode]
  · rw [h1, getEnvironment_eq_production_iff]
  · rcases hname (buildConfig env) with ⟨_, he, hf⟩ | ⟨_, he, hf⟩ <;> rw [he, hf] <;> decide
  · intro cfg2
    rcases hname (buildConfig env) with ⟨_, he, hf⟩ | ⟨_, he, hf⟩ <;>
      rcases hname cfg2 with ⟨_, he2, hf2⟩ | ⟨_, he2, hf2⟩ <;>
      rw [he, hf, he2, hf2] <;> decide

/-- C13 at the raw target `lib` and the raw environment `production`. -/
theorem C13_library_script_name_witness :
    viteConfigModule ⟨some "lib", some "production"⟩ "1.0.0" = .ok ⟨"lib", "production"⟩ ∧
    LibraryConfig.fileName (buildConfig ⟨some "lib", some "production"⟩) =
      "lex-web-ui.min.js" ∧
    jsEndsWith (LibraryConfig.fileName (buildConfig ⟨some "lib", some "production"⟩))
      ".min.js" = true :=
  ⟨(C13_library_script_name ⟨some "lib", some "production"⟩ "1.0.0" (by decide)
      (by decide)).1.trans rfl,
   (C13_library_script_name ⟨some "lib", some "production"⟩ "1.0.0" (by decide)
      (by decide)).2.2.1.2 (by decide),
   by decide⟩

/-- C14 (as the code behaves): in the library configuration `assetFileNames` renames the
asset named `style.css`, to `lex-web-ui.min.css` in production and to `lex-web-ui.css` in
development, and returns every other asset name as it is, the names of other stylesheets
included. -/
theorem C14_library_stylesheet_name (cfg : BuildConfig) :
    (LibraryConfig.assetFileNames cfg (some "style.css") = "lex-web-ui.min.css" ↔
      getEnvironment cfg = "production") ∧
    (LibraryConfig.assetFileNames cfg (some "style.css") = "lex-web-ui.css" ↔
      getEnvironment cfg = "development") ∧
    (∀ name : String, LibraryConfig.assetFileNames cfg (some name) =
      if name = "style.css" then
        if getEnvironment cfg = "production" then "lex-web-ui.min.css" else "lex-web-ui.css"
      else name) := by
  refine ⟨?_, ?_, ?_⟩
  · unfold LibraryConfig.assetFileNames getEnvironment
    cases cfg.isProd <;> decide
  · unfold LibraryConfig.assetFileNames getEnvironment
    cases cfg.isProd <;> decide
  · intro name
    unfold LibraryConfig.assetFileNames getEnvironment templateString
    by_cases hn : name = "style.css"
    · subst hn
      cases cfg.isProd <;> decide
    · simp [hn]

/-- C14 fails as stated: in a production library build the stylesheet asset `theme.css`
keeps its name. -/
theorem C14_counterexample :
    jsEndsWith "theme.css" ".css" = true ∧
    getBuildMode (buildConfig ⟨some "lib", some "production"⟩) = "lib" ∧
    getEnvironment (buildConfig ⟨some "lib", some "production"⟩) = "production" ∧
    LibraryConfig.assetFileNames (buildConfig ⟨some "lib", some "production"⟩)
      (some "theme.css") = "theme.css" ∧
    LibraryConfig.assetFileNames (buildConfig ⟨some "lib", some "production"⟩)
      (some "theme.css") ≠ "lex-web-ui.min.css" := by
  decide

/-! ## Properties: text encoding -/

theorem char_toNat_valid (c : Char) :
    c.toNat < 0xD800 ∨ (0xDFFF < c.toNat ∧ c.toNat < 0x110000) := by
  have := c.valid
  simp only [UInt32.isValidChar, Nat.isValidChar] at this
  exact this

/-- Decoding reads back an encoded character and goes on after it. -/
theorem utf8DecodeFrom_encodeChar (c : Char) (rest : Bytes) :
    utf8DecodeFrom none (utf8EncodeChar c ++ rest) = c :: utf8DecodeFrom none rest := by
  have hv := char_toNat_valid c
  have hc : Char.ofNat c.toNat = c := Char.ofNat_toNat c
  generalize hn : c.toNat = n at hv hc
  unfold utf8EncodeChar
  rw [hn]
  by_cases h1 : n < 0x80
  · have : n ≤ 0x7F := by omega
    simp [h1, utf8DecodeFrom, utf8Lead, this, hc]
  · by_cases h2 : n < 0x800
    · have a1 : ¬ (0xC0 + n / 0x40 ≤ 0x7F) := by omega
      have a2 : 0xC2 ≤ 0xC0 + n / 0x40 ∧ 0xC0 + n / 0x40 ≤ 0xDF := by omega
      have a3 : 0x80 ≤ 0x80 + n % 0x40 ∧ 0x80 + n % 0x40 ≤ 0xBF := by omega
      have a4 : (0xC0 + n / 0x40) % 0x20 * 0x40 + (0x80 + n % 0x40) % 0x40 = n := by omega
      simp only [h1, h2, if_false, if_true, List.cons_append, List.nil_append, utf8DecodeFrom,
        utf8Lead, a1, a2, a3, a4, hc, and_self, le_refl]
    · by_cases h3 : n < 0x10000
      · have a1 : ¬ (0xE0 + n / 0x1000 ≤ 0x7F) := by omega
        have a2 : ¬ (0xC2 ≤ 0xE0 + n / 0x1000 ∧ 0xE0 + n / 0x1000 ≤ 0xDF) := by omega
        have a3 : 0xE0 ≤ 0xE0 + n / 0x1000 ∧ 0xE0 + n / 0x1000 ≤ 0xEF := by omega
        have a4 : (if 0xE0 + n / 0x1000 = 0xE0 then 0xA0 else 0x80) ≤ 0x80 + n / 0x40 % 0x40 ∧
            0x80 + n / 0x40 % 0x40 ≤ (if 0xE0 + n / 0x1000 = 0xED then 0x9F else 0xBF) := by
          split_ifs <;> omega
        have a5 : 0x80 ≤ 0x80 + n % 0x40 ∧ 0x80 + n % 0x40 ≤ 0xBF := by omega
        have a6 : ((0xE0 + n / 0x1000) % 0x10 * 0x40 + (0x80 + n / 0x40 % 0x40) % 0x40) * 0x40 +
            (0x80 + n % 0x40) % 0x40 = n := by omega
        simp only [h1, h2, h3, if_false, if_true, List.cons_append, List.nil_append,
          utf8DecodeFrom, utf8Lead, a1, a2, a3, a4, a5, a6, hc, and_self, le_refl]
        simp
      · have a1 : ¬ (0xF0 + n / 0x40000 ≤ 0x7F) := by omega
        have a2 : ¬ (0xC2 ≤ 0xF0 + n / 0x40000 ∧ 0xF0 + n / 0x40000 ≤ 0xDF) := by omega
        have a3 : ¬ (0xE0 ≤ 0xF0 + n / 0x40000 ∧ 0xF0 + n / 0x40000 ≤ 0xEF) := by omega
        have a3b : 0xF0 ≤ 0xF0 + n / 0x40000 ∧ 0xF0 + n / 0x40000 ≤ 0xF4 := by omega
        have a4 : (if 0xF0 + n / 0x40000 = 0xF0 then 0x90 else 0x80) ≤
              0x80 + n / 0x1000 % 0x40 ∧
            0x80 + n / 0x1000 % 0x40 ≤ (if 0xF0 + n / 0x40000 = 0xF4 then 0x8F else 0xBF) := by
          split_ifs <;> omega
        have a5 : 0x80 ≤ 0x80 + n / 0x40 % 0x40 ∧ 0x80 + n / 0x40 % 0x40 ≤ 0xBF := by omega
        have a5b : 0x80 ≤ 0x80 + n % 0x40 ∧ 0x80 + n % 0x40 ≤ 0xBF := by omega
        have a6 : (((0xF0 + n / 0x40000) % 0x08 * 0x40 + (0x80 + n / 0x1000 % 0x40) % 0x40) *
            0x40 + (0x80 + n / 0x40 % 0x40) % 0x40) * 0x40 + (0x80 + n % 0x40) % 0x40 = n := by
          omega
        simp only [h1, h2, h3, if_false, if_true, List.cons_append, List.nil_append,
          utf8DecodeFrom, utf8Lead, a1, a2, a3, a3b, a4, a5, a5b, a6, hc, and_self, le_refl]
        simp

theorem utf8DecodeFrom_flatMap (cs : List Char) :
    utf8DecodeFrom none (cs.flatMap utf8EncodeChar) = cs := by
  induction cs with
  | nil => rfl
  | cons c cs ih => rw [List.flatMap_cons, utf8DecodeFrom_encodeChar, ih]

/-- Text written as UTF-8 is read back unchanged. -/
theorem utf8Decode_utf8Encode (s : String) : utf8Decode (utf8Encode s) = s := by
  unfold utf8Decode utf8Encode
  rw [utf8DecodeFrom_flatMap]

theorem utf8Encode_append (s t : String) :
    utf8Encode (s ++ t) = utf8Encode s ++ utf8Encode t := by
  simp [utf8Encode, String.data_append, List.flatMap_append]

/-! ## Properties: file system primitives -/

theorem findEntry_setEntry_same (name : String) (n : FsNode) (es : List (String × FsNode)) :
    findEntry name (setEntry name n es) = some n := by
  induction es with
  | nil => simp [setEntry, findEntry]
  | cons e es ih =>
    obtain ⟨k, v⟩ := e
    by_cases h : k = name
    · simp [setEntry, findEntry, h]
    · simp [setEntry, findEntry, h, ih]

theorem findEntry_setEntry_ne (name k : String) (n : FsNode) (es : List (String × FsNode))
    (h : k ≠ name) : findEntry k (setEntry name n es) = findEntry k es := by
  induction es with
  | nil => simp [setEntry, findEntry, Ne.symm h]
  | cons e es ih =>
    obtain ⟨k2, v⟩ := e
    by_cases h2 : k2 = name
    · have h3 : ¬ k2 = k := fun e => h (e ▸ h2)
      simp [setEntry, findEntry, h2, Ne.symm h]
    · by_cases h3 : k2 = k
      · subst h3
        simp [setEntry, findEntry, h]
      · simp [setEntry, findEntry, h2, h3, ih]

theorem lookup_nil (fs : FsNode) : fs.lookup [] = some fs := rfl

theorem lookup_file_cons (c : Bytes) (name : String) (rest : Path) :
    (FsNode.file c).lookup (name :: rest) = none := rfl

theorem lookup_dir_cons (es : List (String × FsNode)) (name : String) (rest : Path) :
    (FsNode.dir es).lookup (name :: rest) =
      (findEntry name es).bind (fun n => n.lookup rest) := by
  show (match findEntry name es with
    | some child => child.lookup rest
    | none => none) = _
  cases findEntry name es <;> rfl

theorem put_nil (fs n : FsNode) : fs.put [] n = .error .EISDIR := rfl

theorem put_file_cons (c : Bytes) (name : String) (rest : Path) (n : FsNode) :
    (FsNode.file c).put (name :: rest) n = .error .ENOTDIR := rfl

theorem put_dir_single (es : List (String × FsNode)) (name : String) (n : FsNode) :
    (FsNode.dir es).put [name] n = .ok (.dir (setEntry name n es)) := rfl

theorem put_dir_cons (es : List (String × FsNode)) (name next : String) (rest : Path)
    (n : FsNode) :
    (FsNode.dir es).put (name :: next :: rest) n =
      match findEntry name es with
      | some child =>
        match child.put (next :: rest) n with
        | .ok child2 => .ok (.dir (setEntry name child2 es))
        | .error e => .error e
      | none => .error .ENOENT := rfl

theorem mkdirSync_file_nil (c : Bytes) : mkdirSync (.file c) [] = .error .EEXIST := rfl

theorem mkdirSync_dir_nil (es : List (String × FsNode)) :
    mkdirSync (.dir es) [] = .ok (.dir es) := rfl

theorem mkdirSync_file_cons (c : Bytes) (name : String) (rest : Path) :
    mkdirSync (.file c) (name :: rest) = .error .ENOTDIR := rfl

theorem mkdirSync_dir_cons (es : List (String × FsNode)) (name : String) (rest : Path) :
    mkdirSync (.dir es) (name :: rest) =
      match mkdirSync ((findEntry name es).getD (.dir [])) rest with
      | .ok child2 => .ok (.dir (setEntry name child2 es))
      | .error e => .error e := rfl

/-- After `put` the node at the location is the node put there. -/
theorem lookup_put_same (p : Path) : ∀ (fs fs2 n : FsNode),
    fs.put p n = .ok fs2 → fs2.lookup p = some n := by
  induction p with
  | nil => intro fs fs2 n h; simp [put_nil] at h
  | cons name rest ih =>
    intro fs fs2 n h
    cases fs with
    | file c => simp [put_file_cons] at h
    | dir es =>
      cases rest with
      | nil =>
        simp only [put_dir_single, Except.ok.injEq] at h
        subst h
        simp [lookup_dir_cons, findEntry_setEntry_same, lookup_nil]
      | cons next rest2 =>
        rw [put_dir_cons] at h
        cases hf : findEntry name es with
        | none => simp [hf] at h
        | some child =>
          simp only [hf] at h
          cases hp : child.put (next :: rest2) n with
          | error e => simp [hp] at h
          | ok child2 =>
            simp only [hp, Except.ok.injEq] at h
            subst h
            simp only [lookup_dir_cons, findEntry_setEntry_same, Option.some_bind]
            exact ih child child2 n hp

/-- `put` succeeds at the location of an existing entry other than the root. -/
theorem put_ok_of_lookup (p : Path) : ∀ (fs x n : FsNode),
    fs.lookup p = some x → p ≠ [] → ∃ fs2, fs.put p n = .ok fs2 := by
  induction p with
  | nil => intro fs x n _ h; exact absurd rfl h
  | cons name rest ih =>
    intro fs x n h _
    cases fs with
    | file c => simp [lookup_file_cons] at h
    | dir es =>
      cases rest with
      | nil => exact ⟨_, rfl⟩
      | cons next rest2 =>
        rw [lookup_dir_cons] at h
        cases hf : findEntry name es with
        | none => simp [hf] at h
        | some child =>
          simp only [hf, Option.some_bind] at h
          obtain ⟨c2, hc2⟩ := ih child x n h (by simp)
          refine ⟨.dir (setEntry name c2 es), ?_⟩
          rw [put_dir_cons]
          simp only [hf, hc2]

/-! ## Properties: file system state -/

theorem stat_eq_file_iff (fs : FsNode) (p : Path) (content : Bytes) :
    fs.stat p = some (.file content) ↔ fs.lookup p = some (.file content) := by
  unfold FsNode.stat
  cases h : fs.lookup p with
  | none => simp
  | some n => cases n <;> simp [FsNode.toStat]

theorem stat_nil (fs : FsNode) : fs.stat [] = some fs.toStat := rfl

theorem stat_file_cons (c : Bytes) (name : String) (rest : Path) :
    (FsNode.file c).stat (name :: rest) = none := rfl

theorem stat_dir_cons (es : List (String × FsNode)) (name : String) (rest : Path) :
    (FsNode.dir es).stat (name :: rest) = (findEntry name es).bind (fun n => n.stat rest) := by
  unfold FsNode.stat
  rw [lookup_dir_cons]
  cases findEntry name es <;> rfl

theorem lookup_append (p : Path) : ∀ (fs : FsNode) (q : Path),
    fs.lookup (p ++ q) = (fs.lookup p).bind (fun n => n.lookup q) := by
  induction p with
  | nil => intro fs q; rfl
  | cons name rest ih =>
    intro fs q
    cases fs with
    | file c => rfl
    | dir es =>
      simp only [List.cons_append, lookup_dir_cons]
      cases findEntry name es with
      | none => rfl
      | some child => exact ih child q

theorem stat_append (fs : FsNode) (p q : Path) :
    fs.stat (p ++ q) = (fs.lookup p).bind (fun n => n.stat q) := by
  unfold FsNode.stat
  rw [lookup_append]
  cases fs.lookup p <;> rfl

/-- Below a location that holds no directory there is nothing. -/
theorem stat_below_non_dir (fs : FsNode) (p : Path) (name : String) (rest : Path)
    (h : fs.stat p ≠ some .dir) : fs.stat (p ++ name :: rest) = none := by
  rw [stat_append]
  unfold FsNode.stat at h
  cases hl : fs.lookup p with
  | none => rfl
  | some n =>
    cases n with
    | file c => rfl
    | dir es => simp [hl, FsNode.toStat] at h

/-- The location above an existing entry holds a directory. -/
theorem stat_parent_of_exists (fs : FsNode) (p : Path) (name : String) (rest : Path)
    (h : fs.stat (p ++ name :: rest) ≠ none) : fs.stat p = some .dir := by
  by_contra hc
  exact h (stat_below_non_dir fs p name rest hc)

/-- Writing a regular file where no directory stands changes that location only. -/
theorem stat_put_file (p : Path) : ∀ (fs fs2 : FsNode) (c : Bytes),
    fs.put p (.file c) = .ok fs2 → fs.stat p ≠ some .dir →
    ∀ q, fs2.stat q = if q = p then some (.file c) else fs.stat q := by
  induction p with
  | nil => intro fs fs2 c h; simp [put_nil] at h
  | cons name rest ih =>
    intro fs fs2 c h hnd q
    cases fs with
    | file c0 => simp [put_file_cons] at h
    | dir es =>
      cases rest with
      | nil =>
        simp only [put_dir_single, Except.ok.injEq] at h
        subst h
        cases q with
        | nil => simp [stat_nil, FsNode.toStat]
        | cons k qr =>
          rw [stat_dir_cons, stat_dir_cons]
          by_cases hk : k = name
          · subst hk
            rw [findEntry_setEntry_same]
            cases qr with
            | nil => simp [stat_nil, FsNode.toStat]
            | cons k2 qr2 =>
              have := stat_below_non_dir (.dir es) [k] k2 qr2 hnd
              simp only [List.singleton_append, stat_dir_cons] at this
              simp [this, stat_file_cons]
          · rw [findEntry_setEntry_ne _ _ _ _ hk]
            simp [hk]
      | cons next rest2 =>
        rw [put_dir_cons] at h
        cases hf : findEntry name es with
        | none => simp [hf] at h
        | some child =>
          simp only [hf] at h
          cases hp : child.put (next :: rest2) (.file c) with
          | error e => simp [hp] at h
          | ok child2 =>
            simp only [hp, Except.ok.injEq] at h
            subst h
            have hnd2 : child.stat (next :: rest2) ≠ some .dir := by
              rw [stat_dir_cons, hf] at hnd
              exact hnd
            cases q with
            | nil => simp [stat_nil, FsNode.toStat]
            | cons k qr =>
              rw [stat_dir_cons, stat_dir_cons]
              by_cases hk : k = name
              · subst hk
                rw [findEntry_setEntry_same, hf]
                simp only [Option.some_bind, List.cons.injEq, true_and]
                exact ih child child2 c hp hnd2 qr
              · rw [findEntry_setEntry_ne _ _ _ _ hk]
                simp [hk]

/-- In an existing directory `put` succeeds for every name. -/
theorem put_ok_of_parent_dir (par : Path) : ∀ (fs : FsNode) (name : String) (n : FsNode),
    fs.stat par = some .dir → ∃ fs2, fs.put (par ++ [name]) n = .ok fs2 := by
  induction par with
  | nil =>
    intro fs name n h
    cases fs with
    | file c => simp [stat_nil, FsNode.toStat] at h
    | dir es => exact ⟨_, rfl⟩
  | cons k rest ih =>
    intro fs name n h
    cases fs with
    | file c => simp [stat_file_cons] at h
    | dir es =>
      rw [stat_dir_cons] at h
      cases hf : findEntry k es with
      | none => simp [hf] at h
      | some child =>
        rw [hf] at h
        obtain ⟨c2, hc2⟩ := ih child name n h
        refine ⟨.dir (setEntry k c2 es), ?_⟩
        cases hr : rest ++ [name] with
        | nil => simp at hr
        | cons a b =>
          rw [hr] at hc2
          rw [List.cons_append, hr, put_dir_cons]
          simp only [hf, hc2]

theorem stat_eq_dir_iff (fs : FsNode) (p : Path) :
    fs.stat p = some .dir ↔ ∃ es, fs.lookup p = some (.dir es) := by
  unfold FsNode.stat
  cases h : fs.lookup p with
  | none => simp
  | some n => cases n <;> simp [FsNode.toStat]

theorem stat_eq_none_iff (fs : FsNode) (p : Path) :
    fs.stat p = none ↔ fs.lookup p = none := by
  unfold FsNode.stat
  cases h : fs.lookup p <;> simp

theorem existsSync_eq_true_iff (fs : FsNode) (p : Path) :
    existsSync fs p = true ↔ fs.stat p ≠ none := by
  unfold existsSync FsNode.stat
  cases h : fs.lookup p <;> simp

theorem existsSync_eq_false_iff (fs : FsNode) (p : Path) :
    existsSync fs p = false ↔ fs.stat p = none := by
  unfold existsSync FsNode.stat
  cases h : fs.lookup p <;> simp

/-- A successful `copyFileSync` puts the content of the source file at the destination and
changes nothing else. -/
theorem stat_copyFileSync (fs fs2 : FsNode) (src dest : Path)
    (h : copyFileSync fs src dest = .ok fs2) :
    ∃ c, fs.stat src = some (.file c) ∧
      ∀ q, fs2.stat q = if q = dest then some (.file c) else fs.stat q := by
  unfold copyFileSync at h
  cases hs : fs.lookup src with
  | none => simp [hs] at h
  | some n =>
    cases n with
    | dir es => simp [hs] at h
    | file c =>
      refine ⟨c, (stat_eq_file_iff fs src c).2 hs, ?_⟩
      simp only [hs] at h
      cases hd : fs.lookup dest with
      | none =>
        simp only [hd] at h
        exact stat_put_file dest fs fs2 c h (by simp [FsNode.stat, hd])
      | some m =>
        cases m with
        | dir es => simp [hd] at h
        | file c2 =>
          simp only [hd] at h
          exact stat_put_file dest fs fs2 c h (by simp [FsNode.stat, hd, FsNode.toStat])

/-- `copyFileSync` succeeds from a regular file to a name in an existing directory that is
not taken by a directory. -/
theorem copyFileSync_ok (fs : FsNode) (src par : Path) (name : String) (c : Bytes)
    (hs : fs.stat src = some (.file c)) (hd : fs.stat par = some .dir)
    (hn : fs.stat (par ++ [name]) ≠ some .dir) :
    ∃ fs2, copyFileSync fs src (par ++ [name]) = .ok fs2 := by
  obtain ⟨fs2, h2⟩ := put_ok_of_parent_dir par fs name (.file c) hd
  refine ⟨fs2, ?_⟩
  unfold copyFileSync
  rw [(stat_eq_file_iff fs src c).1 hs]
  cases hl : fs.lookup (par ++ [name]) with
  | none => simpa using h2
  | some m =>
    cases m with
    | dir es => exact absurd ((stat_eq_dir_iff _ _).2 ⟨es, hl⟩) hn
    | file c2 => simpa using h2

theorem append_singleton_ne_self (p : Path) (x : String) : p ++ [x] ≠ p := by
  intro h
  have := congrArg List.length h
  simp at this

theorem append_singleton_inj (p q : Path) (x y : String) (h : p ++ [x] = q ++ [y]) :
    p = q ∧ x = y := by
  have := List.append_inj' h rfl
  simpa using this

theorem not_concat_prefix_self (p : Path) (x : String) : ¬ (p ++ [x]) <+: p := by
  intro h
  have := h.length_le
  simp at this

theorem copyFileSync_error_of_src (fs : FsNode) (src dest : Path)
    (h : ∀ c, fs.stat src ≠ some (.file c)) : ∃ e, copyFileSync fs src dest = .error e := by
  cases hc : copyFileSync fs src dest with
  | error e => exact ⟨e, rfl⟩
  | ok fs2 =>
    obtain ⟨c, hc2, _⟩ := stat_copyFileSync fs fs2 src dest hc
    exact absurd hc2 (h c)

theorem copyFileSync_error_of_dest_dir (fs : FsNode) (src dest : Path)
    (h : fs.stat dest = some .dir) : ∃ e, copyFileSync fs src dest = .error e := by
  obtain ⟨es, hes⟩ := (stat_eq_dir_iff fs dest).1 h
  unfold copyFileSync
  cases hs : fs.lookup src with
  | none => exact ⟨_, rfl⟩
  | some n =>
    cases n with
    | dir es2 => exact ⟨_, rfl⟩
    | file c => simp only [hes]; exact ⟨_, rfl⟩

theorem copyFileSync_error_of_parent (fs : FsNode) (src par : Path) (name : String)
    (h : fs.stat par ≠ some .dir) : ∃ e, copyFileSync fs src (par ++ [name]) = .error e := by
  cases hc : copyFileSync fs src (par ++ [name]) with
  | error e => exact ⟨e, rfl⟩
  | ok fs2 =>
    exfalso
    obtain ⟨c, _, hq⟩ := stat_copyFileSync fs fs2 src _ hc
    have h1 : fs2.stat (par ++ [name]) ≠ none := by
      rw [hq, if_pos rfl]; simp
    have h2 := stat_parent_of_exists fs2 par name [] h1
    rw [hq, if_neg (append_singleton_ne_self par name).symm] at h2
    exact h h2

/-- A successful `mkdirSync` turns the locations along the path into directories and
changes nothing else. -/
theorem stat_mkdirSync (p : Path) : ∀ (fs fs2 : FsNode), mkdirSync fs p = .ok fs2 →
    ∀ q, fs2.stat q = if q <+: p then some .dir else fs.stat q := by
  induction p with
  | nil =>
    intro fs fs2 h q
    cases fs with
    | file c => simp [mkdirSync_file_nil] at h
    | dir es =>
      simp only [mkdirSync_dir_nil, Except.ok.injEq] at h
      subst h
      by_cases hq : q = []
      · subst hq; simp [stat_nil, FsNode.toStat]
      · simp [List.prefix_nil, hq]
  | cons name rest ih =>
    intro fs fs2 h q
    cases fs with
    | file c => simp [mkdirSync_file_cons] at h
    | dir es =>
      rw [mkdirSync_dir_cons] at h
      cases hm : mkdirSync ((findEntry name es).getD (.dir [])) rest with
      | error e => simp [hm] at h
      | ok child2 =>
        simp only [hm, Except.ok.injEq] at h
        subst h
        cases q with
        | nil => simp [stat_nil, FsNode.toStat]
        | cons k qr =>
          rw [stat_dir_cons, stat_dir_cons]
          by_cases hk : k = name
          · subst hk
            rw [findEntry_setEntry_same]
            simp only [Option.some_bind, List.cons_prefix_cons, true_and]
            rw [ih _ _ hm qr]
            by_cases hp : qr <+: rest
            · simp [hp]
            · simp only [hp, if_false]
              cases hf : findEntry k es with
              | some child => simp
              | none =>
                cases qr with
                | nil => exact absurd List.nil_prefix hp
                | cons k2 qr2 => simp [stat_dir_cons, findEntry]
          · rw [findEntry_setEntry_ne _ _ _ _ hk]
            simp [List.cons_prefix_cons, hk]

/-- `mkdirSync` succeeds when no regular file stands along the path. -/
theorem mkdirSync_ok (p : Path) : ∀ (fs : FsNode),
    (∀ q, q <+: p → ∀ c, fs.stat q ≠ some (.file c)) → ∃ fs2, mkdirSync fs p = .ok fs2 := by
  induction p with
  | nil =>
    intro fs h
    cases fs with
    | file c => exact absurd rfl (h [] List.nil_prefix c)
    | dir es => exact ⟨_, rfl⟩
  | cons name rest ih =>
    intro fs h
    cases fs with
    | file c => exact absurd rfl (h [] List.nil_prefix c)
    | dir es =>
      have hc : ∀ q, q <+: rest → ∀ c, ((findEntry name es).getD (.dir [])).stat q ≠
          some (.file c) := by
        intro q hq c
        have := h (name :: q) ((List.prefix_cons_inj name).2 hq) c
        rw [stat_dir_cons] at this
        cases hf : findEntry name es with
        | some child => simpa [hf] using this
        | none =>
          cases q with
          | nil => simp [stat_nil, FsNode.toStat]
          | cons k qr => simp [stat_dir_cons, findEntry]
      obtain ⟨c2, hc2⟩ := ih _ hc
      exact ⟨_, by rw [mkdirSync_dir_cons, hc2]⟩

/-- A successful `mkdirSync` found no regular file along the path. -/
theorem mkdirSync_ok_no_file (p : Path) : ∀ (fs fs2 : FsNode), mkdirSync fs p = .ok fs2 →
    ∀ q, q <+: p → ∀ c, fs.stat q ≠ some (.file c) := by
  induction p with
  | nil =>
    intro fs fs2 h q hq c
    rw [List.prefix_nil] at hq
    subst hq
    cases fs with
    | file c0 => simp [mkdirSync_file_nil] at h
    | dir es => simp [stat_nil, FsNode.toStat]
  | cons name rest ih =>
    intro fs fs2 h q hq c
    cases fs with
    | file c0 => simp [mkdirSync_file_cons] at h
    | dir es =>
      rw [mkdirSync_dir_cons] at h
      cases hm : mkdirSync ((findEntry name es).getD (.dir [])) rest with
      | error e => simp [hm] at h
      | ok child2 =>
        cases q with
        | nil => simp [stat_nil, FsNode.toStat]
        | cons k qr =>
          rw [List.cons_prefix_cons] at hq
          obtain ⟨hk, hqr⟩ := hq
          subst hk
          rw [stat_dir_cons]
          cases hf : findEntry k es with
          | none => simp
          | some child =>
            rw [hf] at hm
            simpa using ih child child2 hm qr hqr c

theorem mem_listEntries (es : List (String × FsNode)) (e : Dirent) :
    e ∈ listEntries es ↔ ∃ n, findEntry e.name es = some n ∧ n.isDir = e.isDirectory := by
  induction es with
  | nil => simp [listEntries, findEntry]
  | cons x es ih =>
    obtain ⟨k, v⟩ := x
    simp only [listEntries, List.mem_cons, List.mem_filter, findEntry, ih]
    by_cases hk : k = e.name
    · subst hk
      simp only [if_true, Option.some.injEq, exists_eq_left', bne_self_eq_false,
        Bool.false_eq_true, and_false, or_false]
      constructor
      · intro h; rw [h]
      · intro h; cases e; simp_all
    · have hne : e.name ≠ k := fun h => hk h.symm
      simp only [hk, if_false]
      constructor
      · rintro (h | ⟨h, _⟩)
        · exact absurd (by rw [h]) hk
        · exact h
      · intro h
        exact Or.inr ⟨h, by simpa using hne⟩

theorem listEntries_nodup (es : List (String × FsNode)) :
    ((listEntries es).map Dirent.name).Nodup := by
  induction es with
  | nil => simp [listEntries]
  | cons x es ih =>
    obtain ⟨k, v⟩ := x
    simp only [listEntries, List.map_cons, List.nodup_cons, List.mem_map, List.mem_filter]
    constructor
    · rintro ⟨e, ⟨_, he⟩, hk⟩
      simp [hk] at he
    · exact ih.sublist ((List.filter_sublist _).map _)

/-- What `readdirSync` returns on success: the location is a directory, the names are
distinct, and the entries are those that `stat` sees below the location. -/
theorem readdirSync_ok (fs : FsNode) (p : Path) (entries : List Dirent)
    (h : readdirSync fs p = .ok entries) :
    fs.stat p = some .dir ∧ (entries.map Dirent.name).Nodup ∧
    ∀ e, e ∈ entries ↔ ∃ st, fs.stat (p ++ [e.name]) = some st ∧ st.isDir = e.isDirectory := by
  unfold readdirSync at h
  cases hl : fs.lookup p with
  | none => simp [hl] at h
  | some n =>
    cases n with
    | file c => simp [hl] at h
    | dir es =>
      simp only [hl, Except.ok.injEq] at h
      subst h
      refine ⟨(stat_eq_dir_iff fs p).2 ⟨es, hl⟩, listEntries_nodup es, ?_⟩
      intro e
      rw [mem_listEntries, stat_append, hl]
      simp only [Option.some_bind, stat_dir_cons, stat_nil]
      cases hf : findEntry e.name es with
      | none => simp
      | some m => cases m <;> simp [FsNode.toStat, FsNode.isDir, Stat.isDir]

/-- On a directory `readdirSync` succeeds. -/
theorem readdirSync_of_dir (fs : FsNode) (p : Path) (h : fs.stat p = some .dir) :
    ∃ entries, readdirSync fs p = .ok entries := by
  obtain ⟨es, hes⟩ := (stat_eq_dir_iff fs p).1 h
  exact ⟨listEntries es, by simp [readdirSync, hes]⟩

/-- Every location above an existing one holds a directory. -/
theorem stat_above_of_exists (fs : FsNode) (q p : Path) (hq : q <+: p) (hne : q ≠ p)
    (hp : fs.stat p ≠ none) : fs.stat q = some .dir := by
  obtain ⟨r, hr⟩ := hq
  cases r with
  | nil => exact absurd (by simpa using hr) hne
  | cons name rest =>
    subst hr
    exact stat_parent_of_exists fs q name rest hp

theorem not_prefix_append_of_unrelated (s d r : Path) (h1 : ¬ s <+: d) (h2 : ¬ d <+: s) :
    ¬ d <+: s ++ r := by
  intro h
  rcases List.prefix_or_prefix_of_prefix h (List.prefix_append s r) with h3 | h3
  · exact h2 h3
  · exact h1 h3

theorem unrelated_concat (s d : Path) (n : String) (h1 : ¬ s <+: d) (h2 : ¬ d <+: s) :
    ¬ (s ++ [n]) <+: (d ++ [n]) ∧ ¬ (d ++ [n]) <+: (s ++ [n]) := by
  constructor
  · intro h
    rcases List.prefix_concat_iff.1 h with h3 | h3
    · exact h1 (by rw [List.append_cancel_right h3])
    · exact h1 ((List.prefix_append s [n]).trans h3)
  · intro h
    rcases List.prefix_concat_iff.1 h with h3 | h3
    · exact h2 (by rw [List.append_cancel_right h3])
    · exact h2 ((List.prefix_append d [n]).trans h3)

/-! ## Properties: banner stamping -/

theorem append_newline_ne (a b s : String) : a ++ "\n" ++ (b ++ "\n" ++ s) ≠ b ++ "\n" ++ s := by
  intro h
  have hl := congrArg String.length h
  simp only [String.length_append] at hl
  have : ("\n" : String).length = 1 := rfl
  omega

theorem generateBundle_twice (pkg : PackageInfo) (c1 c2 : Clock) (bundle : Bundle) :
    BannerPlugin.generateBundle pkg c2 (BannerPlugin.generateBundle pkg c1 bundle) =
      bundle.map (fun entry => (entry.1,
        BannerPlugin.stampFile (BannerPlugin.createBanner pkg c2)
          (BannerPlugin.stampFile (BannerPlugin.createBanner pkg c1) entry.2))) := by
  simp [BannerPlugin.generateBundle, List.map_map, Function.comp_def]

/-- C6 (as the code behaves): the hook prepends without looking for an earlier banner. Two
runs stamp every file twice; a script chunk then holds the second banner, a newline and
the content of the first run, and so does a string-sourced stylesheet: in both the content
after two runs differs from the content after one run. -/
theorem C6_second_run_prepends_again (pkg : PackageInfo) (c1 c2 : Clock) (bundle : Bundle) :
    BannerPlugin.generateBundle pkg c2 (BannerPlugin.generateBundle pkg c1 bundle) =
      bundle.map (fun entry => (entry.1,
        BannerPlugin.stampFile (BannerPlugin.createBanner pkg c2)
          (BannerPlugin.stampFile (BannerPlugin.createBanner pkg c1) entry.2))) ∧
    (∀ fileName code,
      BannerPlugin.stampFile (BannerPlugin.createBanner pkg c2)
          (BannerPlugin.stampFile (BannerPlugin.createBanner pkg c1) (.chunk fileName code)) =
        .chunk fileName (BannerPlugin.createBanner pkg c2 ++ "\n" ++
          (BannerPlugin.createBanner pkg c1 ++ "\n" ++ code)) ∧
      BannerPlugin.stampFile (BannerPlugin.createBanner pkg c2)
          (BannerPlugin.stampFile (BannerPlugin.createBanner pkg c1) (.chunk fileName code)) ≠
        BannerPlugin.stampFile (BannerPlugin.createBanner pkg c1) (.chunk fileName code)) ∧
    (∀ fileName s,
      BannerPlugin.stampFile (BannerPlugin.createBanner pkg c2)
          (BannerPlugin.stampFile (BannerPlugin.createBanner pkg c1)
            (.asset fileName (.text s))) =
        .asset fileName (.text (if jsEndsWith fileName ".css" then
          BannerPlugin.createBanner pkg c2 ++ "\n" ++
            (BannerPlugin.createBanner pkg c1 ++ "\n" ++ s) else s)) ∧
      (BannerPlugin.stampFile (BannerPlugin.createBanner pkg c2)
          (BannerPlugin.stampFile (BannerPlugin.createBanner pkg c1)
            (.asset fileName (.text s))) =
        BannerPlugin.stampFile (BannerPlugin.createBanner pkg c1) (.asset fileName (.text s)) ↔
        jsEndsWith fileName ".css" = false)) := by
  refine ⟨generateBundle_twice pkg c1 c2 bundle, ?_, ?_⟩
  · intro fileName code
    refine ⟨rfl, ?_⟩
    simp only [BannerPlugin.stampFile, ne_eq, OutputFile.chunk.injEq, true_and]
    exact append_newline_ne _ _ _
  · intro fileName s
    by_cases h : jsEndsWith fileName ".css" = true
    · simp only [BannerPlugin.stampFile, h, if_true, OutputFile.asset.injEq,
        AssetSource.text.injEq, true_and]
      simp [append_newline_ne]
    · simp only [Bool.not_eq_true] at h
      simp [BannerPlugin.stampFile, h]

/-- C6 fails as stated: a second run of the hook over a bundle with one script chunk
changes the chunk again. -/
theorem C6_counterexample :
    BannerPlugin.generateBundle samplePackage sampleClock
        (BannerPlugin.generateBundle samplePackage sampleClock
          [("lex-web-ui.js", .chunk "lex-web-ui.js" "var a=1;")]) ≠
      BannerPlugin.generateBundle samplePackage sampleClock
        [("lex-web-ui.js", .chunk "lex-web-ui.js" "var a=1;")] := by
  decide

theorem createBanner_data (pkg : PackageInfo) (clock : Clock) :
    ∃ rest, (PostBuildCss.createBanner pkg clock).data = '/' :: '*' :: '!' :: rest := by
  unfold PostBuildCss.createBanner
  simp only [String.data_append]
  exact ⟨_, rfl⟩

theorem pluginBanner_data (pkg : PackageInfo) (clock : Clock) :
    ∃ rest, (BannerPlugin.createBanner pkg clock).data = '/' :: '*' :: '!' :: rest := by
  unfold BannerPlugin.createBanner
  simp only [String.data_append]
  exact ⟨_, rfl⟩

theorem jsStartsWith_sentinel (s : String) (rest : List Char)
    (h : s.data = '/' :: '*' :: '!' :: rest) : jsStartsWith s "/*!" = true := by
  unfold jsStartsWith
  rw [h, List.isPrefixOf_iff_prefix]
  exact ⟨rest, rfl⟩

theorem jsStartsWith_append (a b p : String) (h : jsStartsWith a p = true) :
    jsStartsWith (a ++ b) p = true := by
  unfold jsStartsWith at *
  rw [List.isPrefixOf_iff_prefix] at *
  rw [String.data_append]
  exact h.trans (List.prefix_append _ _)

/-- A file that holds the UTF-8 text `t` starting with the sentinel is left as it is. -/
theorem addBannerToCssFile_of_sentinel (pkg : PackageInfo) (clock : Clock) (fs : FsNode)
    (p : Path) (content : Bytes) (hfile : fs.lookup p = some (.file content))
    (hs : jsStartsWith (utf8Decode content) "/*!" = true) :
    PostBuildCss.addBannerToCssFile pkg clock fs p =
      .ok (fs, [.log ("✓ Banner already present in " ++ p.getLast?.getD "")]) := by
  simp [PostBuildCss.addBannerToCssFile, readFileSync, hfile, hs]

/-- A file that does not start with the sentinel gets the banner and a newline in front. -/
theorem addBannerToCssFile_of_no_sentinel (pkg : PackageInfo) (clock : Clock) (fs : FsNode)
    (p : Path) (content : Bytes) (hfile : fs.lookup p = some (.file content)) (hp : p ≠ [])
    (hs : jsStartsWith (utf8Decode content) "/*!" = false) :
    ∃ fs2, PostBuildCss.addBannerToCssFile pkg clock fs p =
        .ok (fs2, [.log ("✓ Added banner to " ++ p.getLast?.getD "")]) ∧
      fs2.lookup p = some (.file (utf8Encode
        (PostBuildCss.createBanner pkg clock ++ "\n" ++ utf8Decode content))) := by
  obtain ⟨fs2, h2⟩ := put_ok_of_lookup p fs _ (.file (utf8Encode
    (PostBuildCss.createBanner pkg clock ++ "\n" ++ utf8Decode content))) hfile hp
  refine ⟨fs2, ?_, lookup_put_same p fs fs2 _ h2⟩
  simp [PostBuildCss.addBannerToCssFile, readFileSync, writeFileSync, hfile, hs, h2]

/-- A string-sourced stylesheet that comes out of the hook starts with the sentinel. -/
theorem stampFile_text_sentinel (banner : String) (rest : List Char)
    (hb : banner.data = '/' :: '*' :: '!' :: rest) (f : OutputFile) (fileName t : String)
    (hcss : jsEndsWith fileName ".css" = true)
    (h : BannerPlugin.stampFile banner f = .asset fileName (.text t)) :
    jsStartsWith t "/*!" = true := by
  cases f with
  | chunk fn code => simp [BannerPlugin.stampFile] at h
  | asset fn source =>
    by_cases hfn : jsEndsWith fn ".css" = true
    · cases source with
      | text s0 =>
        simp only [BannerPlugin.stampFile, hfn, if_true, OutputFile.asset.injEq,
          AssetSource.text.injEq] at h
        rw [← h.2, String.append_assoc]
        exact jsStartsWith_append _ _ _ (jsStartsWith_sentinel _ rest hb)
      | bytes b => simp [BannerPlugin.stampFile, hfn] at h
    · have hfn2 : jsEndsWith fn ".css" = false := by simpa using hfn
      simp only [BannerPlugin.stampFile, hfn2, Bool.false_eq_true, if_false,
        OutputFile.asset.injEq] at h
      rw [h.1] at hfn
      exact absurd hcss hfn

/-- A file that does not start with the sentinel gets the banner and a newline in front; no
other location changes. -/
theorem addBannerToCssFile_stamps (pkg : PackageInfo) (clock : Clock) (fs : FsNode)
    (p : Path) (content : Bytes) (hfile : fs.lookup p = some (.file content)) (hp : p ≠ [])
    (hs : jsStartsWith (utf8Decode content) "/*!" = false) :
    ∃ fs2, PostBuildCss.addBannerToCssFile pkg clock fs p =
        .ok (fs2, [.log ("✓ Added banner to " ++ p.getLast?.getD "")]) ∧
      ∀ q, fs2.stat q = if q = p then some (.file (utf8Encode
        (PostBuildCss.createBanner pkg clock ++ "\n" ++ utf8Decode content))) else fs.stat q := by
  obtain ⟨fs2, h2⟩ := put_ok_of_lookup p fs _ (.file (utf8Encode
    (PostBuildCss.createBanner pkg clock ++ "\n" ++ utf8Decode content))) hfile hp
  have hnd : fs.stat p ≠ some .dir := by
    rw [(stat_eq_file_iff fs p content).2 hfile]; simp
  refine ⟨fs2, ?_, stat_put_file p fs fs2 _ h2 hnd⟩
  simp [PostBuildCss.addBannerToCssFile, readFileSync, writeFileSync, hfile, hs, h2]

/-- A text that begins with a banner begins with the sentinel. -/
theorem jsStartsWith_banner_append (banner t : String) (rest : List Char)
    (hb : banner.data = '/' :: '*' :: '!' :: rest) :
    jsStartsWith (banner ++ "\n" ++ t) "/*!" = true := by
  rw [String.append_assoc]
  exact jsStartsWith_append _ _ _ (jsStartsWith_sentinel _ rest hb)

/-- C7 (as the code behaves): `addBannerToCssFile` leaves a file byte for byte unchanged that
has been stamped before, by an earlier call of `addBannerToCssFile` or by the hook
`generateBundle` of the banner plugin on a string-sourced stylesheet. For a stylesheet text
`t`: the plugin turns it into one banner, a newline and `t`, and the post-build pass leaves
the file that holds this text as it is; two post-build passes over a file that holds `t`,
when `t` does not start with `/*!`, leave the file holding one banner (that of the first
pass), a newline and `t`, every other location being as before; when `t` starts with `/*!`
a pass leaves the file as it was, holding `t` alone. -/
theorem C7_one_banner (pkg1 pkg2 : PackageInfo) (clock1 clock2 : Clock) (p : Path)
    (t : String) :
    (∀ fs : FsNode,
      ((∃ pkg0 clock0 fs0 log0,
          PostBuildCss.addBannerToCssFile pkg0 clock0 fs0 p = .ok (fs, log0)) ∨
        (∃ pkg0 clock0 bundle key fileName t0,
          (key, OutputFile.asset fileName (.text t0)) ∈
            BannerPlugin.generateBundle pkg0 clock0 bundle ∧
          jsEndsWith fileName ".css" = true ∧
          fs.stat p = some (.file (utf8Encode t0)))) →
      PostBuildCss.addBannerToCssFile pkg2 clock2 fs p =
        .ok (fs, [.log ("✓ Banner already present in " ++ p.getLast?.getD "")])) ∧
    (∀ (bundle : Bundle) (key fileName : String),
      (key, OutputFile.asset fileName (.text t)) ∈ bundle →
      jsEndsWith fileName ".css" = true →
      (key, OutputFile.asset fileName
          (.text (BannerPlugin.createBanner pkg1 clock1 ++ "\n" ++ t))) ∈
        BannerPlugin.generateBundle pkg1 clock1 bundle) ∧
    (∀ fs : FsNode,
      fs.stat p = some (.file (utf8Encode (BannerPlugin.createBanner pkg1 clock1 ++ "\n" ++ t))) →
      PostBuildCss.addBannerToCssFile pkg2 clock2 fs p =
        .ok (fs, [.log ("✓ Banner already present in " ++ p.getLast?.getD "")])) ∧
    (∀ fs : FsNode, p ≠ [] → fs.stat p = some (.file (utf8Encode t)) →
      jsStartsWith t "/*!" = false →
      ∃ fs1, PostBuildCss.addBannerToCssFile pkg1 clock1 fs p =
          .ok (fs1, [.log ("✓ Added banner to " ++ p.getLast?.getD "")]) ∧
        PostBuildCss.addBannerToCssFile pkg2 clock2 fs1 p =
          .ok (fs1, [.log ("✓ Banner already present in " ++ p.getLast?.getD "")]) ∧
        ∀ q, fs1.stat q =
          if q = p then
            some (.file (utf8Encode (PostBuildCss.createBanner pkg1 clock1 ++ "\n" ++ t)))
          else fs.stat q) ∧
    (∀ fs : FsNode, fs.stat p = some (.file (utf8Encode t)) →
      jsStartsWith t "/*!" = true →
      PostBuildCss.addBannerToCssFile pkg1 clock1 fs p =
        .ok (fs, [.log ("✓ Banner already present in " ++ p.getLast?.getD "")])) := by
  refine ⟨?_, ?_, ?_, ?_, ?_⟩
  · intro fs h
    rcases h with ⟨pkg0, clock0, fs0, log0, h0⟩ |
      ⟨pkg0, clock0, bundle, key, fileName, t0, hmem, hcss, hfile⟩
    · -- the earlier call read a regular file
      cases hl : fs0.lookup p with
      | none => simp [PostBuildCss.addBannerToCssFile, readFileSync, hl] at h0
      | some n =>
        cases n with
        | dir es => simp [PostBuildCss.addBannerToCssFile, readFileSync, hl] at h0
        | file content =>
          by_cases hs : jsStartsWith (utf8Decode content) "/*!" = true
          · rw [addBannerToCssFile_of_sentinel pkg0 clock0 fs0 p content hl hs] at h0
            simp only [Except.ok.injEq, Prod.mk.injEq] at h0
            rw [← h0.1]
            exact addBannerToCssFile_of_sentinel pkg2 clock2 fs0 p content hl hs
          · simp only [Bool.not_eq_true] at hs
            have hp : p ≠ [] := by
              intro hp
              subst hp
              simp [PostBuildCss.addBannerToCssFile, readFileSync, writeFileSync, hl, hs,
                put_nil] at h0
            obtain ⟨fs2, h2, hl2⟩ := addBannerToCssFile_of_no_sentinel pkg0 clock0 fs0 p
              content hl hp hs
            rw [h2] at h0
            simp only [Except.ok.injEq, Prod.mk.injEq] at h0
            rw [← h0.1]
            apply addBannerToCssFile_of_sentinel pkg2 clock2 fs2 p _ hl2
            rw [utf8Decode_utf8Encode]
            obtain ⟨rest, hr⟩ := createBanner_data pkg0 clock0
            exact jsStartsWith_banner_append _ _ rest hr
    · rw [stat_eq_file_iff] at hfile
      apply addBannerToCssFile_of_sentinel pkg2 clock2 fs p _ hfile
      rw [utf8Decode_utf8Encode]
      simp only [BannerPlugin.generateBundle, List.mem_map, Prod.mk.injEq] at hmem
      obtain ⟨entry, _, _, hst⟩ := hmem
      obtain ⟨rest, hr⟩ := pluginBanner_data pkg0 clock0
      exact stampFile_text_sentinel _ rest hr entry.2 fileName t0 hcss hst
  · intro bundle key fileName hmem hcss
    simp only [BannerPlugin.generateBundle, List.mem_map, Prod.mk.injEq]
    exact ⟨(key, .asset fileName (.text t)), hmem, rfl, by simp [BannerPlugin.stampFile, hcss]⟩
  · intro fs hfile
    rw [stat_eq_file_iff] at hfile
    apply addBannerToCssFile_of_sentinel pkg2 clock2 fs p _ hfile
    rw [utf8Decode_utf8Encode]
    obtain ⟨rest, hr⟩ := pluginBanner_data pkg1 clock1
    exact jsStartsWith_banner_append _ _ rest hr
  · intro fs hp hfile hs
    rw [stat_eq_file_iff] at hfile
    have hs2 : jsStartsWith (utf8Decode (utf8Encode t)) "/*!" = false := by
      rw [utf8Decode_utf8Encode]; exact hs
    obtain ⟨fs1, h1, hq⟩ := addBannerToCssFile_stamps pkg1 clock1 fs p _ hfile hp hs2
    rw [utf8Decode_utf8Encode] at hq
    refine ⟨fs1, h1, ?_, hq⟩
    have hl1 : fs1.lookup p = some (.file (utf8Encode
        (PostBuildCss.createBanner pkg1 clock1 ++ "\n" ++ t))) := by
      rw [← stat_eq_file_iff, hq p, if_pos rfl]
    apply addBannerToCssFile_of_sentinel pkg2 clock2 fs1 p _ hl1
    rw [utf8Decode_utf8Encode]
    obtain ⟨rest, hr⟩ := createBanner_data pkg1 clock1
    exact jsStartsWith_banner_append _ _ rest hr
  · intro fs hfile hs
    rw [stat_eq_file_iff] at hfile
    apply addBannerToCssFile_of_sentinel pkg1 clock1 fs p _ hfile
    rw [utf8Decode_utf8Encode]; exact hs

set_option maxRecDepth 100000 in
/-- C7 on a sample: two post-build passes over `lex-web-ui.css` holding `body{}` leave the
file holding one banner, a newline and `body{}`, and the banner occurs once in that text. -/
theorem C7_one_banner_witness :
    (∃ fs1, PostBuildCss.addBannerToCssFile samplePackage sampleClock
          (.dir [("lex-web-ui.css", .file (utf8Encode "body{}"))]) ["lex-web-ui.css"] =
          .ok (fs1, [.log ("✓ Added banner to " ++ "lex-web-ui.css")]) ∧
        PostBuildCss.addBannerToCssFile samplePackage sampleClock fs1 ["lex-web-ui.css"] =
          .ok (fs1, [.log ("✓ Banner already present in " ++ "lex-web-ui.css")]) ∧
        fs1.stat ["lex-web-ui.css"] = some (.file (utf8Encode
          (PostBuildCss.createBanner samplePackage sampleClock ++ "\n" ++ "body{}")))) ∧
    countOccurrences (PostBuildCss.createBanner samplePackage sampleClock).data
      (PostBuildCss.createBanner samplePackage sampleClock ++ "\n" ++ "body{}").data = 1 :=
  ⟨(((C7_one_banner samplePackage samplePackage sampleClock sampleClock ["lex-web-ui.css"]
      "body{}").2.2.2.1 (.dir [("lex-web-ui.css", .file (utf8Encode "body{}"))])
        (by decide) rfl (by decide)).imp
      (fun fs1 h => ⟨h.1, h.2.1, (h.2.2 ["lex-web-ui.css"]).trans (if_pos rfl)⟩)),
   by decide⟩

/-- C7 fails as stated: over a stylesheet that starts with another `/*!` comment, two
post-build passes leave the file as it was, with no banner in it. -/
theorem C7_counterexample :
    PostBuildCss.addBannerToCssFile samplePackage sampleClock
        (.dir [("lex-web-ui.css", .file (utf8Encode "/*! normalize.css */ body{}"))])
        ["lex-web-ui.css"] =
      .ok (.dir [("lex-web-ui.css", .file (utf8Encode "/*! normalize.css */ body{}"))],
        [.log "✓ Banner already present in lex-web-ui.css"]) ∧
    ((PostBuildCss.addBannerToCssFile samplePackage sampleClock
        (.dir [("lex-web-ui.css", .file (utf8Encode "/*! normalize.css */ body{}"))])
        ["lex-web-ui.css"]).bind
      (fun r => PostBuildCss.addBannerToCssFile samplePackage sampleClock r.1
        ["lex-web-ui.css"])) =
      .ok (.dir [("lex-web-ui.css", .file (utf8Encode "/*! normalize.css */ body{}"))],
        [.log "✓ Banner already present in lex-web-ui.css"]) ∧
    countOccurrences (PostBuildCss.createBanner samplePackage sampleClock).data
      "/*! normalize.css */ body{}".data = 0 :=
  ⟨rfl, rfl, by decide⟩

/-- C8 (as the code behaves): on a regular file, `addBannerToCssFile` returns; when the text
of the file does not start with `/*!`, the file afterwards holds the banner of the current
metadata, a newline and the former text, so it begins with that banner, put in front once;
when the text starts with `/*!`, whatever comment that is, nothing is changed. -/
theorem C8_banner_prepended_unless_sentinel (pkg : PackageInfo) (clock : Clock) (fs : FsNode)
    (p : Path) (content : Bytes) (hfile : fs.stat p = some (.file content)) (hp : p ≠ []) :
    ∃ fs2 log, PostBuildCss.addBannerToCssFile pkg clock fs p = .ok (fs2, log) ∧
      (if jsStartsWith (utf8Decode content) "/*!" = true then fs2 = fs
       else
        fs2.stat p = some (.file (utf8Encode (PostBuildCss.createBanner pkg clock) ++
          utf8Encode "\n" ++ utf8Encode (utf8Decode content))) ∧
        readFileSync fs2 p =
          .ok (PostBuildCss.createBanner pkg clock ++ "\n" ++ utf8Decode content)) := by
  rw [stat_eq_file_iff] at hfile
  by_cases hs : jsStartsWith (utf8Decode content) "/*!" = true
  · exact ⟨fs, _, addBannerToCssFile_of_sentinel pkg clock fs p content hfile hs, by simp [hs]⟩
  · have hs2 : jsStartsWith (utf8Decode content) "/*!" = false := by simpa using hs
    obtain ⟨fs2, h2, hl2⟩ := addBannerToCssFile_of_no_sentinel pkg clock fs p content hfile hp hs2
    refine ⟨fs2, _, h2, ?_⟩
    rw [if_neg hs]
    constructor
    · rw [stat_eq_file_iff, hl2, utf8Encode_append, utf8Encode_append]
    · simp [readFileSync, hl2, utf8Decode_utf8Encode]

/-- C8 on a sample: the file `lex-web-ui.css` holding `body{}`. -/
theorem C8_banner_prepended_unless_sentinel_witness :
    ∃ fs2 log, PostBuildCss.addBannerToCssFile samplePackage sampleClock
        (.dir [("lex-web-ui.css", .file (utf8Encode "body{}"))]) ["lex-web-ui.css"] =
          .ok (fs2, log) ∧
      (if jsStartsWith (utf8Decode (utf8Encode "body{}")) "/*!" = true then
        fs2 = .dir [("lex-web-ui.css", .file (utf8Encode "body{}"))]
       else
        fs2.stat ["lex-web-ui.css"] =
          some (.file (utf8Encode (PostBuildCss.createBanner samplePackage sampleClock) ++
            utf8Encode "\n" ++ utf8Encode (utf8Decode (utf8Encode "body{}")))) ∧
        readFileSync fs2 ["lex-web-ui.css"] =
          .ok (PostBuildCss.createBanner samplePackage sampleClock ++ "\n" ++
            utf8Decode (utf8Encode "body{}"))) :=
  C8_banner_prepended_unless_sentinel samplePackage sampleClock
    (.dir [("lex-web-ui.css", .file (utf8Encode "body{}"))]) ["lex-web-ui.css"]
    (utf8Encode "body{}") rfl (by decide)

/-- C8 fails as stated: a stylesheet that starts with another `/*!` comment is left as it
is, so afterwards the file does not begin with the banner. -/
theorem C8_counterexample :
    (match PostBuildCss.addBannerToCssFile samplePackage sampleClock
        (.dir [("lex-web-ui.css", .file (utf8Encode "/*! normalize.css */ body{}"))])
        ["lex-web-ui.css"] with
      | .ok r => r.1.stat ["lex-web-ui.css"]
      | .error _ => none) = some (.file (utf8Encode "/*! normalize.css */ body{}")) ∧
    jsStartsWith "/*! normalize.css */ body{}"
      (PostBuildCss.createBanner samplePackage sampleClock) = false := by
  constructor
  · rfl
  · decide

/-! ## Properties: asset resolution -/

/-- With the custom file present and the output name free for a file, `handleAssetCopy`
copies the custom file and changes nothing else. -/
theorem handleAssetCopy_custom (host : Host) (customPath fallbackPath : String)
    (par : Path) (name assetType root : String) (fs : FsNode) (cb : Bytes)
    (hc : fs.stat (host.resolve root customPath) = some (.file cb))
    (hdir : fs.stat par = some .dir) (hname : fs.stat (par ++ [name]) ≠ some .dir) :
    ∃ fs2, handleAssetCopy host customPath fallbackPath (par ++ [name]) assetType root fs =
        (fs2, [.log ("✅ Copied custom " ++ assetType ++ ": " ++ customPath ++ " → " ++
          host.relative root (par ++ [name]))]) ∧
      ∀ q, fs2.stat q = if q = par ++ [name] then some (.file cb) else fs.stat q := by
  obtain ⟨fs2, h2⟩ := copyFileSync_ok fs _ par name cb hc hdir hname
  obtain ⟨c, hc2, hq⟩ := stat_copyFileSync fs fs2 _ _ h2
  have hcb : c = cb := by
    rw [hc] at hc2
    simpa using hc2.symm
  subst hcb
  have he : existsSync fs (host.resolve root customPath) = true := by
    rw [existsSync_eq_true_iff, hc]; simp
  exact ⟨fs2, by simp [handleAssetCopy, he, h2], hq⟩

/-- With the custom file absent, the fallback file present and the output name free for a
file, `handleAssetCopy` copies the fallback file and changes nothing else. -/
theorem handleAssetCopy_fallback (host : Host) (customPath fallbackPath : String)
    (par : Path) (name assetType root : String) (fs : FsNode) (fb : Bytes)
    (hc : fs.stat (host.resolve root customPath) = none)
    (hf : fs.stat (host.resolve root fallbackPath) = some (.file fb))
    (hdir : fs.stat par = some .dir) (hname : fs.stat (par ++ [name]) ≠ some .dir) :
    ∃ fs2, handleAssetCopy host customPath fallbackPath (par ++ [name]) assetType root fs =
        (fs2, [.log ("⚠️  Copied fallback " ++ assetType ++ ": " ++ fallbackPath ++ " → " ++
          host.relative root (par ++ [name]))]) ∧
      ∀ q, fs2.stat q = if q = par ++ [name] then some (.file fb) else fs.stat q := by
  obtain ⟨fs2, h2⟩ := copyFileSync_ok fs _ par name fb hf hdir hname
  obtain ⟨c, hc2, hq⟩ := stat_copyFileSync fs fs2 _ _ h2
  have hcb : c = fb := by
    rw [hf] at hc2
    simpa using hc2.symm
  subst hcb
  have he : existsSync fs (host.resolve root customPath) = false := by
    rw [existsSync_eq_false_iff, hc]
  have he2 : existsSync fs (host.resolve root fallbackPath) = true := by
    rw [existsSync_eq_true_iff, hf]; simp
  exact ⟨fs2, by simp [handleAssetCopy, he, he2, h2], hq⟩

/-- Whatever the state, `handleAssetCopy` changes at most the output location. -/
theorem handleAssetCopy_frame (host : Host) (customPath fallbackPath : String)
    (out : Path) (assetType root : String) (fs : FsNode) (q : Path) (hq : q ≠ out) :
    (handleAssetCopy host customPath fallbackPath out assetType root fs).1.stat q =
      fs.stat q := by
  unfold handleAssetCopy
  simp only []
  split
  · cases h : copyFileSync fs (host.resolve root customPath) out with
    | error e => rfl
    | ok fs2 =>
      obtain ⟨c, _, hs⟩ := stat_copyFileSync fs fs2 _ _ h
      simp [hs q, hq]
  · split
    · cases h : copyFileSync fs (host.resolve root fallbackPath) out with
      | error e => rfl
      | ok fs2 =>
        obtain ⟨c, _, hs⟩ := stat_copyFileSync fs fs2 _ _ h
        simp [hs q, hq]
    · rfl

/-- In a build whose output directory is there, `generateBundle` is the favicon step, the
logo step and the copy of the public directory, in this order. -/
theorem generateBundle_steps (depth : Nat) (host : Host) (opts : AssetHandlerOptions)
    (st : PluginState) (optionsDir : Option String) (fs : FsNode)
    (hprod : st.isProduction = true)
    (hex : existsSync fs (host.locate (orElse optionsDir opts.outputDir)) = true) :
    AssetHandler.generateBundle depth host opts st optionsDir fs =
      match copyPublicDirectory depth host opts.publicDir
          (host.locate (orElse optionsDir opts.outputDir)) st.root
          (AssetHandler.emitAsset .logo host opts st
            (host.locate (orElse optionsDir opts.outputDir))
            (AssetHandler.emitAsset .favicon host opts st
              (host.locate (orElse optionsDir opts.outputDir)) fs).1).1 with
      | none => none
      | some r4 =>
        some (⟨r4.1, none⟩,
          (AssetHandler.emitAsset .favicon host opts st
            (host.locate (orElse optionsDir opts.outputDir)) fs).2 ++
          (AssetHandler.emitAsset .logo host opts st
            (host.locate (orElse optionsDir opts.outputDir))
            (AssetHandler.emitAsset .favicon host opts st
              (host.locate (orElse optionsDir opts.outputDir)) fs).1).2 ++ r4.2) := by
  simp [AssetHandler.generateBundle, AssetHandler.emitAsset, hprod, hex,
    AssetKind.customPath, AssetKind.fallbackPath, AssetKind.outputName, AssetKind.assetType]

/-- C3 (as the code behaves): when the preferred (custom) file of an asset exists, whether or
not the fallback exists too, every surface takes the preferred file and none the fallback:
the virtual module exports the preferred path, the dev-server middleware sets the content
type and streams the preferred file, and the emission step makes one copy, that of the
preferred file to the output name. When the output directory is a directory and the output
name is not taken by a directory, that copy leaves the bytes of the preferred file at the
output name and changes nothing else; otherwise the copy fails, the error is logged and
nothing is copied. -/
theorem C3_preferred_wins (host : Host) (opts : AssetHandlerOptions) (st : PluginState)
    (fs : FsNode) (kind : AssetKind) (outputPath : Path) (cb : Bytes)
    (hc : fs.stat (host.resolve st.root (kind.customPath opts)) = some (.file cb)) :
    (AssetHandler.load host opts st fs kind.virtualId).1 =
      some ("export default \"" ++ kind.customPath opts ++ "\"") ∧
    AssetHandler.middleware kind host opts st fs =
      [.setHeader "Content-Type" "image/png",
       .pipeFile (host.resolve st.root (kind.customPath opts))] ∧
    AssetHandler.emitAsset kind host opts st outputPath fs =
      (match copyFileSync fs (host.resolve st.root (kind.customPath opts))
          (outputPath ++ [kind.outputName]) with
        | .ok fs2 =>
          (fs2, [.log ("✅ Copied custom " ++ kind.assetType ++ ": " ++ kind.customPath opts ++
            " → " ++ host.relative st.root (outputPath ++ [kind.outputName]))])
        | .error e =>
          (fs, [.error ("❌ Error copying " ++ kind.assetType ++ ": " ++ host.message e)])) ∧
    (fs.stat outputPath = some .dir →
      fs.stat (outputPath ++ [kind.outputName]) ≠ some .dir →
      (AssetHandler.emitAsset kind host opts st outputPath fs).2 =
        [.log ("✅ Copied custom " ++ kind.assetType ++ ": " ++ kind.customPath opts ++ " → " ++
          host.relative st.root (outputPath ++ [kind.outputName]))] ∧
      ∀ q, (AssetHandler.emitAsset kind host opts st outputPath fs).1.stat q =
        if q = outputPath ++ [kind.outputName] then some (.file cb) else fs.stat q) ∧
    (fs.stat outputPath ≠ some .dir ∨
        fs.stat (outputPath ++ [kind.outputName]) = some .dir →
      ∃ e, AssetHandler.emitAsset kind host opts st outputPath fs =
        (fs, [.error ("❌ Error copying " ++ kind.assetType ++ ": " ++ host.message e)])) := by
  have he : existsSync fs (host.resolve st.root (kind.customPath opts)) = true := by
    rw [existsSync_eq_true_iff, hc]; simp
  have hemit : AssetHandler.emitAsset kind host opts st outputPath fs =
      (match copyFileSync fs (host.resolve st.root (kind.customPath opts))
          (outputPath ++ [kind.outputName]) with
        | .ok fs2 =>
          (fs2, [.log ("✅ Copied custom " ++ kind.assetType ++ ": " ++ kind.customPath opts ++
            " → " ++ host.relative st.root (outputPath ++ [kind.outputName]))])
        | .error e =>
          (fs, [.error ("❌ Error copying " ++ kind.assetType ++ ": " ++ host.message e)])) := by
    simp only [AssetHandler.emitAsset, handleAssetCopy, he, if_true]
  refine ⟨?_, ?_, hemit, ?_, ?_⟩
  · cases kind
    · simp only [AssetKind.customPath] at he
      simp [AssetHandler.load, AssetKind.virtualId, AssetKind.customPath, he]
    · simp only [AssetKind.customPath] at he
      simp [AssetHandler.load, AssetKind.virtualId, AssetKind.customPath, he]
  · cases kind
    · simp only [AssetKind.customPath] at he
      simp [AssetHandler.middleware, AssetHandler.faviconMiddleware, AssetKind.customPath, he]
    · simp only [AssetKind.customPath] at he
      simp [AssetHandler.middleware, AssetHandler.logoMiddleware, AssetKind.customPath, he]
  · intro hdir hname
    obtain ⟨fs2, h2, hq⟩ := handleAssetCopy_custom host (kind.customPath opts)
      (kind.fallbackPath opts) outputPath kind.outputName kind.assetType st.root fs cb hc hdir
      hname
    unfold AssetHandler.emitAsset
    rw [h2]
    exact ⟨rfl, hq⟩
  · intro h
    have herr : ∃ e, copyFileSync fs (host.resolve st.root (kind.customPath opts))
        (outputPath ++ [kind.outputName]) = .error e := by
      rcases h with h | h
      · exact copyFileSync_error_of_parent fs _ outputPath kind.outputName h
      · exact copyFileSync_error_of_dest_dir fs _ _ h
    obtain ⟨e, hce⟩ := herr
    exact ⟨e, by rw [hemit, hce]⟩

/-- C5: when neither the preferred nor the fallback file of an asset exists,
`handleAssetCopy` returns the file system as it was, with a warning on the console, and
the dev-server middleware does nothing but call `next` once. -/
theorem C5_neither_exists (host : Host) (opts : AssetHandlerOptions) (st : PluginState)
    (fs : FsNode) (kind : AssetKind) (outputPath : Path)
    (hc : existsSync fs (host.resolve st.root (kind.customPath opts)) = false)
    (hf : existsSync fs (host.resolve st.root (kind.fallbackPath opts)) = false) :
    AssetHandler.emitAsset kind host opts st outputPath fs =
      (fs, [.warn ("❌ Neither custom nor fallback " ++ kind.assetType ++ " found")]) ∧
    AssetHandler.middleware kind host opts st fs = [.next] ∧
    (AssetHandler.middleware kind host opts st fs).count .next = 1 ∧
    (∀ name value, ServerEffect.setHeader name value ∉
      AssetHandler.middleware kind host opts st fs) ∧
    (∀ source, ServerEffect.pipeFile source ∉ AssetHandler.middleware kind host opts st fs) := by
  have hm : AssetHandler.middleware kind host opts st fs = [.next] := by
    cases kind
    · simp only [AssetKind.customPath, AssetKind.fallbackPath] at hc hf
      simp [AssetHandler.middleware, AssetHandler.faviconMiddleware, hc, hf]
    · simp only [AssetKind.customPath, AssetKind.fallbackPath] at hc hf
      simp [AssetHandler.middleware, AssetHandler.logoMiddleware, hc, hf]
  refine ⟨?_, hm, ?_, ?_, ?_⟩
  · simp [AssetHandler.emitAsset, handleAssetCopy, hc, hf]
  · rw [hm]; rfl
  · intro name value; rw [hm]; simp
  · intro source; rw [hm]; simp


/-- C3 on a sample: with `assets/favicon.png` present, the emission step leaves its bytes at
`dist/favicon.png`. -/
theorem C3_preferred_wins_witness :
    sampleTree.stat (sampleHost.resolve sampleState.root
      (AssetKind.favicon.customPath sampleOptions)) = some (.file [1, 2, 3]) ∧
    (AssetHandler.emitAsset .favicon sampleHost sampleOptions sampleState ["app", "dist"]
      sampleTree).1.stat ["app", "dist", "favicon.png"] = some (.file [1, 2, 3]) :=
  ⟨by decide,
   (((C3_preferred_wins sampleHost sampleOptions sampleState sampleTree .favicon ["app", "dist"]
      [1, 2, 3] (by decide)).2.2.2.1 (by decide) (by decide)).2
        ["app", "dist", "favicon.png"]).trans (by decide)⟩

/-- C3 fails as stated: both the preferred and the fallback favicon exist, yet the emission
step leaves no file with the bytes of the preferred one at the output name when a directory
has the place of `dist/favicon.png`, and when `dist` is a regular file; the error is logged
and the file system stays as it was. -/
theorem C3_counterexample :
    (existsSync sampleTreeNameTaken ["app", "assets", "favicon.png"] = true ∧
      existsSync sampleTreeNameTaken ["app", "icons", "flower18.png"] = true ∧
      AssetHandler.emitAsset .favicon sampleHost sampleOptions sampleState ["app", "dist"]
          sampleTreeNameTaken =
        (sampleTreeNameTaken,
          [.error "❌ Error copying favicon: EISDIR: illegal operation on a directory"]) ∧
      sampleTreeNameTaken.stat ["app", "dist", "favicon.png"] ≠ some (.file [1, 2, 3])) ∧
    (existsSync sampleTreeIconsDistFile ["app", "assets", "favicon.png"] = true ∧
      existsSync sampleTreeIconsDistFile ["app", "icons", "flower18.png"] = true ∧
      AssetHandler.emitAsset .favicon sampleHost sampleOptions sampleState ["app", "dist"]
          sampleTreeIconsDistFile =
        (sampleTreeIconsDistFile,
          [.error "❌ Error copying favicon: ENOTDIR: not a directory"]) ∧
      sampleTreeIconsDistFile.stat ["app", "dist", "favicon.png"] ≠ some (.file [1, 2, 3])) :=
  ⟨⟨by decide, by decide, rfl, by decide⟩, ⟨by decide, by decide, rfl, by decide⟩⟩

/-- C5 on a sample: without any icon, `dist/favicon.png` is left as it was and the request
goes to the next handler. -/
theorem C5_neither_exists_witness :
    AssetHandler.emitAsset .favicon sampleHost sampleOptions sampleState ["app", "dist"]
        sampleTreeNoIcons =
      (sampleTreeNoIcons, [.warn "❌ Neither custom nor fallback favicon found"]) ∧
    AssetHandler.middleware .favicon sampleHost sampleOptions sampleState sampleTreeNoIcons =
      [.next] :=
  ⟨(C5_neither_exists sampleHost sampleOptions sampleState sampleTreeNoIcons .favicon
      ["app", "dist"] (by decide) (by decide)).1,
   (C5_neither_exists sampleHost sampleOptions sampleState sampleTreeNoIcons .favicon
      ["app", "dist"] (by decide) (by decide)).2.1⟩

/-! ## Properties: directory mirror -/

theorem sizeOf_findEntry_lt (name : String) (es : List (String × FsNode)) (child : FsNode)
    (h : findEntry name es = some child) : sizeOf child < sizeOf es := by
  induction es with
  | nil => simp [findEntry] at h
  | cons x es ih =>
    obtain ⟨k, v⟩ := x
    simp only [findEntry] at h
    by_cases hk : k = name
    · simp only [hk, if_true, Option.some.injEq] at h
      subst h
      simp only [List.cons.sizeOf_spec, Prod.mk.sizeOf_spec]
      omega
    · simp only [hk, if_false] at h
      have := ih h
      simp only [List.cons.sizeOf_spec]
      omega

/-- Every tree is of bounded depth. -/
theorem lookup_length_lt_sizeOf (r : Path) : ∀ (node x : FsNode),
    node.lookup r = some x → r.length < sizeOf node := by
  induction r with
  | nil =>
    intro node x _
    cases node <;> simp
  | cons name rest ih =>
    intro node x h
    cases node with
    | file c => simp [lookup_file_cons] at h
    | dir es =>
      rw [lookup_dir_cons] at h
      cases hf : findEntry name es with
      | none => simp [hf] at h
      | some child =>
        simp only [hf, Option.some_bind] at h
        have h1 := ih child x h
        have h2 := sizeOf_findEntry_lt name es child hf
        simp only [List.length_cons, FsNode.dir.sizeOf_spec]
        omega

/-- Below every location the paths to existing entries are of bounded length. -/
theorem exists_depth_bound (fs : FsNode) (s : Path) :
    ∃ N, ∀ r, fs.stat (s ++ r) ≠ none → r.length ≤ N := by
  cases hs : fs.lookup s with
  | none =>
    refine ⟨0, fun r hr => ?_⟩
    rw [stat_append, hs] at hr
    exact absurd rfl hr
  | some node =>
    refine ⟨sizeOf node, fun r hr => ?_⟩
    rw [stat_append, hs] at hr
    simp only [Option.some_bind, ne_eq, stat_eq_none_iff] at hr
    cases hl : node.lookup r with
    | none => exact absurd hl hr
    | some x => exact le_of_lt (lookup_length_lt_sizeOf r node x hl)

theorem copyEntries_total (recurse : FsNode → Path → Path → Option Outcome)
    (fs : FsNode) (s d : Path) (hsd : ¬ s <+: d) (hds : ¬ d <+: s) (hd : fs.stat d ≠ none)
    (hrec : ∀ fs1 name, fs.stat (s ++ [name]) = some .dir →
      (∀ r, fs1.stat (s ++ [name] ++ r) = fs.stat (s ++ [name] ++ r)) →
      fs1.stat (d ++ [name]) ≠ none →
      ∃ out, recurse fs1 (s ++ [name]) (d ++ [name]) = some out ∧
        ∀ q, ¬ (d ++ [name]) <+: q ∨ q = d ++ [name] → out.fs.stat q = fs1.stat q) :
    ∀ (todo : List Dirent) (fsk : FsNode),
      (∀ e ∈ todo, ∃ st, fs.stat (s ++ [e.name]) = some st ∧ st.isDir = e.isDirectory) →
      (∀ q, ¬ Touched fs s d q → fsk.stat q = fs.stat q) →
      ∃ out, copyEntries recurse s d todo fsk = some out ∧
        ∀ q, ¬ Touched fs s d q → out.fs.stat q = fs.stat q := by
  intro todo
  induction todo with
  | nil =>
    intro fsk _ hk
    exact ⟨⟨fsk, none⟩, rfl, hk⟩
  | cons e rest ih =>
    intro fsk hmem hk
    obtain ⟨st, hst, hdir⟩ := hmem e (List.mem_cons_self _ _)
    have hrest : ∀ e2 ∈ rest, ∃ st, fs.stat (s ++ [e2.name]) = some st ∧
        st.isDir = e2.isDirectory := fun e2 h2 => hmem e2 (List.mem_cons_of_mem _ h2)
    have hne : fs.stat (s ++ [e.name]) ≠ none := by rw [hst]; simp
    -- the destination directory itself and the source tree are not touched
    have hd_un : ¬ Touched fs s d d := by
      rintro ⟨name, r, hq, _⟩
      have := congrArg List.length hq
      simp at this
    have hkd : fsk.stat d = fs.stat d := hk d hd_un
    have hsrc : ∀ (fsx : FsNode), (∀ q, ¬ Touched fs s d q → fsx.stat q = fs.stat q) →
        ∀ r, fsx.stat (s ++ r) = fs.stat (s ++ r) := by
      intro fsx hx r
      apply hx
      rintro ⟨name, r2, hq, _⟩
      exact not_prefix_append_of_unrelated s d r hsd hds ⟨name :: r2, hq.symm⟩
    have htouched : ∀ r, Touched fs s d (d ++ e.name :: r) := fun r => ⟨e.name, r, rfl, hne⟩
    unfold copyEntries
    simp only []
    by_cases hisdir : e.isDirectory = true
    · -- a directory entry
      simp only [hisdir, if_true]
      have hsdir : fs.stat (s ++ [e.name]) = some .dir := by
        rw [hst]
        cases st with
        | dir => rfl
        | file c => simp [Stat.isDir, hisdir] at hdir
      -- the state after the conditional `mkdirSync`
      cases hmk : (if (!existsSync fsk (d ++ [e.name])) = true then mkdirSync fsk (d ++ [e.name])
          else Except.ok fsk) with
      | error err => exact ⟨⟨fsk, some err⟩, rfl, hk⟩
      | ok fs1 =>
        simp only []
        have h1 : (∀ q, ¬ Touched fs s d q → fs1.stat q = fs.stat q) ∧
            fs1.stat (d ++ [e.name]) ≠ none := by
          by_cases hex : existsSync fsk (d ++ [e.name]) = true
          · simp only [hex, Bool.not_true, Bool.false_eq_true, if_false, Except.ok.injEq] at hmk
            subst hmk
            exact ⟨hk, (existsSync_eq_true_iff _ _).1 hex⟩
          · simp only [Bool.not_eq_true] at hex
            simp only [hex, Bool.not_false, if_true] at hmk
            have hform := stat_mkdirSync _ _ _ hmk
            have hnofile := mkdirSync_ok_no_file _ _ _ hmk
            refine ⟨?_, ?_⟩
            · intro q hq
              rw [hform q]
              by_cases hpre : q <+: d ++ [e.name]
              · simp only [hpre, if_true]
                rcases List.prefix_concat_iff.1 hpre with heq | hpd
                · exact absurd (heq ▸ htouched []) hq
                · -- `q` is `d` or above it, and `d` is a directory
                  have hddir : fsk.stat d = some .dir := by
                    cases hsd2 : fsk.stat d with
                    | none => exact absurd (hkd ▸ hsd2) hd
                    | some st2 =>
                      cases st2 with
                      | dir => rfl
                      | file c =>
                        exact absurd hsd2 (hnofile d (List.prefix_append d _) c)
                  rw [← hk q hq]
                  by_cases hqd : q = d
                  · rw [hqd, hddir]
                  · exact (stat_above_of_exists fsk q d hpd hqd (by rw [hddir]; simp)).symm
              · simp only [hpre, if_false]
                exact hk q hq
            · rw [hform]
              simp
        obtain ⟨h1a, h1b⟩ := h1
        obtain ⟨out, hout, hframe⟩ := hrec fs1 e.name hsdir
          (fun r => by rw [List.append_assoc]; exact hsrc fs1 h1a _) h1b
        have hout_frame : ∀ q, ¬ Touched fs s d q → out.fs.stat q = fs.stat q := by
          intro q hq
          rw [hframe q, h1a q hq]
          by_cases hp : (d ++ [e.name]) <+: q
          · obtain ⟨r, hr⟩ := hp
            cases r with
            | nil => right; simpa using hr.symm
            | cons n2 r2 =>
              exfalso
              apply hq
              rw [← hr, List.append_assoc]
              exact htouched _
          · exact Or.inl hp
        rw [hout]
        obtain ⟨fs2, thrown⟩ := out
        cases thrown with
        | some err => exact ⟨⟨fs2, some err⟩, rfl, hout_frame⟩
        | none => exact ih fs2 hrest hout_frame
    · -- a regular file
      simp only [hisdir, Bool.false_eq_true, if_false]
      by_cases hidx : (e.name != "index.html") = true
      · simp only [hidx, if_true]
        have hex : existsSync fsk d = true := by
          rw [existsSync_eq_true_iff, hkd]; exact hd
        simp only [hex, Bool.not_true, Bool.false_eq_true, if_false]
        cases hcp : copyFileSync fsk (s ++ [e.name]) (d ++ [e.name]) with
        | error err => exact ⟨⟨fsk, some err⟩, rfl, hk⟩
        | ok fs2 =>
          simp only []
          apply ih fs2 hrest
          intro q hq
          obtain ⟨c, _, hform⟩ := stat_copyFileSync _ _ _ _ hcp
          rw [hform q]
          have : q ≠ d ++ [e.name] := fun h => hq (h ▸ htouched [])
          simp only [this, if_false]
          exact hk q hq
      · simp only [hidx, Bool.false_eq_true, if_false]
        exact ih fsk hrest hk

/-- Termination and frame of the mirror: from a source that has nothing to do with the
destination, and into a destination that exists, `copyDirectoryRecursive` ends (normally or
by an exception) within a depth bounded by the depth of the source tree, and changes only
locations below the destination under names that the source has entries of. -/
theorem copyDirectoryRecursive_total : ∀ (depth N : Nat) (fs : FsNode) (s d : Path),
    (∀ r, fs.stat (s ++ r) ≠ none → r.length ≤ N) → N < depth →
    ¬ s <+: d → ¬ d <+: s → fs.stat d ≠ none →
    ∃ out, copyDirectoryRecursive depth fs s d = some out ∧
      ∀ q, ¬ Touched fs s d q → out.fs.stat q = fs.stat q := by
  intro depth
  induction depth with
  | zero => intro N fs s d _ h; omega
  | succ k ih =>
    intro N fs s d hb hN hsd hds hd
    unfold copyDirectoryRecursive
    cases hr : readdirSync fs s with
    | error err => exact ⟨⟨fs, some err⟩, rfl, fun _ _ => rfl⟩
    | ok entries =>
      simp only []
      obtain ⟨_, _, hmem⟩ := readdirSync_ok fs s entries hr
      apply copyEntries_total (copyDirectoryRecursive k) fs s d hsd hds hd ?_ entries fs
        (fun e he => (hmem e).1 he) (fun _ _ => rfl)
      intro fs1 name hsdir hagree hex
      have hN1 : 1 ≤ N := by
        have := hb [name] (by rw [hsdir]; simp)
        simpa using this
      obtain ⟨hu1, hu2⟩ := unrelated_concat s d name hsd hds
      obtain ⟨out, hout, hframe⟩ := ih (N - 1) fs1 (s ++ [name]) (d ++ [name])
        (fun r hr2 => by
          rw [hagree r, List.append_assoc] at hr2
          have := hb _ hr2
          simp only [List.singleton_append, List.length_cons] at this
          omega)
        (by omega) hu1 hu2 hex
      refine ⟨out, hout, fun q hq => hframe q ?_⟩
      rintro ⟨n2, r2, hq2, _⟩
      rcases hq with hq | hq
      · exact hq ⟨n2 :: r2, hq2.symm⟩
      · rw [hq] at hq2
        have := congrArg List.length hq2
        simp at this

/-- The state after the conditional `mkdirSync` of the output directory. -/
theorem ensureDir_ok (fs : FsNode) (out : Path)
    (hout : ∀ q, q <+: out → ∀ c, fs.stat q ≠ some (.file c)) :
    ∃ fs1, (if (!existsSync fs out) = true then mkdirSync fs out else Except.ok fs) = .ok fs1 ∧
      ∀ q, fs1.stat q = if q <+: out then some .dir else fs.stat q := by
  by_cases hex : existsSync fs out = true
  · refine ⟨fs, by simp [hex], fun q => ?_⟩
    by_cases hq : q <+: out
    · simp only [hq, if_true]
      have hne := (existsSync_eq_true_iff _ _).1 hex
      have hdir : fs.stat out = some .dir := by
        cases hs : fs.stat out with
        | none => exact absurd hs hne
        | some st =>
          cases st with
          | dir => rfl
          | file c => exact absurd hs (hout out (List.prefix_refl _) c)
      by_cases hqo : q = out
      · rw [hqo, hdir]
      · exact stat_above_of_exists fs q out hq hqo hne
    · simp [hq]
  · simp only [Bool.not_eq_true] at hex
    obtain ⟨fs1, h1⟩ := mkdirSync_ok out fs hout
    exact ⟨fs1, by simp [hex, h1], stat_mkdirSync out fs fs1 h1⟩

theorem not_below_self (d : Path) : ¬ Below d d := by
  rintro ⟨name, rest, h⟩
  have := congrArg List.length h
  simp at this

theorem below_of_below_child (d : Path) (name : String) (q : Path)
    (h : Below (d ++ [name]) q) : Below d q := by
  obtain ⟨n, r, hq⟩ := h
  exact ⟨name, n :: r, by rw [hq, List.append_assoc]; rfl⟩

theorem not_below_sibling (d : Path) (a b : String) : ¬ Below (d ++ [a]) (d ++ [b]) := by
  rintro ⟨n, r, h⟩
  have := congrArg List.length h
  simp at this

/-- The state after the conditional `mkdirSync` of the directory for an entry, in a
destination that exists: nothing outside the destination has changed. -/
theorem ensureChild_below (fsk fs1 : FsNode) (d : Path) (name : String)
    (hd : fsk.stat d ≠ none)
    (hmk : (if (!existsSync fsk (d ++ [name])) = true then mkdirSync fsk (d ++ [name])
      else Except.ok fsk) = .ok fs1) :
    (∀ q, q ≠ d ++ [name] → fs1.stat q = fsk.stat q) ∧ fs1.stat (d ++ [name]) ≠ none ∧
    (existsSync fsk (d ++ [name]) = true → fs1 = fsk) := by
  by_cases hex : existsSync fsk (d ++ [name]) = true
  · simp only [hex, Bool.not_true, Bool.false_eq_true, if_false, Except.ok.injEq] at hmk
    subst hmk
    exact ⟨fun _ _ => rfl, (existsSync_eq_true_iff _ _).1 hex, fun _ => rfl⟩
  · simp only [Bool.not_eq_true] at hex
    simp only [hex, Bool.not_false, if_true] at hmk
    have hform := stat_mkdirSync _ _ _ hmk
    have hnofile := mkdirSync_ok_no_file _ _ _ hmk
    refine ⟨fun q hq => ?_, by rw [hform]; simp, fun h => by simp [hex] at h⟩
    rw [hform q]
    by_cases hpre : q <+: d ++ [name]
    · simp only [hpre, if_true]
      rcases List.prefix_concat_iff.1 hpre with heq | hpd
      · exact absurd heq hq
      · have hddir : fsk.stat d = some .dir := by
          cases hsd2 : fsk.stat d with
          | none => exact absurd hsd2 hd
          | some st2 =>
            cases st2 with
            | dir => rfl
            | file c => exact absurd hsd2 (hnofile d (List.prefix_append d _) c)
        by_cases hqd : q = d
        · rw [hqd, hddir]
        · exact (stat_above_of_exists fsk q d hpd hqd (by rw [hddir]; simp)).symm
    · simp only [hpre, if_false]

/-- The loop of the mirror, in a destination that exists, ends (normally or by an
exception) and changes only locations strictly below the destination. -/
theorem copyEntries_below (recurse : FsNode → Path → Path → Option Outcome) (s d : Path)
    (hrec : ∀ fs1 name, fs1.stat (d ++ [name]) ≠ none →
      ∃ out, recurse fs1 (s ++ [name]) (d ++ [name]) = some out ∧
        ∀ q, ¬ Below (d ++ [name]) q → out.fs.stat q = fs1.stat q) :
    ∀ (todo : List Dirent) (fsk : FsNode), fsk.stat d ≠ none →
      ∃ out, copyEntries recurse s d todo fsk = some out ∧
        ∀ q, ¬ Below d q → out.fs.stat q = fsk.stat q := by
  intro todo
  induction todo with
  | nil =>
    intro fsk _
    exact ⟨⟨fsk, none⟩, rfl, fun _ _ => rfl⟩
  | cons e rest ih =>
    intro fsk hd
    unfold copyEntries
    simp only []
    by_cases hisdir : e.isDirectory = true
    · simp only [hisdir, if_true]
      cases hmk : (if (!existsSync fsk (d ++ [e.name])) = true then mkdirSync fsk (d ++ [e.name])
          else Except.ok fsk) with
      | error err => exact ⟨⟨fsk, some err⟩, rfl, fun _ _ => rfl⟩
      | ok fs1 =>
        simp only []
        obtain ⟨h1a, h1b, _⟩ := ensureChild_below fsk fs1 d e.name hd hmk
        obtain ⟨out, hout, hframe⟩ := hrec fs1 e.name h1b
        have hof : ∀ q, ¬ Below d q → out.fs.stat q = fsk.stat q := by
          intro q hq
          rw [hframe q (fun hb => hq (below_of_below_child d e.name q hb))]
          exact h1a q (fun he => hq ⟨e.name, [], he⟩)
        rw [hout]
        obtain ⟨fs2, thrown⟩ := out
        cases thrown with
        | some err => exact ⟨⟨fs2, some err⟩, rfl, hof⟩
        | none =>
          obtain ⟨o2, ho2, hf2⟩ := ih fs2 (by rw [hof d (not_below_self d)]; exact hd)
          exact ⟨o2, ho2, fun q hq => (hf2 q hq).trans (hof q hq)⟩
    · simp only [hisdir, Bool.false_eq_true, if_false]
      by_cases hidx : (e.name != "index.html") = true
      · simp only [hidx, if_true]
        have hex : existsSync fsk d = true := (existsSync_eq_true_iff _ _).2 hd
        simp only [hex, Bool.not_true, Bool.false_eq_true, if_false]
        cases hcp : copyFileSync fsk (s ++ [e.name]) (d ++ [e.name]) with
        | error err => exact ⟨⟨fsk, some err⟩, rfl, fun _ _ => rfl⟩
        | ok fs2 =>
          simp only []
          obtain ⟨c, _, hform⟩ := stat_copyFileSync _ _ _ _ hcp
          have hof : ∀ q, ¬ Below d q → fs2.stat q = fsk.stat q := by
            intro q hq
            rw [hform q, if_neg (fun he => hq ⟨e.name, [], he⟩)]
          obtain ⟨o2, ho2, hf2⟩ := ih fs2 (by rw [hof d (not_below_self d)]; exact hd)
          exact ⟨o2, ho2, fun q hq => (hf2 q hq).trans (hof q hq)⟩
      · simp only [hidx, Bool.false_eq_true, if_false]
        exact ih fsk hd

/-- The mirror into a destination that exists always ends, normally or by an exception, and
changes only locations strictly below the destination. -/
theorem copyDirectoryRecursive_below : ∀ (depth : Nat) (fs : FsNode) (s d : Path),
    fs.stat d ≠ none →
    ∃ out, copyDirectoryRecursive depth fs s d = some out ∧
      ∀ q, ¬ Below d q → out.fs.stat q = fs.stat q := by
  intro depth
  induction depth with
  | zero => intro fs s d _; exact ⟨⟨fs, some .ENAMETOOLONG⟩, rfl, fun _ _ => rfl⟩
  | succ k ih =>
    intro fs s d hd
    unfold copyDirectoryRecursive
    cases hr : readdirSync fs s with
    | error err => exact ⟨⟨fs, some err⟩, rfl, fun _ _ => rfl⟩
    | ok entries =>
      exact copyEntries_below (copyDirectoryRecursive k) s d
        (fun fs1 name h => ih fs1 _ _ h) entries fs hd

/-- The loop of the mirror leaves a regular file of the destination as it is when the
entry of its name in the source is a directory, or when source and destination are the
same directory. -/
theorem copyEntries_keeps_file (recurse : FsNode → Path → Path → Option Outcome)
    (s d : Path) (name : String) (c : Bytes)
    (hrec : ∀ fs1 n, fs1.stat (d ++ [n]) ≠ none →
      ∃ out, recurse fs1 (s ++ [n]) (d ++ [n]) = some out ∧
        ∀ q, ¬ Below (d ++ [n]) q → out.fs.stat q = fs1.stat q) :
    ∀ (todo : List Dirent) (fsk : FsNode),
      (∀ e ∈ todo, e.name = name → e.isDirectory = true ∨ s = d) →
      fsk.stat (d ++ [name]) = some (.file c) →
      ∃ out, copyEntries recurse s d todo fsk = some out ∧
        out.fs.stat (d ++ [name]) = some (.file c) := by
  intro todo
  induction todo with
  | nil =>
    intro fsk _ hf
    exact ⟨⟨fsk, none⟩, rfl, hf⟩
  | cons e rest ih =>
    intro fsk hent hf
    have hrest : ∀ e2 ∈ rest, e2.name = name → e2.isDirectory = true ∨ s = d :=
      fun e2 h2 => hent e2 (List.mem_cons_of_mem _ h2)
    have hd : fsk.stat d ≠ none := by
      rw [stat_parent_of_exists fsk d name [] (by rw [hf]; simp)]
      simp
    unfold copyEntries
    simp only []
    by_cases hisdir : e.isDirectory = true
    · simp only [hisdir, if_true]
      cases hmk : (if (!existsSync fsk (d ++ [e.name])) = true then mkdirSync fsk (d ++ [e.name])
          else Except.ok fsk) with
      | error err => exact ⟨⟨fsk, some err⟩, rfl, hf⟩
      | ok fs1 =>
        simp only []
        obtain ⟨h1a, h1b, h1c⟩ := ensureChild_below fsk fs1 d e.name hd hmk
        have h1f : fs1.stat (d ++ [name]) = some (.file c) := by
          by_cases hn : e.name = name
          · rw [hn] at h1c
            rw [h1c ((existsSync_eq_true_iff _ _).2 (by rw [hf]; simp))]
            exact hf
          · rw [h1a _ (fun he => hn (append_singleton_inj _ _ _ _ he).2.symm)]
            exact hf
        obtain ⟨out, hout, hframe⟩ := hrec fs1 e.name h1b
        have hof : out.fs.stat (d ++ [name]) = some (.file c) := by
          rw [hframe _ (not_below_sibling d e.name name)]
          exact h1f
        rw [hout]
        obtain ⟨fs2, thrown⟩ := out
        cases thrown with
        | some err => exact ⟨⟨fs2, some err⟩, rfl, hof⟩
        | none => exact ih fs2 hrest hof
    · simp only [hisdir, Bool.false_eq_true, if_false]
      by_cases hidx : (e.name != "index.html") = true
      · simp only [hidx, if_true]
        have hex : existsSync fsk d = true := (existsSync_eq_true_iff _ _).2 hd
        simp only [hex, Bool.not_true, Bool.false_eq_true, if_false]
        cases hcp : copyFileSync fsk (s ++ [e.name]) (d ++ [e.name]) with
        | error err => exact ⟨⟨fsk, some err⟩, rfl, hf⟩
        | ok fs2 =>
          simp only []
          obtain ⟨c2, hc2, hform⟩ := stat_copyFileSync _ _ _ _ hcp
          apply ih fs2 hrest
          rw [hform]
          by_cases hn : e.name = name
          · rcases hent e (List.mem_cons_self _ _) hn with h | h
            · exact absurd h hisdir
            · rw [h, hn, hf] at hc2
              simp only [Option.some.injEq, Stat.file.injEq] at hc2
              rw [hn, if_pos rfl, hc2]
          · rw [if_neg (fun he => hn (append_singleton_inj _ _ _ _ he).2.symm)]
            exact hf
      · simp only [hidx, Bool.false_eq_true, if_false]
        exact ih fsk hrest hf

/-- The mirror leaves a regular file of the destination as it is when the source has no
regular file of its name, or when source and destination are the same directory. -/
theorem copyDirectoryRecursive_keeps_file (depth : Nat) (fs : FsNode) (s d : Path)
    (name : String) (c : Bytes) (hfile : fs.stat (d ++ [name]) = some (.file c))
    (hsrc : (∀ c2, fs.stat (s ++ [name]) ≠ some (.file c2)) ∨ s = d) :
    ∃ out, copyDirectoryRecursive depth fs s d = some out ∧
      out.fs.stat (d ++ [name]) = some (.file c) := by
  cases depth with
  | zero => exact ⟨⟨fs, some .ENAMETOOLONG⟩, rfl, hfile⟩
  | succ k =>
    unfold copyDirectoryRecursive
    cases hr : readdirSync fs s with
    | error err => exact ⟨⟨fs, some err⟩, rfl, hfile⟩
    | ok entries =>
      obtain ⟨_, _, hmem⟩ := readdirSync_ok fs s entries hr
      apply copyEntries_keeps_file (copyDirectoryRecursive k) s d name c
        (fun fs1 n h => copyDirectoryRecursive_below k fs1 _ _ h) entries fs ?_ hfile
      intro e he hn
      rcases hsrc with h | h
      · left
        obtain ⟨st, hst, hdir⟩ := (hmem e).1 he
        rw [hn] at hst
        cases st with
        | dir => rw [← hdir]; rfl
        | file c2 => exact absurd hst (h c2)
      · exact Or.inr h

/-- C4 (as the code behaves): in a build, when the preferred file of an asset is absent
and not on the way to the output directory, the fallback is a regular file, the output
directory exists or can be created, the output name is not taken by a directory, neither
location of the logo is the output location of the favicon, and the public directory
holds no regular file of the output name, then `generateBundle` returns normally, whatever
nesting the platform allows, and the file at the output name holds the bytes of the
fallback file, whatever was at that name before. -/
theorem C4_fallback_emitted (host : Host) (opts : AssetHandlerOptions) (st : PluginState)
    (optionsDir : Option String) (fs : FsNode) (kind : AssetKind) (fb : Bytes)
    (hprod : st.isProduction = true)
    (hc : fs.stat (host.resolve st.root (kind.customPath opts)) = none)
    (hf : fs.stat (host.resolve st.root (kind.fallbackPath opts)) = some (.file fb))
    (hout : ∀ q, q <+: host.locate (orElse optionsDir opts.outputDir) →
      ∀ c, fs.stat q ≠ some (.file c))
    (hname : fs.stat (host.locate (orElse optionsDir opts.outputDir) ++ [kind.outputName]) ≠
      some .dir)
    (hc1 : ¬ host.resolve st.root (kind.customPath opts) <+:
      host.locate (orElse optionsDir opts.outputDir))
    (hlogo : kind = .logo →
      host.resolve st.root (kind.customPath opts) ≠
        host.locate (orElse optionsDir opts.outputDir) ++ ["favicon.png"] ∧
      host.resolve st.root (kind.fallbackPath opts) ≠
        host.locate (orElse optionsDir opts.outputDir) ++ ["favicon.png"])
    (hpn : ∀ c, fs.stat (host.resolve st.root opts.publicDir ++ [kind.outputName]) ≠
      some (.file c)) :
    ∀ depth, ∃ fs2 log,
      AssetHandler.generateBundle depth host opts st optionsDir fs = some (⟨fs2, none⟩, log) ∧
      fs2.stat (host.locate (orElse optionsDir opts.outputDir) ++ [kind.outputName]) =
        some (.file fb) := by
  generalize hO : host.locate (orElse optionsDir opts.outputDir) = out at *
  generalize hP : host.resolve st.root opts.publicDir = pub at *
  obtain ⟨fs1, hmk, h1⟩ := ensureDir_ok fs out hout
  -- facts about the state after the output directory is there
  have h1out : fs1.stat out = some .dir := by rw [h1]; simp
  have h1name : ∀ x, fs1.stat (out ++ [x]) = fs.stat (out ++ [x]) := by
    intro x
    rw [h1]; simp [not_concat_prefix_self]
  -- the two asset steps
  generalize hr2 : handleAssetCopy host opts.faviconPath opts.fallbackFaviconPath
    (out ++ ["favicon.png"]) "favicon" st.root fs1 = r2
  generalize hr3 : handleAssetCopy host opts.logoPath opts.fallbackLogoPath
    (out ++ ["logo.png"]) "logo" st.root r2.1 = r3
  have hfr2 : ∀ q, q ≠ out ++ ["favicon.png"] → r2.1.stat q = fs1.stat q := by
    intro q hq; rw [← hr2]; exact handleAssetCopy_frame _ _ _ _ _ _ _ q hq
  have hfr3 : ∀ q, q ≠ out ++ ["logo.png"] → r3.1.stat q = r2.1.stat q := by
    intro q hq; rw [← hr3]; exact handleAssetCopy_frame _ _ _ _ _ _ _ q hq
  have h3 : r3.1.stat (out ++ [kind.outputName]) = some (.file fb) := by
    have hc' : fs1.stat (host.resolve st.root (kind.customPath opts)) = none := by
      rw [h1]; simp [hc1, hc]
    have hf' : fs1.stat (host.resolve st.root (kind.fallbackPath opts)) = some (.file fb) := by
      rw [h1]
      by_cases hpre : host.resolve st.root (kind.fallbackPath opts) <+: out
      · exact absurd hf (hout _ hpre fb)
      · simp [hpre, hf]
    have hn' : fs1.stat (out ++ [kind.outputName]) ≠ some .dir := by rw [h1name]; exact hname
    cases kind with
    | favicon =>
      obtain ⟨fsa, ha, hqa⟩ := handleAssetCopy_fallback host opts.faviconPath
        opts.fallbackFaviconPath out "favicon.png" "favicon" st.root fs1 fb hc' hf' h1out hn'
      rw [hr2] at ha
      rw [hfr3 _ (by simp [AssetKind.outputName]), ha]
      simp [hqa, AssetKind.outputName]
    | logo =>
      obtain ⟨hl1, hl2⟩ := hlogo rfl
      have e1 := hfr2 _ hl1
      have e2 := hfr2 _ hl2
      have e3 := hfr2 out (append_singleton_ne_self out "favicon.png").symm
      have e4 := hfr2 (out ++ ["logo.png"]) (by simp)
      simp only [AssetKind.customPath, AssetKind.fallbackPath, AssetKind.outputName] at *
      obtain ⟨fsa, ha, hqa⟩ := handleAssetCopy_fallback host opts.logoPath
        opts.fallbackLogoPath out "logo.png" "logo" st.root r2.1 fb (by rw [e1, hc'])
        (by rw [e2, hf']) (by rw [e3, h1out]) (by rw [e4]; exact hn')
      rw [hr3] at ha
      rw [ha]
      simp [hqa]
  have h3frame : ∀ q, q ≠ out ++ ["favicon.png"] → q ≠ out ++ ["logo.png"] →
      r3.1.stat q = fs1.stat q := fun q ha hb => by rw [hfr3 q hb, hfr2 q ha]
  -- the public directory
  have hsrc3 : (∀ c2, r3.1.stat (pub ++ [kind.outputName]) ≠ some (.file c2)) ∨ pub = out := by
    by_cases hpo : pub = out
    · exact Or.inr hpo
    · left
      intro c2
      have hne : ∀ x : String, pub ++ [kind.outputName] ≠ out ++ [x] :=
        fun x he => hpo (append_singleton_inj _ _ _ _ he).1
      rw [h3frame _ (hne _) (hne _), h1]
      by_cases hpre : (pub ++ [kind.outputName]) <+: out
      · simp [hpre]
      · simp only [hpre, if_false]
        exact hpn c2
  intro depth
  have hgen : AssetHandler.generateBundle depth host opts st optionsDir fs =
      match copyPublicDirectory depth host opts.publicDir out st.root r3.1 with
      | none => none
      | some r4 => some (⟨r4.1, none⟩, r2.2 ++ r3.2 ++ r4.2) := by
    unfold AssetHandler.generateBundle
    simp only [hprod, Bool.not_true, Bool.false_eq_true, if_false, hO, hmk, hr2, hr3]
  rw [hgen]
  unfold copyPublicDirectory
  simp only [hP]
  by_cases hex : existsSync r3.1 pub = true
  · simp only [hex, Bool.not_true, Bool.false_eq_true, if_false]
    obtain ⟨o4, ho4, hfin⟩ := copyDirectoryRecursive_keeps_file depth r3.1 pub out
      kind.outputName fb h3 hsrc3
    rw [ho4]
    obtain ⟨fs4, thrown⟩ := o4
    cases thrown with
    | none => exact ⟨fs4, _, rfl, hfin⟩
    | some err => exact ⟨fs4, _, rfl, hfin⟩
  · simp only [Bool.not_eq_true] at hex
    simp only [hex, Bool.not_false, if_true]
    exact ⟨r3.1, _, rfl, h3⟩

/-- C4 on a sample: the fallback icon replaces the earlier `dist/favicon.png`. -/
theorem C4_fallback_emitted_witness :
    sampleTreeFallback.stat ["app", "dist", "favicon.png"] = some (.file [5]) ∧
    ∃ fs2 log,
      AssetHandler.generateBundle 3 sampleHost sampleOptions sampleState none
        sampleTreeFallback = some (⟨fs2, none⟩, log) ∧
      fs2.stat (sampleHost.locate (orElse none sampleOptions.outputDir) ++
        [AssetKind.favicon.outputName]) = some (.file [7, 7]) :=
  ⟨by decide,
   C4_fallback_emitted sampleHost sampleOptions sampleState none sampleTreeFallback .favicon
    [7, 7] (by decide) (by decide) (by decide)
    (by
      intro q hq c
      have hq2 : q = [] ∨ q = ["app"] ∨ q = ["app", "dist"] := by
        have hm : q ∈ (["app", "dist"] : Path).inits := (List.mem_inits _ _).2 hq
        simpa [List.inits] using hm
      have hdir : sampleTreeFallback.stat q = some .dir := by
        rcases hq2 with h | h | h <;> subst h <;> decide
      rw [hdir]
      simp)
    (by decide) (by decide) (fun h => by cases h)
    (by
      intro c
      have : sampleTreeFallback.stat (sampleHost.resolve sampleState.root
          sampleOptions.publicDir ++ [AssetKind.favicon.outputName]) = none := by decide
      rw [this]
      simp) 3⟩

/-- C4 fails as stated, in each of these states of a build with the preferred file absent
and the fallback present. With a `favicon.png` in the public directory, `dist/favicon.png`
ends with the bytes of the public file. With a directory at `dist/favicon.png`, or with
`dist` a regular file, nothing is copied. With the preferred favicon path `dist` on the way
to the output directory `dist/bundle`, creating the output directory makes the preferred
path exist, and nothing is copied. With the preferred logo path `dist/favicon.png`, the logo
is copied from the favicon just emitted, and with the fallback logo path
`dist/favicon.png` likewise, so that `dist/logo.png` does not hold the bytes that the
fallback had. -/
theorem C4_counterexample :
    (sampleTreePublicIcon.stat (sampleHost.resolve sampleState.root
        (AssetKind.favicon.customPath sampleOptions)) = none ∧
      sampleTreePublicIcon.stat (sampleHost.resolve sampleState.root
        (AssetKind.favicon.fallbackPath sampleOptions)) = some (.file [7, 7]) ∧
      (match AssetHandler.generateBundle 3 sampleHost sampleOptions sampleState none
          sampleTreePublicIcon with
        | some r => r.1.fs.stat ["app", "dist", "favicon.png"]
        | none => none) = some (.file [9, 9, 9])) ∧
    (sampleTreeFallbackNameTaken.stat ["app", "icons", "flower18.png"] = some (.file [7, 7]) ∧
      (match AssetHandler.generateBundle 3 sampleHost sampleOptions sampleState none
          sampleTreeFallbackNameTaken with
        | some r => r.1.fs.stat ["app", "dist", "favicon.png"]
        | none => none) = some .dir) ∧
    (sampleTreeFallbackDistFile.stat ["app", "icons", "flower18.png"] = some (.file [7, 7]) ∧
      (match AssetHandler.generateBundle 3 sampleHost sampleOptions sampleState none
          sampleTreeFallbackDistFile with
        | some r => r.1.fs.stat ["app", "dist", "favicon.png"]
        | none => none) = none) ∧
    (sampleTreeFallbackNoDist.stat (sampleHost.resolve sampleState.root
        (AssetKind.favicon.customPath sampleOptionsFaviconOnPath)) = none ∧
      sampleTreeFallbackNoDist.stat (sampleHost.resolve sampleState.root
        (AssetKind.favicon.fallbackPath sampleOptionsFaviconOnPath)) = some (.file [7, 7]) ∧
      (match AssetHandler.generateBundle 3 sampleHost sampleOptionsFaviconOnPath sampleState
          (some "dist/bundle") sampleTreeFallbackNoDist with
        | some r => r.1.fs.stat ["app", "dist", "bundle", "favicon.png"]
        | none => none) = none) ∧
    (sampleTreeFallbackEmptyDist.stat (sampleHost.resolve sampleState.root
        (AssetKind.logo.customPath sampleOptionsLogoAtFavicon)) = none ∧
      sampleTreeFallbackEmptyDist.stat (sampleHost.resolve sampleState.root
        (AssetKind.logo.fallbackPath sampleOptionsLogoAtFavicon)) = some (.file [8, 8]) ∧
      (match AssetHandler.generateBundle 3 sampleHost sampleOptionsLogoAtFavicon sampleState
          none sampleTreeFallbackEmptyDist with
        | some r => r.1.fs.stat ["app", "dist", "logo.png"]
        | none => none) = some (.file [7, 7])) ∧
    (sampleTreeFallback.stat (sampleHost.resolve sampleState.root
        (AssetKind.logo.customPath sampleOptionsLogoFallbackAtFavicon)) = none ∧
      sampleTreeFallback.stat (sampleHost.resolve sampleState.root
        (AssetKind.logo.fallbackPath sampleOptionsLogoFallbackAtFavicon)) = some (.file [5]) ∧
      (match AssetHandler.generateBundle 3 sampleHost sampleOptionsLogoFallbackAtFavicon
          sampleState none sampleTreeFallback with
        | some r => r.1.fs.stat ["app", "dist", "logo.png"]
        | none => none) = some (.file [7, 7])) := by
  refine ⟨by decide, by decide, by decide, by decide, by decide, by decide⟩

theorem mirrorStat_cons (name : String) (rel : Path) (x : Option Stat)
    (h : rel ≠ [] ∨ x = some .dir) : mirrorStat (name :: rel) x = mirrorStat rel x := by
  rcases h with h | h
  · cases rel with
    | nil => exact absurd rfl h
    | cons a b =>
      cases x with
      | none => rfl
      | some st => cases st <;> simp [mirrorStat, List.getLast?_cons_cons]
  · subst h; rfl

theorem copyEntries_mirror (recurse : FsNode → Path → Path → Option Outcome)
    (fs : FsNode) (s d : Path) (hsd : ¬ s <+: d) (hds : ¬ d <+: s)
    (hrec : ∀ fs1 name, fs.stat (s ++ [name]) = some .dir →
      (∀ r, fs1.stat (s ++ [name] ++ r) = fs.stat (s ++ [name] ++ r)) →
      fs1.stat (d ++ [name]) = some .dir →
      (∀ n2 rest, fs1.stat (d ++ [name] ++ n2 :: rest) = none) →
      ∃ fs2, recurse fs1 (s ++ [name]) (d ++ [name]) = some ⟨fs2, none⟩ ∧
        (∀ q, ¬ (d ++ [name]) <+: q → fs2.stat q = fs1.stat q) ∧
        ∀ rel, fs2.stat (d ++ [name] ++ rel) = mirrorStat rel (fs1.stat (s ++ [name] ++ rel))) :
    ∀ (todo : List Dirent) (fsk : FsNode),
      (todo.map Dirent.name).Nodup →
      (∀ e ∈ todo, ∃ st, fs.stat (s ++ [e.name]) = some st ∧ st.isDir = e.isDirectory) →
      (∀ q, ¬ d <+: q → fsk.stat q = fs.stat q) →
      fsk.stat d = some .dir →
      (∀ name rest, fsk.stat (d ++ name :: rest) =
        if name ∈ todo.map Dirent.name then none
        else mirrorStat (name :: rest) (fs.stat (s ++ name :: rest))) →
      ∃ fs2, copyEntries recurse s d todo fsk = some ⟨fs2, none⟩ ∧
        (∀ q, ¬ d <+: q → fs2.stat q = fs.stat q) ∧
        fs2.stat d = some .dir ∧
        ∀ name rest, fs2.stat (d ++ name :: rest) =
          mirrorStat (name :: rest) (fs.stat (s ++ name :: rest)) := by
  intro todo
  induction todo with
  | nil =>
    intro fsk _ _ h1 h2 h3
    exact ⟨fsk, rfl, h1, h2, fun name rest => by simpa using h3 name rest⟩
  | cons e todo ih =>
    intro fsk hnd hmem h1 h2 h3
    obtain ⟨st, hst, hdir⟩ := hmem e (List.mem_cons_self _ _)
    have hmem2 : ∀ e2 ∈ todo, ∃ st, fs.stat (s ++ [e2.name]) = some st ∧
        st.isDir = e2.isDirectory := fun e2 h => hmem e2 (List.mem_cons_of_mem _ h)
    simp only [List.map_cons, List.nodup_cons] at hnd
    obtain ⟨hnotin, hnd2⟩ := hnd
    -- nothing is at the destination of this entry yet
    have hfree : ∀ rest, fsk.stat (d ++ e.name :: rest) = none := by
      intro rest; rw [h3]; simp
    have hsrc : ∀ r, fsk.stat (s ++ r) = fs.stat (s ++ r) :=
      fun r => h1 _ (not_prefix_append_of_unrelated s d r hsd hds)
    -- what is left to show once this entry is done
    have hnext : ∀ fs2 : FsNode,
        (∀ q, ¬ d <+: q → fs2.stat q = fs.stat q) → fs2.stat d = some .dir →
        (∀ rest, fs2.stat (d ++ e.name :: rest) =
          mirrorStat (e.name :: rest) (fs.stat (s ++ e.name :: rest))) →
        (∀ name rest, name ≠ e.name → fs2.stat (d ++ name :: rest) =
          fsk.stat (d ++ name :: rest)) →
        ∃ fs3, copyEntries recurse s d todo fs2 = some ⟨fs3, none⟩ ∧
          (∀ q, ¬ d <+: q → fs3.stat q = fs.stat q) ∧
          fs3.stat d = some .dir ∧
          ∀ name rest, fs3.stat (d ++ name :: rest) =
            mirrorStat (name :: rest) (fs.stat (s ++ name :: rest)) := by
      intro fs2 a1 a2 a3 a4
      apply ih fs2 hnd2 hmem2 a1 a2
      intro name rest
      by_cases hn : name = e.name
      · subst hn
        rw [a3, if_neg hnotin]
      · rw [a4 name rest hn, h3]
        simp [hn]
    unfold copyEntries
    simp only []
    by_cases hisdir : e.isDirectory = true
    · simp only [hisdir, if_true]
      have hsdir : fs.stat (s ++ [e.name]) = some .dir := by
        rw [hst]
        cases st with
        | dir => rfl
        | file c => simp [Stat.isDir, hisdir] at hdir
      have hex : existsSync fsk (d ++ [e.name]) = false := by
        rw [existsSync_eq_false_iff]; exact hfree []
      obtain ⟨fs1, hmk⟩ := mkdirSync_ok (d ++ [e.name]) fsk (by
        intro q hq c
        rcases List.prefix_concat_iff.1 hq with heq | hpd
        · rw [heq, hfree []]; simp
        · by_cases hqd : q = d
          · rw [hqd, h2]; simp
          · rw [stat_above_of_exists fsk q d hpd hqd (by rw [h2]; simp)]; simp)
      have hform := stat_mkdirSync _ _ _ hmk
      simp only [hex, Bool.not_false, if_true, hmk]
      obtain ⟨hu1, hu2⟩ := unrelated_concat s d e.name hsd hds
      have hnp : ∀ r, ¬ (s ++ [e.name] ++ r) <+: (d ++ [e.name]) := by
        intro r h
        exact hu1 ((List.prefix_append _ r).trans h)
      obtain ⟨fs2, hrun, hframe, hmir⟩ := hrec fs1 e.name hsdir
        (fun r => by
          rw [hform, if_neg (hnp r), List.append_assoc]
          exact hsrc _)
        (by rw [hform]; simp)
        (fun n2 rest => by
          rw [hform]
          have : ¬ (d ++ [e.name] ++ n2 :: rest) <+: (d ++ [e.name]) := by
            intro h
            have := h.length_le
            simp at this
          rw [if_neg this, List.append_assoc]
          exact hfree _)
      rw [hrun]
      simp only []
      apply hnext fs2
      · intro q hq
        have hq2 : ¬ (d ++ [e.name]) <+: q := fun h => hq ((List.prefix_append d _).trans h)
        rw [hframe q hq2, hform]
        by_cases hpre : q <+: d ++ [e.name]
        · rw [if_pos hpre]
          rcases List.prefix_concat_iff.1 hpre with heq | hpd
          · exact absurd (heq ▸ List.prefix_append d [e.name]) hq
          · have hqd : q ≠ d := fun h => hq (h ▸ List.prefix_refl d)
            rw [← h1 q hq]
            exact (stat_above_of_exists fsk q d hpd hqd (by rw [h2]; simp)).symm
        · rw [if_neg hpre]
          exact h1 q hq
      · rw [hframe d (not_concat_prefix_self d e.name), hform]
        simp
      · intro rest
        have := hmir rest
        rw [hform, if_neg (hnp rest), List.append_assoc, List.append_assoc] at this
        simp only [List.singleton_append] at this
        rw [this, hsrc]
        refine (mirrorStat_cons e.name rest _ ?_).symm
        cases rest with
        | nil => right; simpa using hsdir
        | cons a b => left; simp
      · intro name rest hn
        have hq2 : ¬ (d ++ [e.name]) <+: (d ++ name :: rest) := by
          intro h
          rw [List.prefix_append_right_inj] at h
          simp only [List.singleton_append, List.cons_prefix_cons] at h
          exact hn h.1.symm
        have hq3 : ¬ (d ++ name :: rest) <+: (d ++ [e.name]) := by
          intro h
          rw [List.prefix_append_right_inj, List.cons_prefix_cons] at h
          exact hn h.1
        rw [hframe _ hq2, hform, if_neg hq3]
    · simp only [hisdir, Bool.false_eq_true, if_false]
      have hsfile : ∃ c, fs.stat (s ++ [e.name]) = some (.file c) := by
        cases st with
        | dir => simp [Stat.isDir] at hdir; exact absurd hdir hisdir
        | file c => exact ⟨c, hst⟩
      obtain ⟨c, hc⟩ := hsfile
      have hbelow : ∀ a b, fs.stat (s ++ e.name :: a :: b) = none := by
        intro a b
        have := stat_below_non_dir fs (s ++ [e.name]) a b (by rw [hc]; simp)
        simpa using this
      by_cases hidx : (e.name != "index.html") = true
      · simp only [hidx, if_true]
        have hex : existsSync fsk d = true := by
          rw [existsSync_eq_true_iff, h2]; simp
        simp only [hex, Bool.not_true, Bool.false_eq_true, if_false]
        obtain ⟨fs2, hcp⟩ := copyFileSync_ok fsk (s ++ [e.name]) d e.name c
          (by rw [hsrc, hc]) h2 (by rw [hfree []]; simp)
        obtain ⟨c2, hc2, hform⟩ := stat_copyFileSync _ _ _ _ hcp
        have hcc : c2 = c := by
          rw [hsrc, hc] at hc2
          simpa using hc2.symm
        subst hcc
        simp only [hcp]
        apply hnext fs2
        · intro q hq
          have : q ≠ d ++ [e.name] := fun h => hq (h ▸ List.prefix_append d _)
          rw [hform, if_neg this]
          exact h1 q hq
        · rw [hform, if_neg (append_singleton_ne_self d e.name).symm]
          exact h2
        · intro rest
          cases rest with
          | nil =>
            rw [hform, if_pos rfl, hc]
            have hne : e.name ≠ "index.html" := by simpa using hidx
            simp [mirrorStat, hne]
          | cons a b =>
            have : d ++ e.name :: a :: b ≠ d ++ [e.name] := by
              intro h
              have := congrArg List.length h
              simp at this
            rw [hform, if_neg this, hfree, hbelow]
            rfl
        · intro name rest hn
          have : d ++ name :: rest ≠ d ++ [e.name] := by
            intro h
            have h2 := List.append_cancel_left h
            simp only [List.cons.injEq] at h2
            exact hn h2.1
          rw [hform, if_neg this]
      · simp only [hidx, Bool.false_eq_true, if_false]
        have hname : e.name = "index.html" := by simpa using hidx
        apply hnext fsk h1 h2
        · intro rest
          rw [hfree]
          cases rest with
          | nil => rw [hc]; simp [mirrorStat, hname]
          | cons a b => rw [hbelow]; rfl
        · intro name rest _
          rfl

/-- The mirror into an empty directory apart from the source: `copyDirectoryRecursive` ends
normally within a depth bounded by the depth of the source tree, leaves every location
outside the destination as it was, and below the destination puts the mirror of the
source. -/
theorem copyDirectoryRecursive_mirror : ∀ (depth N : Nat) (fs : FsNode) (s d : Path),
    (∀ r, fs.stat (s ++ r) ≠ none → r.length ≤ N) → N < depth →
    ¬ s <+: d → ¬ d <+: s → fs.stat s = some .dir → fs.stat d = some .dir →
    (∀ name rest, fs.stat (d ++ name :: rest) = none) →
    ∃ fs2, copyDirectoryRecursive depth fs s d = some ⟨fs2, none⟩ ∧
      (∀ q, ¬ d <+: q → fs2.stat q = fs.stat q) ∧
      ∀ rel, fs2.stat (d ++ rel) = mirrorStat rel (fs.stat (s ++ rel)) := by
  intro depth
  induction depth with
  | zero => intro N fs s d _ h; omega
  | succ k ih =>
    intro N fs s d hb hN hsd hds hs hd hempty
    unfold copyDirectoryRecursive
    obtain ⟨entries, hr⟩ := readdirSync_of_dir fs s hs
    obtain ⟨_, hnd, hmem⟩ := readdirSync_ok fs s entries hr
    simp only [hr]
    have hrecc : ∀ fs1 name, fs.stat (s ++ [name]) = some .dir →
        (∀ r, fs1.stat (s ++ [name] ++ r) = fs.stat (s ++ [name] ++ r)) →
        fs1.stat (d ++ [name]) = some .dir →
        (∀ n2 rest, fs1.stat (d ++ [name] ++ n2 :: rest) = none) →
        ∃ fs2, copyDirectoryRecursive k fs1 (s ++ [name]) (d ++ [name]) = some ⟨fs2, none⟩ ∧
          (∀ q, ¬ (d ++ [name]) <+: q → fs2.stat q = fs1.stat q) ∧
          ∀ rel, fs2.stat (d ++ [name] ++ rel) =
            mirrorStat rel (fs1.stat (s ++ [name] ++ rel)) := by
      intro fs1 name hsdir hagree hd1 hempty1
      have hN1 : 1 ≤ N := by
        have := hb [name] (by rw [hsdir]; simp)
        simpa using this
      obtain ⟨hu1, hu2⟩ := unrelated_concat s d name hsd hds
      exact ih (N - 1) fs1 (s ++ [name]) (d ++ [name])
        (fun r hr2 => by
          rw [hagree r, List.append_assoc] at hr2
          have := hb _ hr2
          simp only [List.singleton_append, List.length_cons] at this
          omega)
        (by omega) hu1 hu2 (by simpa using (hagree []).trans (by simpa using hsdir))
        hd1 hempty1
    have hinit : ∀ name rest, fs.stat (d ++ name :: rest) =
        if name ∈ entries.map Dirent.name then none
        else mirrorStat (name :: rest) (fs.stat (s ++ name :: rest)) := by
      intro name rest
      rw [hempty]
      by_cases hin : name ∈ entries.map Dirent.name
      · simp [hin]
      · rw [if_neg hin]
        have hnone : fs.stat (s ++ [name]) = none := by
          cases hst : fs.stat (s ++ [name]) with
          | none => rfl
          | some st =>
            exfalso
            apply hin
            rw [List.mem_map]
            exact ⟨⟨name, st.isDir⟩, (hmem ⟨name, st.isDir⟩).2 ⟨st, hst, rfl⟩, rfl⟩
        cases rest with
        | nil => rw [hnone]; rfl
        | cons a b =>
          have := stat_below_non_dir fs (s ++ [name]) a b (by rw [hnone]; simp)
          simp only [List.append_assoc, List.singleton_append] at this
          rw [this]; rfl
    obtain ⟨fs2, hrun, hf1, hf2, hf3⟩ := copyEntries_mirror (copyDirectoryRecursive k) fs s d
      hsd hds hrecc entries fs hnd (fun e he => (hmem e).1 he) (fun _ _ => rfl) hd hinit
    refine ⟨fs2, hrun, hf1, fun rel => ?_⟩
    cases rel with
    | nil => simp only [List.append_nil]; rw [hf2, hs]; rfl
    | cons name rest => exact hf3 name rest

/-- C9: from a source directory into an empty destination directory that does not lie in
the source tree, `copyDirectoryRecursive` ends normally within a depth bounded by the
depth of the source tree. Afterwards the destination holds a directory at the relative
path of every source directory, a file of the same bytes at the relative path of every
source file not named `index.html`, and nothing else: what is at a relative path below
the destination is the mirror of what the source has there, the files named `index.html`
being the only ones left out. Everything outside the destination is as before. -/
theorem C9_mirror_exact (fs : FsNode) (src dest : Path)
    (hs : fs.stat src = some .dir) (hd : fs.stat dest = some .dir)
    (hempty : ∀ name, fs.stat (dest ++ [name]) = none) (hsep : ¬ src <+: dest) :
    ∃ N, ∀ depth, N ≤ depth → ∃ fs2,
      copyDirectoryRecursive depth fs src dest = some ⟨fs2, none⟩ ∧
      (∀ rel, fs.stat (src ++ rel) = some .dir → fs2.stat (dest ++ rel) = some .dir) ∧
      (∀ rel c, fs.stat (src ++ rel) = some (.file c) → rel.getLast? ≠ some "index.html" →
        fs2.stat (dest ++ rel) = some (.file c)) ∧
      (∀ rel c, fs.stat (src ++ rel) = some (.file c) → rel.getLast? = some "index.html" →
        fs2.stat (dest ++ rel) = none) ∧
      (∀ rel, fs.stat (src ++ rel) = none → fs2.stat (dest ++ rel) = none) ∧
      (∀ rel, fs2.stat (dest ++ rel) = mirrorStat rel (fs.stat (src ++ rel))) ∧
      (∀ q, ¬ dest <+: q → fs2.stat q = fs.stat q) := by
  have hempty2 : ∀ name rest, fs.stat (dest ++ name :: rest) = none := by
    intro name rest
    cases rest with
    | nil => exact hempty name
    | cons a b =>
      have := stat_below_non_dir fs (dest ++ [name]) a b (by rw [hempty]; simp)
      simpa using this
  have hds : ¬ dest <+: src := by
    rintro ⟨r, hr⟩
    cases r with
    | nil => exact hsep (by simp at hr; rw [hr])
    | cons a b =>
      rw [← hr, hempty2] at hs
      simp at hs
  obtain ⟨N, hN⟩ := exists_depth_bound fs src
  refine ⟨N + 1, fun depth hdepth => ?_⟩
  obtain ⟨fs2, hrun, hframe, hmir⟩ := copyDirectoryRecursive_mirror depth N fs src dest hN
    (by omega) hsep hds hs hd hempty2
  refine ⟨fs2, hrun, ?_, ?_, ?_, ?_, hmir, hframe⟩
  · intro rel h
    rw [hmir, h]; rfl
  · intro rel c h hne
    rw [hmir, h]; simp [mirrorStat, hne]
  · intro rel c h he
    rw [hmir, h]; simp [mirrorStat, he]
  · intro rel h
    rw [hmir, h]; rfl

/-- C9 on a sample: the public directory of `sampleTreePublic` mirrored into `dist`. -/
theorem C9_mirror_exact_witness :
    ∃ N, ∀ depth, N ≤ depth → ∃ fs2,
      copyDirectoryRecursive depth sampleTreePublic ["app", "public"] ["app", "dist"] =
        some ⟨fs2, none⟩ ∧
      fs2.stat ["app", "dist", "img"] = some .dir ∧
      fs2.stat ["app", "dist", "img", "a.png"] = some (.file [3]) ∧
      fs2.stat ["app", "dist", "robots.txt"] = some (.file [2]) ∧
      fs2.stat ["app", "dist", "index.html"] = none ∧
      fs2.stat ["app", "dist", "img", "index.html"] = none := by
  obtain ⟨N, hN⟩ := C9_mirror_exact sampleTreePublic ["app", "public"] ["app", "dist"]
    (by decide) (by decide) (fun name => rfl) (by decide)
  refine ⟨N, fun depth hdepth => ?_⟩
  obtain ⟨fs2, hrun, hdir, hfile, hidx, _, _, _⟩ := hN depth hdepth
  exact ⟨fs2, hrun, hdir ["img"] (by decide), hfile ["img", "a.png"] [3] (by decide) (by decide),
    hfile ["robots.txt"] [2] (by decide) (by decide),
    hidx ["index.html"] [1] (by decide) (by decide),
    hidx ["img", "index.html"] [4] (by decide) (by decide)⟩

/-! ## Properties: banner content and frame -/

theorem orElse_some (s d : String) (h : s ≠ "") : orElse (some s) d = s := by
  simp [orElse, h]

theorem infix_of_eq_append (x a b s : String) (h : s = a ++ x ++ b) : x.data <:+: s.data := by
  rw [h]
  exact ⟨a.data, b.data, by simp [String.data_append]⟩

theorem infix_append_left (x a s : String) (h : x.data <:+: s.data) :
    x.data <:+: (s ++ a).data := by
  obtain ⟨u, v, huv⟩ := h
  exact ⟨u, v ++ a.data, by simp [String.data_append, ← huv]⟩

/-- C15: when name, version and license of the metadata are non-empty strings, the banner
of `createBanner` contains each of them as a substring, and so does the code of every
script chunk after the hook `generateBundle` has stamped it. -/
theorem C15_banner_contains_metadata (pkg : PackageInfo) (clock : Clock) (n v l : String)
    (hn : pkg.name = some n) (hn0 : n ≠ "") (hv : pkg.version = some v) (hv0 : v ≠ "")
    (hl : pkg.license = some l) (hl0 : l ≠ "") :
    n.data <:+: (BannerPlugin.createBanner pkg clock).data ∧
    v.data <:+: (BannerPlugin.createBanner pkg clock).data ∧
    l.data <:+: (BannerPlugin.createBanner pkg clock).data ∧
    ∀ (bundle : Bundle) (key fileName code : String),
      (key, OutputFile.chunk fileName code) ∈ bundle →
      ∃ stamped, (key, OutputFile.chunk fileName stamped) ∈
          BannerPlugin.generateBundle pkg clock bundle ∧
        n.data <:+: stamped.data ∧ v.data <:+: stamped.data ∧ l.data <:+: stamped.data := by
  have h1 : n.data <:+: (BannerPlugin.createBanner pkg clock).data := by
    apply infix_of_eq_append n "/*!\n * " (" v" ++
      orElse pkg.version "0.0.0" ++ "\n * " ++
      orElse pkg.description "" ++ "\n * \n * Copyright (c) " ++
      toString clock.fullYear ++ " " ++ orElse pkg.author "Unknown Author" ++
      "\n * Licensed under " ++ orElse pkg.license "Unknown License" ++
      "\n * \n * Built on: " ++ isoDate clock ++ "\n */")
    unfold BannerPlugin.createBanner
    rw [hn, orElse_some n _ hn0]
    simp only [String.append_assoc]
  have h2 : v.data <:+: (BannerPlugin.createBanner pkg clock).data := by
    apply infix_of_eq_append v ("/*!\n * " ++ orElse pkg.name "Unknown Package" ++ " v")
      ("\n * " ++
      orElse pkg.description "" ++ "\n * \n * Copyright (c) " ++
      toString clock.fullYear ++ " " ++ orElse pkg.author "Unknown Author" ++
      "\n * Licensed under " ++ orElse pkg.license "Unknown License" ++
      "\n * \n * Built on: " ++ isoDate clock ++ "\n */")
    unfold BannerPlugin.createBanner
    rw [hv, orElse_some v _ hv0]
    simp only [String.append_assoc]
  have h3 : l.data <:+: (BannerPlugin.createBanner pkg clock).data := by
    apply infix_of_eq_append l ("/*!\n * " ++ orElse pkg.name "Unknown Package" ++ " v" ++
      orElse pkg.version "0.0.0" ++ "\n * " ++
      orElse pkg.description "" ++ "\n * \n * Copyright (c) " ++
      toString clock.fullYear ++ " " ++ orElse pkg.author "Unknown Author" ++
      "\n * Licensed under ")
      ("\n * \n * Built on: " ++ isoDate clock ++ "\n */")
    unfold BannerPlugin.createBanner
    rw [hl, orElse_some l _ hl0]
    simp only [String.append_assoc]
  refine ⟨h1, h2, h3, ?_⟩
  intro bundle key fileName code hmem
  refine ⟨BannerPlugin.createBanner pkg clock ++ "\n" ++ code, ?_, ?_, ?_, ?_⟩
  · unfold BannerPlugin.generateBundle
    simp only [List.mem_map]
    exact ⟨(key, .chunk fileName code), hmem, rfl⟩
  · rw [String.append_assoc]; exact infix_append_left _ _ _ h1
  · rw [String.append_assoc]; exact infix_append_left _ _ _ h2
  · rw [String.append_assoc]; exact infix_append_left _ _ _ h3

/-- C15 on the metadata `widget-ui`, `1.2.0`, `MIT`. -/
theorem C15_banner_contains_metadata_witness :
    "widget-ui".data <:+: (BannerPlugin.createBanner samplePackage sampleClock).data ∧
    "1.2.0".data <:+: (BannerPlugin.createBanner samplePackage sampleClock).data ∧
    "MIT".data <:+: (BannerPlugin.createBanner samplePackage sampleClock).data :=
  ⟨(C15_banner_contains_metadata samplePackage sampleClock "widget-ui" "1.2.0" "MIT" rfl
      (by decide) rfl (by decide) rfl (by decide)).1,
   (C15_banner_contains_metadata samplePackage sampleClock "widget-ui" "1.2.0" "MIT" rfl
      (by decide) rfl (by decide) rfl (by decide)).2.1,
   (C15_banner_contains_metadata samplePackage sampleClock "widget-ui" "1.2.0" "MIT" rfl
      (by decide) rfl (by decide) rfl (by decide)).2.2.1⟩

theorem generateBundle_getElem? (pkg : PackageInfo) (clock : Clock) (bundle : Bundle) (i : Nat) :
    (BannerPlugin.generateBundle pkg clock bundle)[i]? =
      (bundle[i]?).map (fun entry =>
        (entry.1, BannerPlugin.stampFile (BannerPlugin.createBanner pkg clock) entry.2)) := by
  unfold BannerPlugin.generateBundle
  simp only [List.getElem?_map]

theorem stampFile_fileName_kind (banner : String) (f : OutputFile) :
    (BannerPlugin.stampFile banner f).fileName = f.fileName ∧
    (BannerPlugin.stampFile banner f).kind = f.kind := by
  cases f with
  | chunk fn code => exact ⟨rfl, rfl⟩
  | asset fn source =>
    by_cases h : jsEndsWith fn ".css" = true
    · cases source <;> simp [BannerPlugin.stampFile, h, OutputFile.fileName, OutputFile.kind]
    · have h2 : jsEndsWith fn ".css" = false := by simpa using h
      simp [BannerPlugin.stampFile, h2, OutputFile.fileName, OutputFile.kind]

/-- C16: the hook `generateBundle` of the banner plugin leaves every bundle file that is
neither a chunk nor an asset with a file name ending in `.css` exactly as it is, keeps the
keys of the bundle and their order, and keeps the file name and the kind of every file. -/
theorem C16_other_artifacts_untouched (pkg : PackageInfo) (clock : Clock) (bundle : Bundle)
    (i : Nat) (key : String) (f : OutputFile)
    (hi : bundle[i]? = some (key, f)) (hk : f.kind = .other) :
    (BannerPlugin.generateBundle pkg clock bundle)[i]? = some (key, f) ∧
    (BannerPlugin.generateBundle pkg clock bundle).map Prod.fst = bundle.map Prod.fst ∧
    (BannerPlugin.generateBundle pkg clock bundle).map (fun e => (e.2.fileName, e.2.kind)) =
      bundle.map (fun e => (e.2.fileName, e.2.kind)) := by
  refine ⟨?_, ?_, ?_⟩
  · rw [generateBundle_getElem?, hi]
    simp only [Option.map_some', Option.some.injEq, Prod.mk.injEq, true_and]
    cases f with
    | chunk fn code => simp [OutputFile.kind] at hk
    | asset fn source =>
      by_cases h : jsEndsWith fn ".css" = true
      · simp [OutputFile.kind, h] at hk
      · have h2 : jsEndsWith fn ".css" = false := by simpa using h
        simp [BannerPlugin.stampFile, h2]
  · simp [BannerPlugin.generateBundle, List.map_map, Function.comp_def]
  · simp only [BannerPlugin.generateBundle, List.map_map]
    apply List.map_congr_left
    intro e _
    simp [Function.comp_def, stampFile_fileName_kind]

/-- C16 on a sample: an image asset between a chunk and a stylesheet. -/
theorem C16_other_artifacts_untouched_witness :
    (BannerPlugin.generateBundle samplePackage sampleClock
      [("lex-web-ui.js", .chunk "lex-web-ui.js" "var a=1;"),
       ("logo.png", .asset "logo.png" (.bytes [137, 80, 78, 71])),
       ("style.css", .asset "lex-web-ui.css" (.text "body{}"))])[1]? =
      some ("logo.png", .asset "logo.png" (.bytes [137, 80, 78, 71])) :=
  (C16_other_artifacts_untouched samplePackage sampleClock
    [("lex-web-ui.js", .chunk "lex-web-ui.js" "var a=1;"),
     ("logo.png", .asset "logo.png" (.bytes [137, 80, 78, 71])),
     ("style.css", .asset "lex-web-ui.css" (.text "body{}"))] 1 "logo.png"
    (.asset "logo.png" (.bytes [137, 80, 78, 71])) rfl (by decide)).1

/-- C17: stamping only prepends. For every script chunk and every string-sourced
stylesheet asset of the bundle, the content after the hook `generateBundle` is the banner,
one newline and the whole former content, which is thus kept as the end of the new
content; key, file name and kind of the file stay. -/
theorem C17_stamping_only_prepends (pkg : PackageInfo) (clock : Clock) (bundle : Bundle)
    (i : Nat) (key : String) (f : OutputFile) (content : String)
    (hi : bundle[i]? = some (key, f)) (hk : f.kind ≠ .other) (ht : f.text = some content) :
    ∃ f2, (BannerPlugin.generateBundle pkg clock bundle)[i]? = some (key, f2) ∧
      f2.text = some (BannerPlugin.createBanner pkg clock ++ "\n" ++ content) ∧
      f2.fileName = f.fileName ∧ f2.kind = f.kind ∧
      ∀ t, f2.text = some t → content.data <:+ t.data := by
  have hsuf : ∀ t, some (BannerPlugin.createBanner pkg clock ++ "\n" ++ content) = some t →
      content.data <:+ t.data := by
    intro t ht2
    simp only [Option.some.injEq] at ht2
    rw [← ht2, String.data_append]
    exact List.suffix_append _ _
  refine ⟨BannerPlugin.stampFile (BannerPlugin.createBanner pkg clock) f, ?_, ?_,
    (stampFile_fileName_kind _ f).1, (stampFile_fileName_kind _ f).2, ?_⟩
  · rw [generateBundle_getElem?, hi]; rfl
  · cases f with
    | chunk fn code =>
      simp only [OutputFile.text, Option.some.injEq] at ht
      subst ht; rfl
    | asset fn source =>
      by_cases h : jsEndsWith fn ".css" = true
      · cases source with
        | text s =>
          simp only [OutputFile.text, Option.some.injEq] at ht
          subst ht
          simp [BannerPlugin.stampFile, h, OutputFile.text]
        | bytes b => simp [OutputFile.text] at ht
      · have h2 : jsEndsWith fn ".css" = false := by simpa using h
        simp [OutputFile.kind, h2] at hk
  · intro t ht2
    apply hsuf t
    rw [← ht2]
    cases f with
    | chunk fn code =>
      simp only [OutputFile.text, Option.some.injEq] at ht
      subst ht; rfl
    | asset fn source =>
      by_cases h : jsEndsWith fn ".css" = true
      · cases source with
        | text s =>
          simp only [OutputFile.text, Option.some.injEq] at ht
          subst ht
          simp [BannerPlugin.stampFile, h, OutputFile.text]
        | bytes b => simp [OutputFile.text] at ht
      · have h2 : jsEndsWith fn ".css" = false := by simpa using h
        simp [OutputFile.kind, h2] at hk

/-- C17 on a sample: the stylesheet `body{}` of a bundle. -/
theorem C17_stamping_only_prepends_witness :
    ∃ f2, (BannerPlugin.generateBundle samplePackage sampleClock
        [("lex-web-ui.js", .chunk "lex-web-ui.js" "var a=1;"),
         ("style.css", .asset "lex-web-ui.css" (.text "body{}"))])[1]? =
          some ("style.css", f2) ∧
      f2.text = some (BannerPlugin.createBanner samplePackage sampleClock ++ "\n" ++ "body{}") :=
  (C17_stamping_only_prepends samplePackage sampleClock
    [("lex-web-ui.js", .chunk "lex-web-ui.js" "var a=1;"),
     ("style.css", .asset "lex-web-ui.css" (.text "body{}"))] 1 "style.css"
    (.asset "lex-web-ui.css" (.text "body{}")) "body{}" rfl (by decide) rfl).imp
    (fun _ h => ⟨h.1, h.2.1⟩)

theorem textDecoderDecode_utf8Encode (text : String)
    (hbom : text.data.head? ≠ some (Char.ofNat 0xFEFF)) :
    textDecoderDecode (utf8Encode text) = text := by
  unfold textDecoderDecode utf8Encode
  rw [utf8DecodeFrom_flatMap]
  cases h : text.data with
  | nil =>
    apply String.ext
    simp [h]
  | cons c cs =>
    simp only []
    have hc : ¬ c.toNat = 0xFEFF := by
      intro hc
      apply hbom
      rw [h]
      simp only [List.head?_cons, Option.some.injEq]
      rw [← Char.ofNat_toNat c, hc]
    rw [if_neg hc]
    apply String.ext
    simp [h]

/-- What the hook makes of a stylesheet asset with a byte array as its source. -/
theorem stampFile_bytes (banner fileName : String) (B : Bytes)
    (hcss : jsEndsWith fileName ".css" = true) :
    BannerPlugin.stampFile banner (.asset fileName (.bytes B)) =
      .asset fileName (.bytes (utf8Encode (banner ++ "\n") ++
        utf8Encode (textDecoderDecode B))) := by
  simp [BannerPlugin.stampFile, hcss, utf8Encode_append]

/-- C18 (as the code behaves): a stylesheet asset whose source is a byte array `B` gets as
its new source the UTF-8 encoding of the banner and a newline followed by the encoding of
the text decoded from `B`. These last bytes are `B` itself whenever `B` is the UTF-8
encoding of a text that does not start with a byte order mark, and the new source ends
with exactly `B` only when encoding the decoded text gives `B` back. -/
theorem C18_bytes_reencoded (pkg : PackageInfo) (clock : Clock) (bundle : Bundle)
    (i : Nat) (key fileName : String) (B : Bytes)
    (hi : bundle[i]? = some (key, .asset fileName (.bytes B)))
    (hcss : jsEndsWith fileName ".css" = true) :
    (BannerPlugin.generateBundle pkg clock bundle)[i]? =
      some (key, .asset fileName (.bytes
        (utf8Encode (BannerPlugin.createBanner pkg clock ++ "\n") ++
          utf8Encode (textDecoderDecode B)))) ∧
    ((BannerPlugin.generateBundle pkg clock bundle)[i]? =
      some (key, .asset fileName (.bytes
        (utf8Encode (BannerPlugin.createBanner pkg clock ++ "\n") ++ B))) ↔
      utf8Encode (textDecoderDecode B) = B) ∧
    (∀ text : String, B = utf8Encode text → text.data.head? ≠ some (Char.ofNat 0xFEFF) →
      (BannerPlugin.generateBundle pkg clock bundle)[i]? =
        some (key, .asset fileName (.bytes
          (utf8Encode (BannerPlugin.createBanner pkg clock ++ "\n") ++ B)))) := by
  have h1 : (BannerPlugin.generateBundle pkg clock bundle)[i]? =
      some (key, .asset fileName (.bytes
        (utf8Encode (BannerPlugin.createBanner pkg clock ++ "\n") ++
          utf8Encode (textDecoderDecode B)))) := by
    rw [generateBundle_getElem?, hi]
    simp only [Option.map_some', stampFile_bytes _ _ _ hcss]
  refine ⟨h1, ?_, ?_⟩
  · rw [h1]
    simp
  · intro text hB hbom
    rw [h1, hB, textDecoderDecode_utf8Encode text hbom]

/-- C18 on a sample: the bytes of `body{}`. -/
theorem C18_bytes_reencoded_witness :
    (BannerPlugin.generateBundle samplePackage sampleClock
      [("style.css", .asset "lex-web-ui.css" (.bytes (utf8Encode "body{}")))])[0]? =
      some ("style.css", .asset "lex-web-ui.css" (.bytes
        (utf8Encode (BannerPlugin.createBanner samplePackage sampleClock ++ "\n") ++
          utf8Encode "body{}"))) :=
  (C18_bytes_reencoded samplePackage sampleClock
    [("style.css", .asset "lex-web-ui.css" (.bytes (utf8Encode "body{}")))] 0 "style.css"
    "lex-web-ui.css" (utf8Encode "body{}") rfl (by decide)).2.2 "body{}" rfl (by decide)

/-- C18 fails as stated: the byte `0xFF`, which is not UTF-8, comes out as the three bytes
of U+FFFD, and a byte order mark at the start of the stylesheet is dropped. -/
theorem C18_counterexample :
    BannerPlugin.generateBundle samplePackage sampleClock
        [("style.css", .asset "lex-web-ui.css" (.bytes [0xFF]))] =
      [("style.css", .asset "lex-web-ui.css" (.bytes
        (utf8Encode (BannerPlugin.createBanner samplePackage sampleClock ++ "\n") ++
          [0xEF, 0xBF, 0xBD])))] ∧
    BannerPlugin.generateBundle samplePackage sampleClock
        [("style.css", .asset "lex-web-ui.css" (.bytes [0xFF]))] ≠
      [("style.css", .asset "lex-web-ui.css" (.bytes
        (utf8Encode (BannerPlugin.createBanner samplePackage sampleClock ++ "\n") ++
          [0xFF])))] ∧
    BannerPlugin.generateBundle samplePackage sampleClock
        [("style.css", .asset "lex-web-ui.css" (.bytes [0xEF, 0xBB, 0xBF, 0x61]))] =
      [("style.css", .asset "lex-web-ui.css" (.bytes
        (utf8Encode (BannerPlugin.createBanner samplePackage sampleClock ++ "\n") ++
          [0x61])))] := by
  have e1 : utf8Encode (textDecoderDecode [0xFF]) = [0xEF, 0xBF, 0xBD] := by decide
  have e2 : utf8Encode (textDecoderDecode [0xEF, 0xBB, 0xBF, 0x61]) = [0x61] := by decide
  have hcss : jsEndsWith "lex-web-ui.css" ".css" = true := by decide
  refine ⟨?_, ?_, ?_⟩
  · simp only [BannerPlugin.generateBundle, List.map_cons, List.map_nil,
      stampFile_bytes _ _ _ hcss, e1]
  · simp only [BannerPlugin.generateBundle, List.map_cons, List.map_nil,
      stampFile_bytes _ _ _ hcss, e1]
    simp
  · simp only [BannerPlugin.generateBundle, List.map_cons, List.map_nil,
      stampFile_bytes _ _ _ hcss, e2]

/-! ## Properties: output assembly -/

/-- The names that the bundle pattern accepts. -/
theorem matchesBundlePattern_iff (file : String) :
    CopyAssets.matchesBundlePattern file = true ↔
      file ∈ ["lex-web-ui.min.js", "lex-web-ui.min.css", "lex-web-ui.min.map",
        "lex-web-ui.js", "lex-web-ui.css", "lex-web-ui.map",
        "wav-worker.min.js", "wav-worker.min.css", "wav-worker.min.map",
        "wav-worker.js", "wav-worker.css", "wav-worker.map"] := by
  simp [CopyAssets.matchesBundlePattern, or_assoc]

/-- The loop of the bundle rule over names of which those that match are regular files:
every name that matches is copied, nothing else is changed, and no exception is thrown. -/
theorem copyBundleFiles_spec (fs : FsNode) (bundleDir distDir : Path)
    (hne : distDir ≠ bundleDir) :
    ∀ (todo : List String) (fsk : FsNode) (logk : List Console),
      (∀ name ∈ todo, CopyAssets.matchesBundlePattern name = true →
        ∃ c, fs.stat (bundleDir ++ [name]) = some (.file c)) →
      (∀ name, fsk.stat (bundleDir ++ [name]) = fs.stat (bundleDir ++ [name])) →
      fsk.stat distDir = some .dir →
      (∀ name ∈ todo, CopyAssets.matchesBundlePattern name = true →
        fsk.stat (distDir ++ [name]) ≠ some .dir) →
      ∃ fs2, CopyAssets.copyBundleFiles bundleDir distDir todo fsk logk =
          (⟨fs2, none⟩, logk ++ (todo.filter CopyAssets.matchesBundlePattern).map
            (fun f => Console.log ("  ✓ Copied bundle: " ++ f))) ∧
        (∀ name ∈ todo, CopyAssets.matchesBundlePattern name = true →
          fs2.stat (distDir ++ [name]) = fs.stat (bundleDir ++ [name])) ∧
        (∀ q, (∀ name ∈ todo, CopyAssets.matchesBundlePattern name = true →
          q ≠ distDir ++ [name]) → fs2.stat q = fsk.stat q) := by
  intro todo
  induction todo with
  | nil =>
    intro fsk logk _ _ _ _
    exact ⟨fsk, by simp [CopyAssets.copyBundleFiles], by simp, fun _ _ => rfl⟩
  | cons f rest ih =>
    intro fsk logk hfiles hsrc hdist hfree
    have hfiles2 : ∀ name ∈ rest, CopyAssets.matchesBundlePattern name = true →
        ∃ c, fs.stat (bundleDir ++ [name]) = some (.file c) :=
      fun name h => hfiles name (List.mem_cons_of_mem _ h)
    unfold CopyAssets.copyBundleFiles
    by_cases hm : CopyAssets.matchesBundlePattern f = true
    · simp only [hm, if_true]
      obtain ⟨c, hc⟩ := hfiles f (List.mem_cons_self _ _) hm
      obtain ⟨fs1, hcp⟩ := copyFileSync_ok fsk (bundleDir ++ [f]) distDir f c
        (by rw [hsrc, hc]) hdist (hfree f (List.mem_cons_self _ _) hm)
      obtain ⟨c2, hc2, hform⟩ := stat_copyFileSync _ _ _ _ hcp
      have hcc : c2 = c := by
        rw [hsrc, hc] at hc2
        simpa using hc2.symm
      subst hcc
      simp only [hcp]
      obtain ⟨fs2, hrun, hr1, hr2⟩ := ih fs1 (logk ++ [.log ("  ✓ Copied bundle: " ++ f)])
        hfiles2
        (fun name => by
          rw [hform, if_neg (fun h => hne (append_singleton_inj _ _ _ _ h).1.symm)]
          exact hsrc name)
        (by rw [hform, if_neg (append_singleton_ne_self distDir f).symm]; exact hdist)
        (fun name hn hmn => by
          rw [hform]
          by_cases he : distDir ++ [name] = distDir ++ [f]
          · rw [if_pos he]; simp
          · rw [if_neg he]; exact hfree name (List.mem_cons_of_mem _ hn) hmn)
      refine ⟨fs2, ?_, ?_, ?_⟩
      · rw [hrun]
        simp [List.filter_cons, hm]
      · intro name hn hmn
        by_cases hin : name ∈ rest
        · exact hr1 name hin hmn
        · have hnf : name = f := by
            rcases List.mem_cons.1 hn with h | h
            · exact h
            · exact absurd h hin
          subst hnf
          rw [hr2 _ (fun n2 hn2 _ he => hin (by
            rw [(append_singleton_inj _ _ _ _ he).2]; exact hn2)), hform, if_pos rfl, hc]
      · intro q hq
        rw [hr2 q (fun n2 hn2 hm2 => hq n2 (List.mem_cons_of_mem _ hn2) hm2), hform,
          if_neg (hq f (List.mem_cons_self _ _) hm)]
    · have hm2 : CopyAssets.matchesBundlePattern f = false := by simpa using hm
      simp only [hm2, Bool.false_eq_true, if_false]
      obtain ⟨fs2, hrun, hr1, hr2⟩ := ih fsk logk hfiles2 hsrc hdist
        (fun name hn hmn => hfree name (List.mem_cons_of_mem _ hn) hmn)
      refine ⟨fs2, ?_, ?_, ?_⟩
      · rw [hrun]
        simp [List.filter_cons, hm2]
      · intro name hn hmn
        rcases List.mem_cons.1 hn with h | h
        · rw [h, hm2] at hmn
          exact absurd hmn (by simp)
        · exact hr1 name h hmn
      · intro q hq
        exact hr2 q (fun n2 hn2 hmn => hq n2 (List.mem_cons_of_mem _ hn2) hmn)

/-- C19 (as the code behaves): the bundle rule over a bundle directory of regular files,
with the dist directory there and no directory of a matching name in it, ends normally; it
copies an entry of the
bundle directory into the dist directory, under the name of the entry and with the same
bytes, exactly when the name matches the pattern, that is when it is one of the twelve
names made of `lex-web-ui` or `wav-worker`, an optional `.min` and `.js`, `.css` or `.map`;
it reports these copies on the console and changes no other location. -/
theorem C19_bundle_rule_copies_matching (rootDir : Path) (fs : FsNode)
    (hbundle : fs.stat (rootDir ++ ["lex-web-ui", "dist", "bundle"]) = some .dir)
    (hfiles : ∀ name st, fs.stat (rootDir ++ ["lex-web-ui", "dist", "bundle"] ++ [name]) =
      some st → st.isDir = false)
    (hdist : fs.stat (rootDir ++ ["dist"]) = some .dir)
    (hfree : ∀ name, CopyAssets.matchesBundlePattern name = true →
      fs.stat (rootDir ++ ["lex-web-ui", "dist", "bundle"] ++ [name]) ≠ none →
      fs.stat (rootDir ++ ["dist"] ++ [name]) ≠ some .dir) :
    ∃ fs2 log,
      CopyAssets.bundleRule (rootDir ++ ["lex-web-ui", "dist", "bundle"]) (rootDir ++ ["dist"])
        fs = (⟨fs2, none⟩, log) ∧
      (∀ name, Console.log ("  ✓ Copied bundle: " ++ name) ∈ log ↔
        (fs.stat (rootDir ++ ["lex-web-ui", "dist", "bundle"] ++ [name]) ≠ none ∧
          CopyAssets.matchesBundlePattern name = true)) ∧
      (∀ line ∈ log, ∃ name, line = Console.log ("  ✓ Copied bundle: " ++ name)) ∧
      (∀ name c, fs.stat (rootDir ++ ["lex-web-ui", "dist", "bundle"] ++ [name]) =
          some (.file c) → CopyAssets.matchesBundlePattern name = true →
        fs2.stat (rootDir ++ ["dist"] ++ [name]) = some (.file c)) ∧
      (∀ q, (∀ name, fs.stat (rootDir ++ ["lex-web-ui", "dist", "bundle"] ++ [name]) ≠ none →
          CopyAssets.matchesBundlePattern name = true → q ≠ rootDir ++ ["dist"] ++ [name]) →
        fs2.stat q = fs.stat q) ∧
      (∀ name, CopyAssets.matchesBundlePattern name = true ↔
        name ∈ ["lex-web-ui.min.js", "lex-web-ui.min.css", "lex-web-ui.min.map",
          "lex-web-ui.js", "lex-web-ui.css", "lex-web-ui.map",
          "wav-worker.min.js", "wav-worker.min.css", "wav-worker.min.map",
          "wav-worker.js", "wav-worker.css", "wav-worker.map"]) := by
  generalize hB : rootDir ++ ["lex-web-ui", "dist", "bundle"] = bundleDir at *
  generalize hD : rootDir ++ ["dist"] = distDir at *
  have hne : distDir ≠ bundleDir := by
    rw [← hB, ← hD]
    intro h
    have := congrArg List.length h
    simp at this
  obtain ⟨entries, hr⟩ := readdirSync_of_dir fs bundleDir hbundle
  obtain ⟨_, _, hmem⟩ := readdirSync_ok fs bundleDir entries hr
  have hnames : ∀ name, name ∈ entries.map Dirent.name ↔
      fs.stat (bundleDir ++ [name]) ≠ none := by
    intro name
    rw [List.mem_map]
    constructor
    · rintro ⟨e, he, rfl⟩
      obtain ⟨st, hst, _⟩ := (hmem e).1 he
      rw [hst]; simp
    · intro h
      cases hst : fs.stat (bundleDir ++ [name]) with
      | none => exact absurd hst h
      | some st => exact ⟨⟨name, st.isDir⟩, (hmem _).2 ⟨st, hst, rfl⟩, rfl⟩
  have hisfile : ∀ name ∈ entries.map Dirent.name,
      ∃ c, fs.stat (bundleDir ++ [name]) = some (.file c) := by
    intro name hn
    cases hst : fs.stat (bundleDir ++ [name]) with
    | none => exact absurd hst ((hnames name).1 hn)
    | some st =>
      cases st with
      | file c => exact ⟨c, rfl⟩
      | dir => have := hfiles name _ hst; simp [Stat.isDir] at this
  obtain ⟨fs2, hrun, hr1, hr2⟩ := copyBundleFiles_spec fs bundleDir distDir hne
    (entries.map Dirent.name) fs [] (fun name hn _ => hisfile name hn) (fun _ => rfl) hdist
    (fun name hn hm => hfree name hm ((hnames name).1 hn))
  have hex : existsSync fs bundleDir = true := by
    rw [existsSync_eq_true_iff, hbundle]; simp
  rw [List.nil_append] at hrun
  refine ⟨fs2, ((entries.map Dirent.name).filter CopyAssets.matchesBundlePattern).map
      (fun f => Console.log ("  ✓ Copied bundle: " ++ f)),
    by simp only [CopyAssets.bundleRule, hex, if_true, hr, hrun], ?_, ?_, ?_, ?_,
    matchesBundlePattern_iff⟩
  · intro name
    simp only [List.mem_map, List.mem_filter, Console.log.injEq]
    constructor
    · rintro ⟨f, ⟨hf, hm⟩, he⟩
      have : f = name := by
        have := congrArg String.data he
        simp only [String.data_append] at this
        exact String.ext (List.append_cancel_left this)
      subst this
      exact ⟨(hnames f).1 (List.mem_map.2 hf), hm⟩
    · rintro ⟨hn, hm⟩
      exact ⟨name, ⟨List.mem_map.1 ((hnames name).2 hn), hm⟩, rfl⟩
  · intro line hl
    simp only [List.mem_map] at hl
    obtain ⟨f, _, he⟩ := hl
    exact ⟨f, he.symm⟩
  · intro name c hc hm
    rw [hr1 name ((hnames name).2 (by rw [hc]; simp)) hm, hc]
  · intro q hq
    exact hr2 q (fun name hn hm => hq name ((hnames name).1 hn) hm)

/-- In a directory whose listing holds no directory, every entry is a regular file. -/
theorem isDir_of_listing (fs : FsNode) (p : Path) (entries : List Dirent)
    (h : readdirSync fs p = .ok entries) (hall : ∀ e ∈ entries, e.isDirectory = false)
    (name : String) (st : Stat) (hst : fs.stat (p ++ [name]) = some st) : st.isDir = false := by
  obtain ⟨_, _, hmem⟩ := readdirSync_ok fs p entries h
  exact hall ⟨name, st.isDir⟩ ((hmem _).2 ⟨st, hst, rfl⟩)

/-- C19 on a sample: of the five files of the bundle directory of `sampleRepo` the three
with a matching name are copied, the earlier `dist/lex-web-ui.min.js` is replaced, and
`lex-web-ui.js.map` and `report.html` are not copied. -/
theorem C19_bundle_rule_copies_matching_witness :
    ∃ fs2 log,
      CopyAssets.bundleRule ["repo", "lex-web-ui", "dist", "bundle"] ["repo", "dist"]
        sampleRepo = (⟨fs2, none⟩, log) ∧
      Console.log "  ✓ Copied bundle: lex-web-ui.min.js" ∈ log ∧
      Console.log "  ✓ Copied bundle: lex-web-ui.js.map" ∉ log ∧
      fs2.stat ["repo", "dist", "lex-web-ui.min.js"] = some (.file [1]) ∧
      fs2.stat ["repo", "dist", "lex-web-ui.min.css"] = some (.file [2]) ∧
      fs2.stat ["repo", "dist", "wav-worker.min.js"] = some (.file [4]) ∧
      fs2.stat ["repo", "dist", "lex-web-ui.js.map"] = none ∧
      fs2.stat ["repo", "dist", "report.html"] = none ∧
      fs2.stat ["repo", "dist", "index.html"] = some (.file [9]) := by
  obtain ⟨fs2, log, hrun, hlog, _, hcopy, hframe, _⟩ :=
    C19_bundle_rule_copies_matching ["repo"] sampleRepo (by decide)
      (isDir_of_listing sampleRepo ["repo", "lex-web-ui", "dist", "bundle"] _ rfl (by decide))
      (by decide)
      (fun name _ _ h => by
        have := isDir_of_listing sampleRepo ["repo", "dist"] _ rfl (by decide) name _ h
        simp [Stat.isDir] at this)
  have hother : ∀ other : String, CopyAssets.matchesBundlePattern other = false →
      ∀ name, sampleRepo.stat (["repo"] ++ ["lex-web-ui", "dist", "bundle"] ++ [name]) ≠ none →
        CopyAssets.matchesBundlePattern name = true →
        ["repo", "dist", other] ≠ ["repo"] ++ ["dist"] ++ [name] := by
    intro other ho name _ hm he
    have : other = name := by simpa using he
    rw [this, hm] at ho
    exact absurd ho (by simp)
  refine ⟨fs2, log, hrun, (hlog "lex-web-ui.min.js").2 ⟨by decide, by decide⟩,
    fun h => absurd ((hlog "lex-web-ui.js.map").1 h).2 (by decide),
    hcopy "lex-web-ui.min.js" [1] (by decide) (by decide),
    hcopy "lex-web-ui.min.css" [2] (by decide) (by decide),
    hcopy "wav-worker.min.js" [4] (by decide) (by decide), ?_, ?_, ?_⟩
  · rw [hframe _ (hother "lex-web-ui.js.map" (by decide))]; decide
  · rw [hframe _ (hother "report.html" (by decide))]; decide
  · rw [hframe _ (hother "index.html" (by decide))]; decide

/-- C19 fails as stated: the bundle directory holds the regular files `lex-web-ui.js` and
`lex-web-ui.min.js`, both of accepted names, yet the assembly script ends by an exception
and `lex-web-ui.min.js` is not at the dist directory afterwards: when `dist/lex-web-ui.js`
is a directory, whose place the first copy cannot take, and when `dist` is a regular
file. -/
theorem C19_counterexample :
    CopyAssets.matchesBundlePattern "lex-web-ui.min.js" = true ∧
    (readdirSync sampleRepoNameTaken ["repo", "lex-web-ui", "dist", "bundle"] =
        .ok [⟨"lex-web-ui.js", false⟩, ⟨"lex-web-ui.min.js", false⟩] ∧
      (CopyAssets.script ["repo"] sampleRepoNameTaken).1.thrown = some .EISDIR ∧
      (CopyAssets.bundleRule ["repo", "lex-web-ui", "dist", "bundle"] ["repo", "dist"]
        sampleRepoNameTaken).1.thrown = some .EISDIR ∧
      (CopyAssets.script ["repo"] sampleRepoNameTaken).1.fs.stat
        ["repo", "dist", "lex-web-ui.min.js"] = none) ∧
    (readdirSync sampleRepoDistFile ["repo", "lex-web-ui", "dist", "bundle"] =
        .ok [⟨"lex-web-ui.js", false⟩, ⟨"lex-web-ui.min.js", false⟩] ∧
      (CopyAssets.script ["repo"] sampleRepoDistFile).1.thrown = some .ENOTDIR ∧
      (CopyAssets.bundleRule ["repo", "lex-web-ui", "dist", "bundle"] ["repo", "dist"]
        sampleRepoDistFile).1.thrown = some .ENOTDIR ∧
      (CopyAssets.script ["repo"] sampleRepoDistFile).1.fs.stat
        ["repo", "dist", "lex-web-ui.min.js"] = none) := by
  refine ⟨by decide, ⟨rfl, by decide, by decide, by decide⟩,
    ⟨rfl, by decide, by decide, by decide⟩⟩

/-- C20: a rule of the output assembly whose source root is absent does not fail and
changes nothing in the file system; the dependencies rule and the bundle rule then log
their warning, but the website rule logs nothing at all. With the three roots absent the
whole script ends normally, leaves the file system as it was and prints two warnings for
three absent roots, none of them about the website directory. -/
theorem C20_absent_website_root_no_warning (rootDir : Path) (fs : FsNode) :
    (existsSync fs (rootDir ++ ["src", "dependencies"]) = false →
      CopyAssets.dependenciesRule (rootDir ++ ["src", "dependencies"]) (rootDir ++ ["dist"])
          fs =
        (⟨fs, none⟩, [.log "  ⚠ Dependencies directory not found"])) ∧
    (existsSync fs (rootDir ++ ["lex-web-ui", "dist", "bundle"]) = false →
      CopyAssets.bundleRule (rootDir ++ ["lex-web-ui", "dist", "bundle"]) (rootDir ++ ["dist"])
          fs =
        (⟨fs, none⟩, [.log
          "  ⚠ Bundle directory not found - run \"cd lex-web-ui && npm run build-dist\" first"])) ∧
    (existsSync fs (rootDir ++ ["src", "website"]) = false →
      CopyAssets.websiteRule (rootDir ++ ["src", "website"]) (rootDir ++ ["dist"]) fs =
        (⟨fs, none⟩, [])) ∧
    (fs.stat (rootDir ++ ["dist"]) = some .dir →
      existsSync fs (rootDir ++ ["src", "dependencies"]) = false →
      existsSync fs (rootDir ++ ["lex-web-ui", "dist", "bundle"]) = false →
      existsSync fs (rootDir ++ ["src", "website"]) = false →
      CopyAssets.script rootDir fs =
        (⟨fs, none⟩, [
          .log "[INFO] Copying dependencies...",
          .log "  ⚠ Dependencies directory not found",
          .log "[INFO] Copying lex-web-ui bundle files...",
          .log
            "  ⚠ Bundle directory not found - run \"cd lex-web-ui && npm run build-dist\" first",
          .log "[INFO] Copying website files...",
          .log "[INFO] Asset copying complete!"])) := by
  have h1 : existsSync fs (rootDir ++ ["src", "dependencies"]) = false →
      CopyAssets.dependenciesRule (rootDir ++ ["src", "dependencies"])
        (rootDir ++ ["dist"]) fs =
      (⟨fs, none⟩, [.log "  ⚠ Dependencies directory not found"]) := by
    intro hdeps
    simp [CopyAssets.dependenciesRule, hdeps]
  have h2 : existsSync fs (rootDir ++ ["lex-web-ui", "dist", "bundle"]) = false →
      CopyAssets.bundleRule (rootDir ++ ["lex-web-ui", "dist", "bundle"])
        (rootDir ++ ["dist"]) fs =
      (⟨fs, none⟩, [.log
        "  ⚠ Bundle directory not found - run \"cd lex-web-ui && npm run build-dist\" first"]) := by
    intro hbundle
    simp [CopyAssets.bundleRule, hbundle]
  have h3 : existsSync fs (rootDir ++ ["src", "website"]) = false →
      CopyAssets.websiteRule (rootDir ++ ["src", "website"]) (rootDir ++ ["dist"]) fs =
      (⟨fs, none⟩, []) := by
    intro hweb
    simp [CopyAssets.websiteRule, hweb]
  refine ⟨h1, h2, h3, fun hdist hdeps hbundle hweb => ?_⟩
  have hex : existsSync fs (rootDir ++ ["dist"]) = true := by
    rw [existsSync_eq_true_iff, hdist]; simp
  simp [CopyAssets.script, hex, h1 hdeps, h2 hbundle, h3 hweb]

/-- C20 on a sample: `sampleRepoBare` has none of the three source roots; the website rule
logs nothing, and the script ends normally, leaves the file system as it was, and prints
six lines of which two are warnings. -/
theorem C20_absent_website_root_no_warning_witness :
    CopyAssets.websiteRule ["repo", "src", "website"] ["repo", "dist"] sampleRepoBare =
      (⟨sampleRepoBare, none⟩, []) ∧
    CopyAssets.script ["repo"] sampleRepoBare =
      (⟨sampleRepoBare, none⟩, [
        .log "[INFO] Copying dependencies...",
        .log "  ⚠ Dependencies directory not found",
        .log "[INFO] Copying lex-web-ui bundle files...",
        .log "  ⚠ Bundle directory not found - run \"cd lex-web-ui && npm run build-dist\" first",
        .log "[INFO] Copying website files...",
        .log "[INFO] Asset copying complete!"]) :=
  have h := C20_absent_website_root_no_warning ["repo"] sampleRepoBare
  ⟨h.2.2.1 (by decide), h.2.2.2 (by decide) (by decide) (by decide) (by decide)⟩

/-! ## Properties: banner text -/

/-- C24: for every metadata record and every time of build, `createBanner` of the banner
plugin and `createBanner` of the post-build stylesheet script return the same text, hence
the same bytes; and the text depends on the time of build through the year and the date
only, so that calls with unchanged metadata and date return the same text. -/
theorem C24_banner_text_agrees (pkg : PackageInfo) (clock : Clock) :
    BannerPlugin.createBanner pkg clock = PostBuildCss.createBanner pkg clock ∧
    utf8Encode (BannerPlugin.createBanner pkg clock) =
      utf8Encode (PostBuildCss.createBanner pkg clock) ∧
    (∀ clock2 : Clock, clock2.fullYear = clock.fullYear → isoDate clock2 = isoDate clock →
      BannerPlugin.createBanner pkg clock2 = BannerPlugin.createBanner pkg clock ∧
      PostBuildCss.createBanner pkg clock2 = PostBuildCss.createBanner pkg clock ∧
      BannerPlugin.createBanner pkg clock2 = PostBuildCss.createBanner pkg clock) := by
  refine ⟨rfl, rfl, fun clock2 hy hd => ?_⟩
  simp only [BannerPlugin.createBanner, PostBuildCss.createBanner, hy, hd, and_self]

/-- C24 on a sample: two times of build on the same day give the same banner in both
stampers. -/
theorem C24_banner_text_agrees_witness :
    BannerPlugin.createBanner samplePackage ⟨2024, "2024-05-17T23:59:59.999Z"⟩ =
      PostBuildCss.createBanner samplePackage sampleClock :=
  ((C24_banner_text_agrees samplePackage sampleClock).2.2 ⟨2024, "2024-05-17T23:59:59.999Z"⟩
    rfl (by decide)).2.2

/-! ## Properties: source maps -/

/-- C27: among the raw values of `NODE_ENV` that validation accepts, the flag `isDev`, which
is the value of the source map options of the library build and of the worker chunks, is
true exactly for those that trim to `development`. It agrees with `getEnvironment` being
`development` exactly for the values that are not blank; for an absent or blank `NODE_ENV`
the environment is `development` while `isDev` and `isProd` are both false and the source
maps are off. The flag `isDev` of the loader configuration is true for an absent value. -/
theorem C27_isDev_false_for_blank_NODE_ENV (env : ProcessEnv) (ver : String)
    (hok : (validateEnvironment env (buildConfig env) ver).isOk = true) :
    ((buildConfig env).isDev = true ↔ optTrim env.NODE_ENV = some "development") ∧
    LibraryConfig.sourcemap (buildConfig env) = (buildConfig env).isDev ∧
    workerSourcemap (buildConfig env) = (buildConfig env).isDev ∧
    (truthy (optTrim env.NODE_ENV) = true →
      ((buildConfig env).isDev = true ↔ getEnvironment (buildConfig env) = "development") ∧
      (buildConfig env).isProd = !(buildConfig env).isDev) ∧
    (truthy (optTrim env.NODE_ENV) = false →
      getEnvironment (buildConfig env) = "development" ∧
      (buildConfig env).isDev = false ∧ (buildConfig env).isProd = false ∧
      LibraryConfig.sourcemap (buildConfig env) = false ∧
      workerSourcemap (buildConfig env) = false) ∧
    (truthy (optTrim env.NODE_ENV) = false ↔
      (env.NODE_ENV = none ∨ ∃ s, env.NODE_ENV = some s ∧ s.data.all isJsWhitespace = true)) ∧
    (env.NODE_ENV = none → LoaderConfig.isDev env = true) := by
  have hne : ¬ (validateEnvironment env (buildConfig env) ver).isOk = false := by simp [hok]
  rw [validateEnvironment_fails_iff, not_or] at hne
  have hacc := hne.2
  refine ⟨?_, rfl, rfl, ?_, ?_, ?_, ?_⟩
  · simp [buildConfig]
  · intro ht
    cases hv : env.NODE_ENV with
    | none => rw [hv] at ht; simp [optTrim, truthy] at ht
    | some s =>
      rw [hv] at ht hacc
      have hs : jsTrim s ≠ "" := by simpa [optTrim, truthy] using ht
      have hcase : jsTrim s = "production" ∨ jsTrim s = "development" := by
        by_contra hc
        push_neg at hc
        exact hacc ⟨s, rfl, hs, hc.1, hc.2⟩
      rcases hcase with h | h
      · simp [buildConfig, getEnvironment, hv, optTrim, h]
      · simp [buildConfig, getEnvironment, hv, optTrim, h]
  · intro ht
    cases hv : env.NODE_ENV with
    | none => simp [buildConfig, getEnvironment, LibraryConfig.sourcemap, workerSourcemap, hv,
        optTrim]
    | some s =>
      rw [hv] at ht
      have hs : jsTrim s = "" := by simpa [optTrim, truthy] using ht
      simp [buildConfig, getEnvironment, LibraryConfig.sourcemap, workerSourcemap, hv,
        optTrim, hs]
  · cases hv : env.NODE_ENV with
    | none => simp [optTrim, truthy]
    | some s => simp [optTrim, truthy, jsTrim_eq_empty_iff]
  · intro hv
    simp [LoaderConfig.isDev, hv, truthy]

/-- C27 at the failing input: a library build without `NODE_ENV` is accepted and resolves
to the environment `development`, yet `isDev` is false and so are the source map options. -/
theorem C27_isDev_false_for_blank_NODE_ENV_witness :
    (validateEnvironment ⟨some "lib", none⟩ (buildConfig ⟨some "lib", none⟩) "1.0.0").isOk =
      true ∧
    getEnvironment (buildConfig ⟨some "lib", none⟩) = "development" ∧
    (buildConfig ⟨some "lib", none⟩).isDev = false ∧
    (buildConfig ⟨some "lib", none⟩).isProd = false ∧
    LibraryConfig.sourcemap (buildConfig ⟨some "lib", none⟩) = false ∧
    workerSourcemap (buildConfig ⟨some "lib", none⟩) = false :=
  ⟨by decide,
   (C27_isDev_false_for_blank_NODE_ENV ⟨some "lib", none⟩ "1.0.0" (by decide)).2.2.2.2.1
     (by decide)⟩

/-! ## Properties: names of the library outputs in the assembly -/

/-- The bundle rule over a bundle directory that holds no directory under a matching name,
with the dist directory there and no directory of a matching name in it: the run ends
normally, every matching entry is at the dist directory with its bytes and reported on the
console, and nothing else is changed. -/
theorem bundleRule_spec (fs : FsNode) (bundleDir distDir : Path) (hne : distDir ≠ bundleDir)
    (hbundle : fs.stat bundleDir = some .dir)
    (hfiles : ∀ name, CopyAssets.matchesBundlePattern name = true →
      fs.stat (bundleDir ++ [name]) ≠ some .dir)
    (hdist : fs.stat distDir = some .dir)
    (hfree : ∀ name, CopyAssets.matchesBundlePattern name = true →
      fs.stat (bundleDir ++ [name]) ≠ none → fs.stat (distDir ++ [name]) ≠ some .dir) :
    ∃ fs2 log,
      CopyAssets.bundleRule bundleDir distDir fs = (⟨fs2, none⟩, log) ∧
      (∀ name, fs.stat (bundleDir ++ [name]) ≠ none →
        CopyAssets.matchesBundlePattern name = true →
        Console.log ("  ✓ Copied bundle: " ++ name) ∈ log ∧
        fs2.stat (distDir ++ [name]) = fs.stat (bundleDir ++ [name])) ∧
      (∀ q, (∀ name, fs.stat (bundleDir ++ [name]) ≠ none →
          CopyAssets.matchesBundlePattern name = true → q ≠ distDir ++ [name]) →
        fs2.stat q = fs.stat q) := by
  obtain ⟨entries, hr⟩ := readdirSync_of_dir fs bundleDir hbundle
  obtain ⟨_, _, hmem⟩ := readdirSync_ok fs bundleDir entries hr
  have hnames : ∀ name, name ∈ entries.map Dirent.name ↔
      fs.stat (bundleDir ++ [name]) ≠ none := by
    intro name
    rw [List.mem_map]
    constructor
    · rintro ⟨e, he, rfl⟩
      obtain ⟨st, hst, _⟩ := (hmem e).1 he
      rw [hst]; simp
    · intro h
      cases hst : fs.stat (bundleDir ++ [name]) with
      | none => exact absurd hst h
      | some st => exact ⟨⟨name, st.isDir⟩, (hmem _).2 ⟨st, hst, rfl⟩, rfl⟩
  have hisfile : ∀ name ∈ entries.map Dirent.name,
      CopyAssets.matchesBundlePattern name = true →
      ∃ c, fs.stat (bundleDir ++ [name]) = some (.file c) := by
    intro name hn hm
    cases hst : fs.stat (bundleDir ++ [name]) with
    | none => exact absurd hst ((hnames name).1 hn)
    | some st =>
      cases st with
      | file c => exact ⟨c, rfl⟩
      | dir => exact absurd hst (hfiles name hm)
  obtain ⟨fs2, hrun, hr1, hr2⟩ := copyBundleFiles_spec fs bundleDir distDir hne
    (entries.map Dirent.name) fs [] hisfile (fun _ => rfl) hdist
    (fun name hn hm => hfree name hm ((hnames name).1 hn))
  have hex : existsSync fs bundleDir = true := by
    rw [existsSync_eq_true_iff, hbundle]; simp
  rw [List.nil_append] at hrun
  refine ⟨fs2, ((entries.map Dirent.name).filter CopyAssets.matchesBundlePattern).map
      (fun f => Console.log ("  ✓ Copied bundle: " ++ f)),
    by simp only [CopyAssets.bundleRule, hex, if_true, hr, hrun], ?_, ?_⟩
  · intro name hn hm
    refine ⟨?_, hr1 name ((hnames name).2 hn) hm⟩
    simp only [List.mem_map, List.mem_filter]
    exact ⟨name, ⟨List.mem_map.1 ((hnames name).2 hn), hm⟩, rfl⟩
  · intro q hq
    exact hr2 q (fun name hn hm => hq name ((hnames name).1 hn) hm)

theorem root_dist_ne_bundle (rootDir : Path) :
    rootDir ++ ["dist"] ≠ rootDir ++ ["lex-web-ui", "dist", "bundle"] := by
  intro h
  have := congrArg List.length h
  simp at this

/-- C28 (as the code behaves): in each environment the name of the library script
(`build.lib.fileName`), the name given to the stylesheet `style.css` (`assetFileNames`) and
the name of the worker chunk `wav` or `wav-worker` (`entryFileNames`) are accepted by the
bundle pattern of the assembler. When the bundle directory holds no directory under an
accepted name, the dist directory is a directory and holds no directory under the accepted
name of a bundle entry, the bundle rule ends normally, reports each of these outputs that
is a regular file of the bundle directory and leaves its bytes at the dist directory under
the same name; the bundle directory may hold directories and files of other names. -/
theorem C28_library_outputs_accepted (cfg : BuildConfig) :
    CopyAssets.matchesBundlePattern (LibraryConfig.fileName cfg) = true ∧
    CopyAssets.matchesBundlePattern (LibraryConfig.assetFileNames cfg (some "style.css")) =
      true ∧
    CopyAssets.matchesBundlePattern (entryFileNames cfg "wav") = true ∧
    CopyAssets.matchesBundlePattern (entryFileNames cfg "wav-worker") = true ∧
    ∀ (rootDir : Path) (fs : FsNode),
      (∀ name, CopyAssets.matchesBundlePattern name = true →
        fs.stat (rootDir ++ ["lex-web-ui", "dist", "bundle"] ++ [name]) ≠ some .dir) →
      fs.stat (rootDir ++ ["dist"]) = some .dir →
      (∀ name, CopyAssets.matchesBundlePattern name = true →
        fs.stat (rootDir ++ ["lex-web-ui", "dist", "bundle"] ++ [name]) ≠ none →
        fs.stat (rootDir ++ ["dist"] ++ [name]) ≠ some .dir) →
      ∀ name ∈ [LibraryConfig.fileName cfg,
          LibraryConfig.assetFileNames cfg (some "style.css"),
          entryFileNames cfg "wav", entryFileNames cfg "wav-worker"],
        ∀ c, fs.stat (rootDir ++ ["lex-web-ui", "dist", "bundle"] ++ [name]) =
            some (.file c) →
          ∃ fs2 log,
            CopyAssets.bundleRule (rootDir ++ ["lex-web-ui", "dist", "bundle"])
              (rootDir ++ ["dist"]) fs = (⟨fs2, none⟩, log) ∧
            Console.log ("  ✓ Copied bundle: " ++ name) ∈ log ∧
            fs2.stat (rootDir ++ ["dist"] ++ [name]) = some (.file c) := by
  have h1 : CopyAssets.matchesBundlePattern (LibraryConfig.fileName cfg) = true := by
    unfold LibraryConfig.fileName
    cases cfg.isProd <;> decide
  have h2 : CopyAssets.matchesBundlePattern
      (LibraryConfig.assetFileNames cfg (some "style.css")) = true := by
    unfold LibraryConfig.assetFileNames
    cases cfg.isProd <;> decide
  have h3 : CopyAssets.matchesBundlePattern (entryFileNames cfg "wav") = true := by
    unfold entryFileNames
    cases cfg.isProd <;> decide
  have h4 : CopyAssets.matchesBundlePattern (entryFileNames cfg "wav-worker") = true := by
    unfold entryFileNames
    cases cfg.isProd <;> decide
  refine ⟨h1, h2, h3, h4, fun rootDir fs hfiles hdist hfree name hn c hc => ?_⟩
  have hbundle : fs.stat (rootDir ++ ["lex-web-ui", "dist", "bundle"]) = some .dir :=
    stat_parent_of_exists fs _ name [] (by rw [hc]; simp)
  obtain ⟨fs2, log, hrun, hcopy, _⟩ := bundleRule_spec fs _ _ (root_dist_ne_bundle rootDir)
    hbundle hfiles hdist hfree
  have hm : CopyAssets.matchesBundlePattern name = true := by
    simp only [List.mem_cons, List.mem_singleton, List.not_mem_nil, or_false] at hn
    rcases hn with h | h | h | h <;> rw [h] <;> assumption
  have := hcopy name (by rw [hc]; simp) hm
  rw [hc] at this
  exact ⟨fs2, log, hrun, this⟩

/-- C28 on a sample: the production names are accepted, and from the bundle directory of
`sampleRepoMirrored`, which also holds the mirrored directory `images`, the script
`lex-web-ui.min.js`, the stylesheet `lex-web-ui.min.css` and the worker `wav-worker.min.js`
arrive at the dist directory. -/
theorem C28_library_outputs_accepted_witness :
    LibraryConfig.fileName (buildConfig ⟨some "lib", some "production"⟩) =
      "lex-web-ui.min.js" ∧
    sampleRepoMirrored.stat ["repo", "lex-web-ui", "dist", "bundle", "images"] = some .dir ∧
    (∃ fs2 log,
      CopyAssets.bundleRule ["repo", "lex-web-ui", "dist", "bundle"] ["repo", "dist"]
        sampleRepoMirrored = (⟨fs2, none⟩, log) ∧
      Console.log ("  ✓ Copied bundle: " ++ "lex-web-ui.min.js") ∈ log ∧
      fs2.stat ["repo", "dist", "lex-web-ui.min.js"] = some (.file [1])) ∧
    (∃ fs2 log,
      CopyAssets.bundleRule ["repo", "lex-web-ui", "dist", "bundle"] ["repo", "dist"]
        sampleRepoMirrored = (⟨fs2, none⟩, log) ∧
      Console.log ("  ✓ Copied bundle: " ++ "lex-web-ui.min.css") ∈ log ∧
      fs2.stat ["repo", "dist", "lex-web-ui.min.css"] = some (.file [2])) ∧
    (∃ fs2 log,
      CopyAssets.bundleRule ["repo", "lex-web-ui", "dist", "bundle"] ["repo", "dist"]
        sampleRepoMirrored = (⟨fs2, none⟩, log) ∧
      Console.log ("  ✓ Copied bundle: " ++ "wav-worker.min.js") ∈ log ∧
      fs2.stat ["repo", "dist", "wav-worker.min.js"] = some (.file [4])) := by
  have hfiles : ∀ name, CopyAssets.matchesBundlePattern name = true →
      sampleRepoMirrored.stat (["repo"] ++ ["lex-web-ui", "dist", "bundle"] ++ [name]) ≠
        some .dir := by
    intro name hm
    rw [matchesBundlePattern_iff] at hm
    simp only [List.mem_cons, List.mem_singleton, List.not_mem_nil, or_false] at hm
    rcases hm with h | h | h | h | h | h | h | h | h | h | h | h <;> subst h <;> decide
  have hfree : ∀ name, CopyAssets.matchesBundlePattern name = true →
      sampleRepoMirrored.stat (["repo"] ++ ["lex-web-ui", "dist", "bundle"] ++ [name]) ≠ none →
      sampleRepoMirrored.stat (["repo"] ++ ["dist"] ++ [name]) ≠ some .dir := by
    intro name hm _
    rw [matchesBundlePattern_iff] at hm
    simp only [List.mem_cons, List.mem_singleton, List.not_mem_nil, or_false] at hm
    rcases hm with h | h | h | h | h | h | h | h | h | h | h | h <;> subst h <;> decide
  have h := (C28_library_outputs_accepted (buildConfig ⟨some "lib", some "production"⟩)).2.2.2.2
    ["repo"] sampleRepoMirrored hfiles (by decide) hfree
  exact ⟨by decide, by decide, h "lex-web-ui.min.js" (by decide) [1] (by decide),
    h "lex-web-ui.min.css" (by decide) [2] (by decide),
    h "wav-worker.min.js" (by decide) [4] (by decide)⟩

/-- C28 fails as stated: the outputs have accepted names and are regular files of the bundle
directory, yet the assembly script ends by an exception and the library script is not at
the dist directory afterwards: when `dist/lex-web-ui.min.js` is a directory, when `dist` is
a regular file, and when the bundle directory holds a directory `lex-web-ui.js`, whose copy
fails before the one of `lex-web-ui.min.js` is made. -/
theorem C28_counterexample :
    CopyAssets.matchesBundlePattern
      (LibraryConfig.fileName (buildConfig ⟨some "lib", some "production"⟩)) = true ∧
    LibraryConfig.fileName (buildConfig ⟨some "lib", some "production"⟩) =
      "lex-web-ui.min.js" ∧
    (sampleRepoMinTaken.stat ["repo", "lex-web-ui", "dist", "bundle", "lex-web-ui.min.js"] =
        some (.file [1]) ∧
      (CopyAssets.script ["repo"] sampleRepoMinTaken).1.thrown = some .EISDIR ∧
      (CopyAssets.script ["repo"] sampleRepoMinTaken).1.fs.stat
        ["repo", "dist", "lex-web-ui.min.js"] = some .dir) ∧
    (sampleRepoDistFile.stat ["repo", "lex-web-ui", "dist", "bundle", "lex-web-ui.min.js"] =
        some (.file [2]) ∧
      (CopyAssets.script ["repo"] sampleRepoDistFile).1.thrown = some .ENOTDIR ∧
      (CopyAssets.script ["repo"] sampleRepoDistFile).1.fs.stat
        ["repo", "dist", "lex-web-ui.min.js"] = none) ∧
    (sampleRepoBundleDir.stat ["repo", "lex-web-ui", "dist", "bundle", "lex-web-ui.min.js"] =
        some (.file [2]) ∧
      (CopyAssets.script ["repo"] sampleRepoBundleDir).1.thrown = some .EISDIR ∧
      (CopyAssets.script ["repo"] sampleRepoBundleDir).1.fs.stat
        ["repo", "dist", "lex-web-ui.min.js"] = none) := by
  refine ⟨by decide, by decide, ⟨by decide, by decide, by decide⟩,
    ⟨by decide, by decide, by decide⟩, ⟨by decide, by decide, by decide⟩⟩

/-- C29: no name that the bundle pattern accepts has its source map companion accepted: for
every accepted name `n` the name `n` followed by `.map` is rejected. The names with the
extension `map` that the pattern accepts are the four made of a base name, an optional
`.min` and `.map`, without `js` or `css`. -/
theorem C29_map_companion_rejected (n : String)
    (h : CopyAssets.matchesBundlePattern n = true) :
    CopyAssets.matchesBundlePattern (n ++ ".map") = false ∧
    (jsEndsWith n ".map" = true ↔
      n ∈ ["lex-web-ui.min.map", "lex-web-ui.map", "wav-worker.min.map", "wav-worker.map"]) := by
  rw [matchesBundlePattern_iff] at h
  simp only [List.mem_cons, List.mem_singleton, List.not_mem_nil, or_false] at h
  rcases h with h | h | h | h | h | h | h | h | h | h | h | h <;> subst h <;> decide

/-- C29 at the failing input: `lex-web-ui.js` and `lex-web-ui.min.js` are accepted,
`lex-web-ui.js.map` and `lex-web-ui.min.js.map` are not. -/
theorem C29_map_companion_rejected_witness :
    CopyAssets.matchesBundlePattern "lex-web-ui.js" = true ∧
    CopyAssets.matchesBundlePattern "lex-web-ui.js.map" = false ∧
    CopyAssets.matchesBundlePattern "lex-web-ui.min.js" = true ∧
    CopyAssets.matchesBundlePattern "lex-web-ui.min.js.map" = false :=
  ⟨by decide, (C29_map_companion_rejected "lex-web-ui.js" (by decide)).1, by decide,
    by decide⟩

/-! ## Properties: the three surfaces of the asset resolver -/

/-- C22 (as the code behaves): whenever the resolution of the specification selects a path,
the preferred one or the fallback, the three surfaces deliver that same path: the virtual
module exports it, the dev-server middleware streams the file at it, and the emission step
copies the file at it to the output name. When the resolution fails, the middleware passes
the request on and the emission step only warns, but the virtual module still exports the
fallback path. -/
theorem C22_surfaces_agree_when_found (host : Host) (opts : AssetHandlerOptions)
    (st : PluginState) (fs : FsNode) (kind : AssetKind) (outputPath : Path) :
    (∀ p usedFallback,
      specResolve host st.root fs (kind.customPath opts) (kind.fallbackPath opts) =
        .resolved p usedFallback →
      (p = if usedFallback then kind.fallbackPath opts else kind.customPath opts) ∧
      (AssetHandler.load host opts st fs kind.virtualId).1 =
        some ("export default \"" ++ p ++ "\"") ∧
      AssetHandler.middleware kind host opts st fs =
        [.setHeader "Content-Type" "image/png", .pipeFile (host.resolve st.root p)] ∧
      (AssetHandler.emitAsset kind host opts st outputPath fs).1 =
        match copyFileSync fs (host.resolve st.root p) (outputPath ++ [kind.outputName]) with
        | .ok fs2 => fs2
        | .error _ => fs) ∧
    (specResolve host st.root fs (kind.customPath opts) (kind.fallbackPath opts) =
        .assetNotFound →
      (AssetHandler.load host opts st fs kind.virtualId).1 =
        some ("export default \"" ++ kind.fallbackPath opts ++ "\"") ∧
      AssetHandler.middleware kind host opts st fs = [.next] ∧
      AssetHandler.emitAsset kind host opts st outputPath fs =
        (fs, [.warn ("❌ Neither custom nor fallback " ++ kind.assetType ++ " found")])) := by
  by_cases hc : existsSync fs (host.resolve st.root (kind.customPath opts)) = true
  · have hs : specResolve host st.root fs (kind.customPath opts) (kind.fallbackPath opts) =
        .resolved (kind.customPath opts) false := by
      simp [specResolve, hc]
    rw [hs]
    refine ⟨?_, fun h => by cases h⟩
    intro p u h
    simp only [Resolution.resolved.injEq] at h
    obtain ⟨hp, hu⟩ := h
    subst hp hu
    refine ⟨by simp, ?_, ?_, ?_⟩
    · cases kind <;> simp only [AssetKind.customPath] at hc <;>
        simp [AssetHandler.load, AssetKind.virtualId, AssetKind.customPath, hc]
    · cases kind <;> simp only [AssetKind.customPath] at hc <;>
        simp [AssetHandler.middleware, AssetHandler.faviconMiddleware,
          AssetHandler.logoMiddleware, AssetKind.customPath, hc]
    · unfold AssetHandler.emitAsset handleAssetCopy
      simp only [hc, if_true]
      cases copyFileSync fs (host.resolve st.root (kind.customPath opts))
        (outputPath ++ [kind.outputName]) <;> rfl
  · have hc2 : existsSync fs (host.resolve st.root (kind.customPath opts)) = false := by
      simpa using hc
    by_cases hf : existsSync fs (host.resolve st.root (kind.fallbackPath opts)) = true
    · have hs : specResolve host st.root fs (kind.customPath opts) (kind.fallbackPath opts) =
          .resolved (kind.fallbackPath opts) true := by
        simp [specResolve, hc2, hf]
      rw [hs]
      refine ⟨?_, fun h => by cases h⟩
      intro p u h
      simp only [Resolution.resolved.injEq] at h
      obtain ⟨hp, hu⟩ := h
      subst hp hu
      refine ⟨by simp, ?_, ?_, ?_⟩
      · cases kind <;> simp only [AssetKind.customPath] at hc2 <;>
          simp [AssetHandler.load, AssetKind.virtualId, AssetKind.fallbackPath, hc2]
      · cases kind <;> simp only [AssetKind.customPath, AssetKind.fallbackPath] at hc2 hf <;>
          simp [AssetHandler.middleware, AssetHandler.faviconMiddleware,
            AssetHandler.logoMiddleware, AssetKind.fallbackPath, hc2, hf]
      · unfold AssetHandler.emitAsset handleAssetCopy
        simp only [hc2, hf, if_true, Bool.false_eq_true, if_false]
        cases copyFileSync fs (host.resolve st.root (kind.fallbackPath opts))
          (outputPath ++ [kind.outputName]) <;> rfl
    · have hf2 : existsSync fs (host.resolve st.root (kind.fallbackPath opts)) = false := by
        simpa using hf
      have hs : specResolve host st.root fs (kind.customPath opts) (kind.fallbackPath opts) =
          .assetNotFound := by
        simp [specResolve, hc2, hf2]
      rw [hs]
      refine ⟨fun p u h => (by cases h), fun _ => ⟨?_, ?_, ?_⟩⟩
      · cases kind <;> simp only [AssetKind.customPath] at hc2 <;>
          simp [AssetHandler.load, AssetKind.virtualId, AssetKind.fallbackPath, hc2]
      · cases kind <;> simp only [AssetKind.customPath, AssetKind.fallbackPath] at hc2 hf2 <;>
          simp [AssetHandler.middleware, AssetHandler.faviconMiddleware,
            AssetHandler.logoMiddleware, hc2, hf2]
      · simp [AssetHandler.emitAsset, handleAssetCopy, hc2, hf2]

/-- C22 on a sample: in `sampleTreeFallback` the favicon resolves to the fallback path,
which the virtual module exports and the middleware streams. -/
theorem C22_surfaces_agree_when_found_witness :
    specResolve sampleHost sampleState.root sampleTreeFallback
      (AssetKind.favicon.customPath sampleOptions)
      (AssetKind.favicon.fallbackPath sampleOptions) = .resolved "icons/flower18.png" true ∧
    (AssetHandler.load sampleHost sampleOptions sampleState sampleTreeFallback
      "virtual:favicon").1 = some "export default \"icons/flower18.png\"" ∧
    AssetHandler.middleware .favicon sampleHost sampleOptions sampleState sampleTreeFallback =
      [.setHeader "Content-Type" "image/png", .pipeFile ["app", "icons", "flower18.png"]] :=
  have h := (C22_surfaces_agree_when_found sampleHost sampleOptions sampleState
    sampleTreeFallback .favicon ["app", "dist"]).1 "icons/flower18.png" true (by decide)
  ⟨by decide, h.2.1, h.2.2.1.trans (by decide)⟩

/-- C22 fails as stated: in `sampleTreeNoIcons`, where neither icon file exists, the
resolution fails, the middleware passes the request on and the emission step copies
nothing, yet the virtual module exports the fallback path. -/
theorem C22_counterexample :
    specResolve sampleHost sampleState.root sampleTreeNoIcons
      (AssetKind.favicon.customPath sampleOptions)
      (AssetKind.favicon.fallbackPath sampleOptions) = .assetNotFound ∧
    (AssetHandler.load sampleHost sampleOptions sampleState sampleTreeNoIcons
      "virtual:favicon").1 = some "export default \"icons/flower18.png\"" ∧
    AssetHandler.middleware .favicon sampleHost sampleOptions sampleState sampleTreeNoIcons =
      [.next] ∧
    AssetHandler.emitAsset .favicon sampleHost sampleOptions sampleState ["app", "dist"]
        sampleTreeNoIcons =
      (sampleTreeNoIcons, [.warn "❌ Neither custom nor fallback favicon found"]) := by
  refine ⟨by decide, by decide, by decide, ?_⟩
  rfl

/-! ## Properties: the dev server over time -/

theorem serve_append (host : Host) (opts : AssetHandlerOptions) (st : PluginState) :
    ∀ (pre : List ServerEvent) (fs : FsNode) (post : List ServerEvent),
      AssetHandler.serve host opts st fs (pre ++ post) =
        AssetHandler.serve host opts st fs pre ++
          AssetHandler.serve host opts st (AssetHandler.stateAfter fs pre) post := by
  intro pre
  induction pre with
  | nil => intro fs post; rfl
  | cons e rest ih =>
    intro fs post
    cases e with
    | request kind =>
      show AssetHandler.middleware kind host opts st fs ::
          AssetHandler.serve host opts st fs (rest ++ post) = _
      rw [ih fs post]
      rfl
    | change newFs => exact ih newFs post

/-- C23: in every sequence of requests and changes of the file system, the response to a
request is what the middleware of the asset gives on the file system as it is at the time
of that request; so two histories that end in the same file system get the same response
to the next request, whatever was requested and answered before. In particular a request
answered from the fallback, followed by a change that brings the preferred file, is
followed by an answer from the preferred file. -/
theorem C23_resolution_not_cached (host : Host) (opts : AssetHandlerOptions)
    (st : PluginState) (kind : AssetKind) :
    (∀ (fs : FsNode) (pre post : List ServerEvent),
      AssetHandler.serve host opts st fs (pre ++ .request kind :: post) =
        AssetHandler.serve host opts st fs pre ++
          AssetHandler.middleware kind host opts st (AssetHandler.stateAfter fs pre) ::
            AssetHandler.serve host opts st (AssetHandler.stateAfter fs pre) post) ∧
    (∀ (fs1 fs2 : FsNode) (pre1 pre2 : List ServerEvent),
      AssetHandler.stateAfter fs1 pre1 = AssetHandler.stateAfter fs2 pre2 →
      (AssetHandler.serve host opts st fs1 (pre1 ++ [.request kind])).getLast? =
        (AssetHandler.serve host opts st fs2 (pre2 ++ [.request kind])).getLast?) ∧
    (∀ (fs newFs : FsNode),
      existsSync fs (host.resolve st.root (kind.customPath opts)) = false →
      existsSync fs (host.resolve st.root (kind.fallbackPath opts)) = true →
      existsSync newFs (host.resolve st.root (kind.customPath opts)) = true →
      AssetHandler.serve host opts st fs [.request kind, .change newFs, .request kind] =
        [[.setHeader "Content-Type" "image/png",
          .pipeFile (host.resolve st.root (kind.fallbackPath opts))],
         [.setHeader "Content-Type" "image/png",
          .pipeFile (host.resolve st.root (kind.customPath opts))]]) := by
  refine ⟨fun fs pre post => ?_, fun fs1 fs2 pre1 pre2 h => ?_, fun fs newFs hc hf hn => ?_⟩
  · rw [serve_append]
    rfl
  · rw [serve_append, serve_append, h]
    simp [AssetHandler.serve]
  · cases kind <;> simp only [AssetKind.customPath, AssetKind.fallbackPath] at hc hf hn <;>
      simp [AssetHandler.serve, AssetHandler.middleware, AssetHandler.faviconMiddleware,
        AssetHandler.logoMiddleware, AssetKind.customPath, AssetKind.fallbackPath, hc, hf, hn]

/-- C23 on a sample: the favicon is first streamed from the fallback in
`sampleTreeFallback`, and from the preferred file once the file system has become
`sampleTree`. -/
theorem C23_resolution_not_cached_witness :
    AssetHandler.serve sampleHost sampleOptions sampleState sampleTreeFallback
        [.request .favicon, .change sampleTree, .request .favicon] =
      [[.setHeader "Content-Type" "image/png", .pipeFile ["app", "icons", "flower18.png"]],
       [.setHeader "Content-Type" "image/png", .pipeFile ["app", "assets", "favicon.png"]]] :=
  ((C23_resolution_not_cached sampleHost sampleOptions sampleState .favicon).2.2
    sampleTreeFallback sampleTree (by decide) (by decide) (by decide)).trans (by decide)

/-! ## Properties: reading the project metadata -/

/-- A property that is a string or missing is printed as `orElse` has it. -/
theorem render_ofText (a : Option String) (fallback : String) :
    (JsonField.ofText a).render fallback = .ok (orElse a fallback) := by
  cases a with
  | none => rfl
  | some s =>
    by_cases h : s = ""
    · simp [JsonField.ofText, JsonField.render, orElse, h]
    · simp [JsonField.ofText, JsonField.render, orElse, h]

/-- The interpolation of a property fails exactly on a value that cannot be converted. -/
theorem render_fails_iff (fallback : String) (f : JsonField) :
    (f.render fallback).isOk = false ↔ f = .unprintable := by
  cases f <;> simp [JsonField.render, Except.isOk, Except.toBool]

/-- The banner of an object whose five properties are all printed. -/
theorem createBannerOfValue_object (fields : JsonObject) (clock : Clock)
    (n v d a l : String)
    (h1 : fields.name.render "Unknown Package" = .ok n)
    (h2 : fields.version.render "0.0.0" = .ok v)
    (h3 : fields.description.render "" = .ok d)
    (h4 : fields.author.render "Unknown Author" = .ok a)
    (h5 : fields.license.render "Unknown License" = .ok l) :
    BannerPlugin.createBannerOfValue (some (.object fields)) clock =
      .ok ("/*!\n * " ++ n ++ " v" ++ v ++ "\n * " ++ d ++
        "\n * \n * Copyright (c) " ++ toString clock.fullYear ++ " " ++ a ++
        "\n * Licensed under " ++ l ++ "\n * \n * Built on: " ++ isoDate clock ++ "\n */") := by
  simp only [BannerPlugin.createBannerOfValue, readPackageInfo, bind, Except.bind, h1, h2, h3,
    h4, h5, pure, Except.pure]

/-- On a `package.json` whose five properties are strings or missing, the banner is the one
of `createBanner` on these strings. -/
theorem createBannerOfValue_ofInfo (info : PackageInfo) (clock : Clock) :
    BannerPlugin.createBannerOfValue (some (.object (JsonObject.ofInfo info))) clock =
      .ok (BannerPlugin.createBanner info clock) :=
  createBannerOfValue_object (JsonObject.ofInfo info) clock _ _ _ _ _
    (render_ofText _ _) (render_ofText _ _) (render_ofText _ _) (render_ofText _ _)
    (render_ofText _ _)

/-- The banner of an object cannot be made exactly when one of the five properties cannot be
converted to a string. -/
theorem createBannerOfValue_fails_iff (fields : JsonObject) (clock : Clock) :
    (BannerPlugin.createBannerOfValue (some (.object fields)) clock).isOk = false ↔
      (fields.name = .unprintable ∨ fields.version = .unprintable ∨
        fields.description = .unprintable ∨ fields.author = .unprintable ∨
        fields.license = .unprintable) := by
  obtain ⟨f1, f2, f3, f4, f5⟩ := fields
  cases f1 <;> cases f2 <;> cases f3 <;> cases f4 <;> cases f5 <;>
    simp [BannerPlugin.createBannerOfValue, readPackageInfo, bind, Except.bind,
      JsonField.render, pure, Except.pure, Except.isOk, Except.toBool]

/-- The hook `generateBundle` fails exactly when the banner cannot be made. -/
theorem generateBundleWith_fails_iff (value : Option JsonValue) (clock : Clock)
    (bundle : Bundle) :
    (BannerPlugin.generateBundleWith value clock bundle).isOk = false ↔
      (BannerPlugin.createBannerOfValue value clock).isOk = false := by
  unfold BannerPlugin.generateBundleWith
  cases BannerPlugin.createBannerOfValue value clock <;> simp [Except.isOk, Except.toBool]

/-- C25 (as the code behaves): in a library build `buildStart` ends the build by
`this.error` exactly when `package.json` cannot be read or its text is not valid JSON; the
banner step then yields no bundle at all. When the file is read and holds a JSON object
whose `name`, `version`, `description`, `author` and `license` are each missing, falsy or
convertible to a string, `buildStart` returns and `generateBundle` stamps the bundle with
the banner of these values, the defaults standing in for the missing and the falsy ones;
for an object whose properties are strings or missing that is the banner of `createBanner`.
The banner step as a whole fails exactly when the file cannot be read, is not valid JSON,
holds `null`, or holds an object with one of the five properties not convertible to a
string. -/
theorem C25_banner_step_and_metadata (host : Host)
    (jsonParse : String → Except String JsonValue) (cwd packageJsonPath : String)
    (fs : FsNode) (clock : Clock) (bundle : Bundle) :
    ((BannerPlugin.buildStart host jsonParse cwd packageJsonPath fs).isOk = false ↔
      ((readFileSync fs (host.resolve cwd packageJsonPath)).isOk = false ∨
        ∃ content, readFileSync fs (host.resolve cwd packageJsonPath) = .ok content ∧
          (jsonParse content).isOk = false)) ∧
    (∀ e, BannerPlugin.buildStart host jsonParse cwd packageJsonPath fs = .error e →
      (∃ message, e = .pluginError ("Failed to read package.json: " ++ message)) ∧
      BannerPlugin.run true host jsonParse cwd packageJsonPath fs clock bundle = .error e) ∧
    (∀ content fields n v d a l,
      readFileSync fs (host.resolve cwd packageJsonPath) = .ok content →
      jsonParse content = .ok (.object fields) →
      fields.name.render "Unknown Package" = .ok n →
      fields.version.render "0.0.0" = .ok v →
      fields.description.render "" = .ok d →
      fields.author.render "Unknown Author" = .ok a →
      fields.license.render "Unknown License" = .ok l →
      BannerPlugin.buildStart host jsonParse cwd packageJsonPath fs = .ok (.object fields) ∧
      BannerPlugin.run true host jsonParse cwd packageJsonPath fs clock bundle =
        .ok (bundle.map (fun entry => (entry.1, BannerPlugin.stampFile
          ("/*!\n * " ++ n ++ " v" ++ v ++ "\n * " ++ d ++
            "\n * \n * Copyright (c) " ++ toString clock.fullYear ++ " " ++ a ++
            "\n * Licensed under " ++ l ++ "\n * \n * Built on: " ++ isoDate clock ++ "\n */")
          entry.2)))) ∧
    (∀ fallback : String,
      JsonField.render fallback .missing = .ok fallback ∧
      JsonField.render fallback .falsy = .ok fallback ∧
      (∀ text, JsonField.render fallback (.printable text) = .ok text) ∧
      (JsonField.render fallback .unprintable).isOk = false) ∧
    (∀ content info, readFileSync fs (host.resolve cwd packageJsonPath) = .ok content →
      jsonParse content = .ok (.object (JsonObject.ofInfo info)) →
      BannerPlugin.run true host jsonParse cwd packageJsonPath fs clock bundle =
        .ok (BannerPlugin.generateBundle info clock bundle)) ∧
    ((BannerPlugin.run true host jsonParse cwd packageJsonPath fs clock bundle).isOk = false ↔
      ((readFileSync fs (host.resolve cwd packageJsonPath)).isOk = false ∨
        ∃ content, readFileSync fs (host.resolve cwd packageJsonPath) = .ok content ∧
          ((jsonParse content).isOk = false ∨ jsonParse content = .ok .null ∨
            ∃ fields, jsonParse content = .ok (.object fields) ∧
              (fields.name = .unprintable ∨ fields.version = .unprintable ∨
                fields.description = .unprintable ∨ fields.author = .unprintable ∨
                fields.license = .unprintable)))) := by
  refine ⟨?_, ?_, ?_, fun fallback => ⟨rfl, rfl, fun _ => rfl, rfl⟩, ?_, ?_⟩
  · unfold BannerPlugin.buildStart
    cases hr : readFileSync fs (host.resolve cwd packageJsonPath) with
    | error e => simp [Except.isOk, Except.toBool]
    | ok content =>
      cases hp : jsonParse content with
      | error m => simp [Except.isOk, Except.toBool, hp]
      | ok v => simp [Except.isOk, Except.toBool, hp]
  · intro e he
    refine ⟨?_, ?_⟩
    · unfold BannerPlugin.buildStart at he
      cases hr : readFileSync fs (host.resolve cwd packageJsonPath) with
      | error e2 =>
        simp only [hr, Except.error.injEq] at he
        exact ⟨_, he.symm⟩
      | ok content =>
        cases hp : jsonParse content with
        | error m =>
          simp only [hr, hp, Except.error.injEq] at he
          exact ⟨_, he.symm⟩
        | ok v => simp [hr, hp] at he
    · simp [BannerPlugin.run, he]
  · intro content fields n v d a l hr hp h1 h2 h3 h4 h5
    have hb : BannerPlugin.buildStart host jsonParse cwd packageJsonPath fs =
        .ok (.object fields) := by
      simp [BannerPlugin.buildStart, hr, hp]
    refine ⟨hb, ?_⟩
    simp only [BannerPlugin.run, Bool.not_true, Bool.false_eq_true, if_false, hb,
      BannerPlugin.generateBundleWith,
      createBannerOfValue_object fields clock n v d a l h1 h2 h3 h4 h5]
  · intro content info hr hp
    have hb : BannerPlugin.buildStart host jsonParse cwd packageJsonPath fs =
        .ok (.object (JsonObject.ofInfo info)) := by
      simp [BannerPlugin.buildStart, hr, hp]
    simp only [BannerPlugin.run, Bool.not_true, Bool.false_eq_true, if_false, hb,
      BannerPlugin.generateBundleWith, createBannerOfValue_ofInfo, BannerPlugin.generateBundle]
  · cases hr : readFileSync fs (host.resolve cwd packageJsonPath) with
    | error e =>
      simp [BannerPlugin.run, BannerPlugin.buildStart, hr, Except.isOk, Except.toBool]
    | ok content =>
      cases hp : jsonParse content with
      | error m =>
        simp [BannerPlugin.run, BannerPlugin.buildStart, hr, hp, Except.isOk, Except.toBool]
      | ok value =>
        have hrun : BannerPlugin.run true host jsonParse cwd packageJsonPath fs clock bundle =
            BannerPlugin.generateBundleWith (some value) clock bundle := by
          simp only [BannerPlugin.run, BannerPlugin.buildStart, hr, hp, Bool.not_true,
            Bool.false_eq_true, if_false]
        rw [hrun, generateBundleWith_fails_iff]
        cases value with
        | null =>
          simp [Except.isOk, Except.toBool, hp, BannerPlugin.createBannerOfValue,
            readPackageInfo, bind, Except.bind]
        | object fields =>
          rw [createBannerOfValue_fails_iff]
          simp [Except.isOk, Except.toBool, hp]
        | other =>
          simp [Except.isOk, Except.toBool, hp, BannerPlugin.createBannerOfValue,
            readPackageInfo, bind, Except.bind, JsonField.render, pure, Except.pure]

/-- C25 on a sample: with a `package.json` that holds an object without fields the chunk is
stamped with the banner made of the defaults; without a `package.json` the banner step
fails. -/
theorem C25_banner_step_and_metadata_witness :
    BannerPlugin.run true sampleHost sampleJsonParse "/app" "package.json"
        sampleTreeMetadata sampleClock [("lex-web-ui.js", .chunk "lex-web-ui.js" "var a=1;")] =
      .ok [("lex-web-ui.js", .chunk "lex-web-ui.js"
        ("/*!\n * Unknown Package v0.0.0\n * \n * \n * Copyright (c) 2024 Unknown Author" ++
          "\n * Licensed under Unknown License\n * \n * Built on: 2024-05-17\n */" ++
          "\n" ++ "var a=1;"))] ∧
    (BannerPlugin.run true sampleHost sampleJsonParse "/app" "package.json"
        sampleTreeNoIcons sampleClock []).isOk = false :=
  have h := C25_banner_step_and_metadata sampleHost sampleJsonParse "/app" "package.json"
  ⟨((h sampleTreeMetadata sampleClock
      [("lex-web-ui.js", .chunk "lex-web-ui.js" "var a=1;")]).2.2.1 "\x7b\x7d"
        ⟨.missing, .missing, .missing, .missing, .missing⟩ _ _ _ _ _ rfl rfl rfl rfl rfl rfl
        rfl).2.trans (congrArg Except.ok (by decide)),
   (h sampleTreeNoIcons sampleClock []).2.2.2.2.2.2 (Or.inl (by decide))⟩

/-- C25 fails as stated: a `package.json` that is read and is valid JSON lets `buildStart`
return, yet `generateBundle` throws a `TypeError` and no artifact is stamped, when the file
holds `null`, and when it holds the JSON object whose `name` is an object with the field
`toString` of value `null`. -/
theorem C25_counterexample :
    (readFileSync sampleTreeMetadataNull ["app", "package.json"] = .ok "null" ∧
      BannerPlugin.buildStart sampleHost sampleJsonParse "/app" "package.json"
        sampleTreeMetadataNull = .ok .null ∧
      BannerPlugin.run true sampleHost sampleJsonParse "/app" "package.json"
          sampleTreeMetadataNull sampleClock
          [("lex-web-ui.js", .chunk "lex-web-ui.js" "var a=1;")] =
        .error (.typeError "Cannot read properties of null (reading 'name')")) ∧
    (readFileSync sampleTreeMetadataToString ["app", "package.json"] =
        .ok "\x7b\"name\":\x7b\"toString\":null\x7d\x7d" ∧
      BannerPlugin.buildStart sampleHost sampleJsonParse "/app" "package.json"
          sampleTreeMetadataToString =
        .ok (.object ⟨.unprintable, .missing, .missing, .missing, .missing⟩) ∧
      BannerPlugin.run true sampleHost sampleJsonParse "/app" "package.json"
          sampleTreeMetadataToString sampleClock
          [("lex-web-ui.js", .chunk "lex-web-ui.js" "var a=1;")] =
        .error (.typeError "Cannot convert object to primitive value")) :=
  ⟨⟨rfl, rfl, rfl⟩, ⟨rfl, rfl, rfl⟩⟩

/-! ## Properties: errors of the asset handler -/

/-- Into an output location that exists, `copyPublicDirectory` always returns: every
exception of the mirror is caught. -/
theorem copyPublicDirectory_total (depth : Nat) (host : Host) (publicDir : String)
    (out : Path) (root : String) (fs : FsNode) (hout : fs.stat out ≠ none) :
    ∃ r, copyPublicDirectory depth host publicDir out root fs = some r := by
  unfold copyPublicDirectory
  simp only []
  by_cases hex : existsSync fs (host.resolve root publicDir) = true
  · obtain ⟨o, ho, _⟩ := copyDirectoryRecursive_below depth fs (host.resolve root publicDir)
      out hout
    simp only [hex, Bool.not_true, Bool.false_eq_true, if_false, ho]
    obtain ⟨fs2, thrown⟩ := o
    cases thrown with
    | none => exact ⟨_, rfl⟩
    | some e => exact ⟨_, rfl⟩
  · have hex2 : existsSync fs (host.resolve root publicDir) = false := by simpa using hex
    simp only [hex2, Bool.not_false, if_true]
    exact ⟨_, rfl⟩

/-- C26 (as the code behaves): a hook of a run that is not a build returns at once. In a
build, when the output directory exists or can be created (no regular file stands on the
path to it), `generateBundle` returns normally, whatever happens to the two asset copies
and to the mirror and whatever nesting the platform allows. When the output directory does
not exist and `mkdirSync` fails, the error of `mkdirSync` leaves the hook. -/
theorem C26_generateBundle_returns_when_output_dir_ok (host : Host)
    (opts : AssetHandlerOptions) (st : PluginState) (optionsDir : Option String) (fs : FsNode) :
    (st.isProduction = false →
      ∀ depth, AssetHandler.generateBundle depth host opts st optionsDir fs =
        some (⟨fs, none⟩, [])) ∧
    ((existsSync fs (host.locate (orElse optionsDir opts.outputDir)) = true ∨
        ∀ q, q <+: host.locate (orElse optionsDir opts.outputDir) →
          ∀ c, fs.stat q ≠ some (.file c)) →
      ∀ depth, ∃ fs2 log,
        AssetHandler.generateBundle depth host opts st optionsDir fs =
          some (⟨fs2, none⟩, log)) ∧
    (st.isProduction = true →
      existsSync fs (host.locate (orElse optionsDir opts.outputDir)) = false →
      ∀ e, mkdirSync fs (host.locate (orElse optionsDir opts.outputDir)) = .error e →
      ∀ depth, AssetHandler.generateBundle depth host opts st optionsDir fs =
        some (⟨fs, some e⟩, [])) := by
  refine ⟨fun hprod depth => by simp [AssetHandler.generateBundle, hprod], ?_, ?_⟩
  · intro hout depth
    by_cases hprod : st.isProduction = true
    · have hdir : ∃ fs1, (if (!existsSync fs (host.locate (orElse optionsDir opts.outputDir)))
            = true then mkdirSync fs (host.locate (orElse optionsDir opts.outputDir))
          else Except.ok fs) = .ok fs1 ∧
          fs1.stat (host.locate (orElse optionsDir opts.outputDir)) ≠ none := by
        by_cases hex : existsSync fs (host.locate (orElse optionsDir opts.outputDir)) = true
        · exact ⟨fs, by simp [hex], (existsSync_eq_true_iff _ _).1 hex⟩
        · have hex2 : existsSync fs (host.locate (orElse optionsDir opts.outputDir)) = false := by
            simpa using hex
          rcases hout with h | h
          · exact absurd h hex
          · obtain ⟨fs1, h1⟩ := mkdirSync_ok _ fs h
            refine ⟨fs1, by simp [hex2, h1], ?_⟩
            rw [stat_mkdirSync _ fs fs1 h1, if_pos (List.prefix_refl _)]
            simp
      obtain ⟨fs1, hfs1, hstat⟩ := hdir
      have hne : ∀ name : String, host.locate (orElse optionsDir opts.outputDir) ≠
          host.locate (orElse optionsDir opts.outputDir) ++ [name] :=
        fun name => (append_singleton_ne_self _ name).symm
      have hstat3 : (handleAssetCopy host opts.logoPath opts.fallbackLogoPath
          (host.locate (orElse optionsDir opts.outputDir) ++ ["logo.png"]) "logo" st.root
          (handleAssetCopy host opts.faviconPath opts.fallbackFaviconPath
            (host.locate (orElse optionsDir opts.outputDir) ++ ["favicon.png"]) "favicon"
            st.root fs1).1).1.stat (host.locate (orElse optionsDir opts.outputDir)) ≠ none := by
        rw [handleAssetCopy_frame _ _ _ _ _ _ _ _ (hne _),
          handleAssetCopy_frame _ _ _ _ _ _ _ _ (hne _)]
        exact hstat
      obtain ⟨r, hr⟩ := copyPublicDirectory_total depth host opts.publicDir _ st.root _ hstat3
      unfold AssetHandler.generateBundle
      simp only [hprod, Bool.not_true, Bool.false_eq_true, if_false, hfs1, hr]
      exact ⟨_, _, rfl⟩
    · have hprod2 : st.isProduction = false := by simpa using hprod
      exact ⟨fs, [], by simp [AssetHandler.generateBundle, hprod2]⟩
  · intro hprod hex e he depth
    simp [AssetHandler.generateBundle, hprod, hex, he]

/-- C26 on a sample: with the output directory `public/dist` inside the public directory
the mirror nests until the platform ends it; the exception is caught and logged, and the
hook returns normally. -/
theorem C26_generateBundle_returns_when_output_dir_ok_witness :
    (∃ fs2 log, AssetHandler.generateBundle 4 sampleHost sampleOptions sampleState
        (some "public/dist") sampleTreeNested = some (⟨fs2, none⟩, log) ∧
      Console.error "❌ Error copying public directory: ENAMETOOLONG: name too long" ∈ log) ∧
    ∀ depth, ∃ fs2 log, AssetHandler.generateBundle depth sampleHost sampleOptions
        sampleState (some "public/dist") sampleTreeNested = some (⟨fs2, none⟩, log) :=
  ⟨⟨_, _, rfl, by decide⟩,
   (C26_generateBundle_returns_when_output_dir_ok sampleHost sampleOptions sampleState
    (some "public/dist") sampleTreeNested).2.1 (Or.inl (by decide))⟩

/-- C26 fails as stated: in a build with the output directory `dist/bundle`, on a file
system where `dist` is a regular file, the output directory cannot be created and the hook
ends with the error of `mkdirSync`. -/
theorem C26_counterexample :
    existsSync sampleTreeDistFile (sampleHost.locate "dist/bundle") = false ∧
    mkdirSync sampleTreeDistFile (sampleHost.locate "dist/bundle") = .error .ENOTDIR ∧
    ∀ depth, AssetHandler.generateBundle depth sampleHost sampleOptions sampleState
        (some "dist/bundle") sampleTreeDistFile =
      some (⟨sampleTreeDistFile, some .ENOTDIR⟩, []) :=
  ⟨by decide, rfl, fun _ => rfl⟩

/-! ## Properties: the banner as a comment -/

/-- Occurrences of the comment terminator in a concatenation are those of the two parts,
unless the first part ends in `*` and the second starts with `/`. -/
theorem countTerminator_append (a b : List Char)
    (h : ¬ (a.getLast? = some '*' ∧ b.head? = some '/')) :
    countOccurrences ['*', '/'] (a ++ b) =
      countOccurrences ['*', '/'] a + countOccurrences ['*', '/'] b := by
  induction a with
  | nil => simp [countOccurrences]
  | cons x xs ih =>
    cases xs with
    | nil =>
      have hp : List.isPrefixOf ['*', '/'] (x :: b) = false := by
        cases b with
        | nil => simp [List.isPrefixOf]
        | cons y ys =>
          simp only [List.getLast?_singleton, List.head?_cons, Option.some.injEq, not_and] at h
          simp only [List.isPrefixOf, Bool.and_true, Bool.and_eq_false_imp, beq_iff_eq,
            beq_eq_false_iff_ne, ne_eq]
          intro hx hy
          exact h hx.symm hy.symm
      show (if List.isPrefixOf ['*', '/'] (x :: b) then 1 else 0) +
        countOccurrences ['*', '/'] b = _
      rw [hp]
      simp [countOccurrences, List.isPrefixOf]
    | cons y ys =>
      have ih2 := ih (by simpa [List.getLast?_cons_cons] using h)
      show (if List.isPrefixOf ['*', '/'] (x :: y :: (ys ++ b)) then 1 else 0) +
        countOccurrences ['*', '/'] ((y :: ys) ++ b) = _
      rw [ih2]
      have hp : List.isPrefixOf ['*', '/'] (x :: y :: (ys ++ b)) =
          List.isPrefixOf ['*', '/'] (x :: y :: ys) := by
        simp [List.isPrefixOf]
      rw [hp]
      simp only [countOccurrences]
      omega

theorem countTerminator_eq_zero_of_no_star (l : List Char) (h : '*' ∉ l) :
    countOccurrences ['*', '/'] l = 0 := by
  induction l with
  | nil => simp [countOccurrences]
  | cons x xs ih =>
    simp only [List.mem_cons, not_or] at h
    have hp : List.isPrefixOf ['*', '/'] (x :: xs) = false := by
      cases xs with
      | nil => simp [List.isPrefixOf]
      | cons y ys =>
        simp only [List.isPrefixOf, Bool.and_true, Bool.and_eq_false_imp, beq_iff_eq]
        intro hx
        exact absurd hx h.1
    simp [countOccurrences, hp, ih h.2]

theorem digitChar_ne_star : ∀ m, m < 10 → Nat.digitChar m ≠ '*' := by
  decide

theorem toDigitsCore_no_star : ∀ (fuel n : Nat) (ds : List Char), '*' ∉ ds →
    '*' ∉ Nat.toDigitsCore 10 fuel n ds := by
  intro fuel
  induction fuel with
  | zero => intro n ds h; simpa [Nat.toDigitsCore] using h
  | succ k ih =>
    intro n ds h
    have hd : '*' ∉ Nat.digitChar (n % 10) :: ds := by
      simp only [List.mem_cons, not_or]
      exact ⟨(digitChar_ne_star _ (Nat.mod_lt _ (by decide))).symm, h⟩
    unfold Nat.toDigitsCore
    simp only []
    split
    · exact hd
    · exact ih _ _ hd

/-- The decimal numeral of a year holds no comment terminator. -/
theorem countTerminator_year (n : Nat) :
    countOccurrences ['*', '/'] (toString n).data = 0 :=
  countTerminator_eq_zero_of_no_star _ (toDigitsCore_no_star _ _ _ (by simp))

theorem countTerminator_orElse (a : Option String) (d : String)
    (ha : ∀ s, a = some s → countOccurrences ['*', '/'] s.data = 0)
    (hd : countOccurrences ['*', '/'] d.data = 0) :
    countOccurrences ['*', '/'] (orElse a d).data = 0 := by
  cases a with
  | none => exact hd
  | some s =>
    unfold orElse
    simp only []
    split
    · exact ha s rfl
    · exact hd

theorem countTerminator_lit_append (a b : List Char) (ha : a.getLast? ≠ some '*') :
    countOccurrences ['*', '/'] (a ++ b) =
      countOccurrences ['*', '/'] a + countOccurrences ['*', '/'] b :=
  countTerminator_append a b (fun h => ha h.1)

theorem countTerminator_append_lit (a l b : List Char) (hl : l.head? ≠ some '/')
    (hne : l ≠ []) :
    countOccurrences ['*', '/'] (a ++ (l ++ b)) =
      countOccurrences ['*', '/'] a + countOccurrences ['*', '/'] (l ++ b) := by
  apply countTerminator_append
  intro h
  apply hl
  cases l with
  | nil => exact absurd rfl hne
  | cons c cs => simpa using h.2

theorem bannerData (pkg : PackageInfo) (clock : Clock) :
    (BannerPlugin.createBanner pkg clock).data =
      "/*!\n * ".data ++ ((orElse pkg.name "Unknown Package").data ++ (" v".data ++
      ((orElse pkg.version "0.0.0").data ++ ("\n * ".data ++
      ((orElse pkg.description "").data ++ ("\n * \n * Copyright (c) ".data ++
      ((toString clock.fullYear).data ++ (" ".data ++
      ((orElse pkg.author "Unknown Author").data ++ ("\n * Licensed under ".data ++
      ((orElse pkg.license "Unknown License").data ++ ("\n * \n * Built on: ".data ++
      ((isoDate clock).data ++ "\n */".data))))))))))))) := by
  simp only [BannerPlugin.createBanner, String.data_append, List.append_assoc]

/-- C30 (as the code behaves): when none of the five metadata texts and not the date holds
the comment terminator, the banner of either stamper is one block comment: it starts with
the sentinel, ends with the terminator, and holds the terminator nowhere else. -/
theorem C30_banner_single_comment (pkg : PackageInfo) (clock : Clock)
    (hfields : ∀ s, some s ∈ [pkg.name, pkg.version, pkg.description, pkg.author,
      pkg.license] → countOccurrences "*/".data s.data = 0)
    (hdate : countOccurrences "*/".data (isoDate clock).data = 0) :
    jsStartsWith (BannerPlugin.createBanner pkg clock) "/*!" = true ∧
    jsEndsWith (BannerPlugin.createBanner pkg clock) "*/" = true ∧
    countOccurrences "*/".data (BannerPlugin.createBanner pkg clock).data = 1 ∧
    PostBuildCss.createBanner pkg clock = BannerPlugin.createBanner pkg clock := by
  have hP : "*/".data = ['*', '/'] := rfl
  rw [hP] at hdate ⊢
  have hf : ∀ (a : Option String) (d : String),
      a ∈ [pkg.name, pkg.version, pkg.description, pkg.author, pkg.license] →
      countOccurrences ['*', '/'] d.data = 0 →
      countOccurrences ['*', '/'] (orElse a d).data = 0 := by
    intro a d ha hd
    exact countTerminator_orElse a d (fun s hs => hfields s (hs ▸ ha)) hd
  have h1 := hf pkg.name "Unknown Package" (by simp) (by decide)
  have h2 := hf pkg.version "0.0.0" (by simp) (by decide)
  have h3 := hf pkg.description "" (by simp) (by decide)
  have h4 := hf pkg.author "Unknown Author" (by simp) (by decide)
  have h5 := hf pkg.license "Unknown License" (by simp) (by decide)
  have hy := countTerminator_year clock.fullYear
  refine ⟨?_, ?_, ?_, rfl⟩
  · obtain ⟨rest, hr⟩ := pluginBanner_data pkg clock
    exact jsStartsWith_sentinel _ rest hr
  · unfold jsEndsWith BannerPlugin.createBanner
    rw [String.data_append, List.isSuffixOf_iff_suffix]
    exact ⟨_ ++ ['\n', ' '], by rw [List.append_assoc]; rfl⟩
  · rw [bannerData,
      countTerminator_lit_append "/*!\n * ".data _ (by decide),
      countTerminator_append_lit _ " v".data _ (by decide) (by decide),
      countTerminator_lit_append " v".data _ (by decide),
      countTerminator_append_lit _ "\n * ".data _ (by decide) (by decide),
      countTerminator_lit_append "\n * ".data _ (by decide),
      countTerminator_append_lit _ "\n * \n * Copyright (c) ".data _ (by decide) (by decide),
      countTerminator_lit_append "\n * \n * Copyright (c) ".data _ (by decide),
      countTerminator_append_lit _ " ".data _ (by decide) (by decide),
      countTerminator_lit_append " ".data _ (by decide),
      countTerminator_append_lit _ "\n * Licensed under ".data _ (by decide) (by decide),
      countTerminator_lit_append "\n * Licensed under ".data _ (by decide),
      countTerminator_append_lit _ "\n * \n * Built on: ".data _ (by decide) (by decide),
      countTerminator_lit_append "\n * \n * Built on: ".data _ (by decide),
      countTerminator_append _ "\n */".data (fun h => absurd h.2 (by decide)),
      h1, h2, h3, h4, h5, hy, hdate]
    decide

/-- C30 on a sample: the banner of `samplePackage` is one block comment. -/
theorem C30_banner_single_comment_witness :
    jsStartsWith (BannerPlugin.createBanner samplePackage sampleClock) "/*!" = true ∧
    jsEndsWith (BannerPlugin.createBanner samplePackage sampleClock) "*/" = true ∧
    countOccurrences "*/".data (BannerPlugin.createBanner samplePackage sampleClock).data = 1 :=
  have h := C30_banner_single_comment samplePackage sampleClock
    (fun s hs => by
      simp only [samplePackage, List.mem_cons, Option.some.injEq, List.mem_singleton,
        List.not_mem_nil, or_false] at hs
      rcases hs with h | h | h | h | h <;> subst h <;> decide)
    (by decide)
  ⟨h.1, h.2.1, h.2.2.1⟩

/-- C30 fails as stated: a description that holds the comment terminator closes the
comment early; the banner then holds the terminator twice and the text after the first one
lies outside the comment. -/
theorem C30_counterexample :
    countOccurrences "*/".data (orElse (some "x */ alert(1) /* y") "").data = 1 ∧
    countOccurrences "*/".data (BannerPlugin.createBanner
      ⟨some "widget-ui", some "1.2.0", some "x */ alert(1) /* y", some "Example Corp",
        some "MIT"⟩ sampleClock).data = 2 ∧
    countOccurrences "*/".data (PostBuildCss.createBanner
      ⟨some "widget-ui", some "1.2.0", some "x */ alert(1) /* y", some "Example Corp",
        some "MIT"⟩ sampleClock).data = 2 := by
  have h : countOccurrences "*/".data (BannerPlugin.createBanner
      ⟨some "widget-ui", some "1.2.0", some "x */ alert(1) /* y", some "Example Corp",
        some "MIT"⟩ sampleClock).data = 2 := by
    have hP : "*/".data = ['*', '/'] := rfl
    rw [hP, bannerData,
      countTerminator_lit_append "/*!\n * ".data _ (by decide),
      countTerminator_append_lit _ " v".data _ (by decide) (by decide),
      countTerminator_lit_append " v".data _ (by decide),
      countTerminator_append_lit _ "\n * ".data _ (by decide) (by decide),
      countTerminator_lit_append "\n * ".data _ (by decide),
      countTerminator_append_lit _ "\n * \n * Copyright (c) ".data _ (by decide) (by decide),
      countTerminator_lit_append "\n * \n * Copyright (c) ".data _ (by decide),
      countTerminator_append_lit _ " ".data _ (by decide) (by decide),
      countTerminator_lit_append " ".data _ (by decide),
      countTerminator_append_lit _ "\n * Licensed under ".data _ (by decide) (by decide),
      countTerminator_lit_append "\n * Licensed under ".data _ (by decide),
      countTerminator_append_lit _ "\n * \n * Built on: ".data _ (by decide) (by decide),
      countTerminator_lit_append "\n * \n * Built on: ".data _ (by decide),
      countTerminator_append _ "\n */".data (fun h => absurd h.2 (by decide)),
      countTerminator_year]
    decide
  exact ⟨by decide, h, h⟩

/-! ## Properties: runs of the output assembly side by side -/

/-- Writing at a location leaves the nodes at the locations apart from it as they were. -/
theorem lookup_put_apart (p : Path) : ∀ (fs fs2 n : FsNode), fs.put p n = .ok fs2 →
    ∀ q, ¬ p <+: q → ¬ q <+: p → fs2.lookup q = fs.lookup q := by
  induction p with
  | nil => intro fs fs2 n h; simp [put_nil] at h
  | cons name rest ih =>
    intro fs fs2 n h q hq1 hq2
    cases fs with
    | file c => simp [put_file_cons] at h
    | dir es =>
      cases q with
      | nil => exact absurd List.nil_prefix hq2
      | cons n2 r2 =>
        cases rest with
        | nil =>
          simp only [put_dir_single, Except.ok.injEq] at h
          subst h
          have hne : n2 ≠ name := by
            intro e
            apply hq1
            rw [e]
            exact List.cons_prefix_cons.2 ⟨rfl, List.nil_prefix⟩
          rw [lookup_dir_cons, lookup_dir_cons, findEntry_setEntry_ne name n2 n es hne]
        | cons next rest2 =>
          rw [put_dir_cons] at h
          cases hf : findEntry name es with
          | none => simp [hf] at h
          | some child =>
            simp only [hf] at h
            cases hp : child.put (next :: rest2) n with
            | error e => simp [hp] at h
            | ok child2 =>
              simp only [hp, Except.ok.injEq] at h
              subst h
              rw [lookup_dir_cons, lookup_dir_cons]
              by_cases hne : n2 = name
              · subst hne
                rw [findEntry_setEntry_same, hf]
                simp only [Option.some_bind]
                exact ih child child2 n hp r2
                  (fun hpre => hq1 (List.cons_prefix_cons.2 ⟨rfl, hpre⟩))
                  (fun hpre => hq2 (List.cons_prefix_cons.2 ⟨rfl, hpre⟩))
              · rw [findEntry_setEntry_ne name n2 child2 es hne]

theorem lookup_copyFileSync_apart (fs fs2 : FsNode) (src dest : Path)
    (h : copyFileSync fs src dest = .ok fs2) :
    ∀ q, ¬ dest <+: q → ¬ q <+: dest → fs2.lookup q = fs.lookup q := by
  unfold copyFileSync at h
  cases hs : fs.lookup src with
  | none => simp [hs] at h
  | some n =>
    cases n with
    | dir es => simp [hs] at h
    | file c =>
      simp only [hs] at h
      cases hd : fs.lookup dest with
      | none =>
        simp only [hd] at h
        exact lookup_put_apart dest fs fs2 _ h
      | some m =>
        cases m with
        | dir es => simp [hd] at h
        | file c2 =>
          simp only [hd] at h
          exact lookup_put_apart dest fs fs2 _ h

theorem writtenInto_refl (d : Path) (fs : FsNode) : WrittenInto d fs fs :=
  ⟨fun _ _ _ => rfl, fun _ => Or.inl rfl⟩

theorem writtenInto_trans (d : Path) (a b c : FsNode) (h1 : WrittenInto d a b)
    (h2 : WrittenInto d b c) : WrittenInto d a c := by
  refine ⟨fun q hq1 hq2 => (h2.1 q hq1 hq2).trans (h1.1 q hq1 hq2), fun q => ?_⟩
  rcases h2.2 q with e2 | ⟨name, c2, hq, hc2, hb⟩
  · rcases h1.2 q with e1 | ⟨name, c1, hq, hc1, ha⟩
    · exact Or.inl (e2.trans e1)
    · exact Or.inr ⟨name, c1, hq, e2.trans hc1, ha⟩
  · refine Or.inr ⟨name, c2, hq, hc2, ?_⟩
    rcases h1.2 q with e1 | ⟨_, c1, _, hc1, ha⟩
    · rw [← e1]; exact hb
    · exact ha

theorem writtenInto_copyFileSync (d : Path) (fs fs2 : FsNode) (src : Path) (name : String)
    (h : copyFileSync fs src (d ++ [name]) = .ok fs2) : WrittenInto d fs fs2 := by
  refine ⟨fun q hq1 hq2 => lookup_copyFileSync_apart fs fs2 src _ h q ?_ ?_, fun q => ?_⟩
  · exact fun hp => hq1 ((List.prefix_append d [name]).trans hp)
  · intro hp
    rcases List.prefix_concat_iff.1 hp with e | hp2
    · exact hq1 (e ▸ List.prefix_append d [name])
    · exact hq2 hp2
  · obtain ⟨c, _, hq⟩ := stat_copyFileSync fs fs2 src _ h
    by_cases he : q = d ++ [name]
    · refine Or.inr ⟨name, c, he, by rw [hq, if_pos he], ?_⟩
      intro hdir
      rw [he] at hdir
      obtain ⟨e, herr⟩ := copyFileSync_error_of_dest_dir fs src _ hdir
      rw [herr] at h
      cases h
    · exact Or.inl (by rw [hq, if_neg he])

theorem agreeAround_of_written (d : Path) (x y x2 y2 : FsNode) (h : AgreeAround d x y)
    (hx : WrittenInto d x x2) (hy : WrittenInto d y y2) : AgreeAround d x2 y2 := by
  have key : ∀ (a a2 : FsNode), WrittenInto d a a2 →
      (a2.stat d = some .dir ↔ a.stat d = some .dir) ∧
      ∀ name, a2.stat (d ++ [name]) = some .dir ↔ a.stat (d ++ [name]) = some .dir := by
    intro a a2 ha
    constructor
    · rcases ha.2 d with e | ⟨name, _, hq, _, _⟩
      · rw [e]
      · exact absurd hq.symm (append_singleton_ne_self d name)
    · intro name
      rcases ha.2 (d ++ [name]) with e | ⟨_, c, _, hc, hn⟩
      · rw [e]
      · constructor
        · intro h2; rw [hc] at h2; cases h2
        · intro h2; exact absurd h2 hn
  refine ⟨fun q hq1 hq2 => ?_, ?_, fun name => ?_⟩
  · rw [hx.1 q hq1 hq2, hy.1 q hq1 hq2]
    exact h.1 q hq1 hq2
  · rw [(key x x2 hx).1, (key y y2 hy).1]
    exact h.2.1
  · rw [(key x x2 hx).2 name, (key y y2 hy).2 name]
    exact h.2.2 name

theorem agreeAround_refl (d : Path) (x : FsNode) : AgreeAround d x x :=
  ⟨fun _ _ _ => rfl, Iff.rfl, fun _ => Iff.rfl⟩

theorem sameWrites_refl (x y : FsNode) : SameWrites x y x y :=
  fun _ => Or.inl ⟨rfl, rfl⟩

theorem sameWrites_trans (x y x1 y1 x2 y2 : FsNode) (h1 : SameWrites x y x1 y1)
    (h2 : SameWrites x1 y1 x2 y2) : SameWrites x y x2 y2 := by
  intro q
  rcases h2 q with ⟨e1, e2⟩ | e
  · rcases h1 q with ⟨f1, f2⟩ | f
    · exact Or.inl ⟨e1.trans f1, e2.trans f2⟩
    · exact Or.inr (by rw [e1, e2, f])
  · exact Or.inr e

theorem lockstep_refl (d : Path) (x y : FsNode) (tx ty : Option FsError)
    (h : tx.isSome = ty.isSome) : Lockstep d x y ⟨x, tx⟩ ⟨y, ty⟩ :=
  ⟨writtenInto_refl d x, writtenInto_refl d y, sameWrites_refl x y, h⟩

theorem lockstep_trans (d : Path) (x y x1 y1 : FsNode) (rx ry : Outcome)
    (hx : WrittenInto d x x1) (hy : WrittenInto d y y1) (hs : SameWrites x y x1 y1)
    (h : Lockstep d x1 y1 rx ry) : Lockstep d x y rx ry :=
  ⟨writtenInto_trans d x x1 rx.fs hx h.1, writtenInto_trans d y y1 ry.fs hy h.2.1,
    sameWrites_trans x y x1 y1 rx.fs ry.fs hs h.2.2.1, h.2.2.2⟩

theorem stat_eq_of_lookup_eq (x y : FsNode) (q : Path) (h : x.lookup q = y.lookup q) :
    x.stat q = y.stat q := by
  unfold FsNode.stat
  rw [h]

/-- One copy into the directory `d`, made in two states that agree around `d`: it fails in
both, or it succeeds in both and writes the same file. -/
theorem copyFileSync_lockstep (d : Path) (x y : FsNode) (h : AgreeAround d x y)
    (src : Path) (hs1 : ¬ d <+: src) (hs2 : ¬ src <+: d) (name : String) :
    (∃ e1 e2, copyFileSync x src (d ++ [name]) = .error e1 ∧
      copyFileSync y src (d ++ [name]) = .error e2) ∨
    (∃ x2 y2, copyFileSync x src (d ++ [name]) = .ok x2 ∧
      copyFileSync y src (d ++ [name]) = .ok y2 ∧
      WrittenInto d x x2 ∧ WrittenInto d y y2 ∧ SameWrites x y x2 y2) := by
  have hst : x.stat src = y.stat src := stat_eq_of_lookup_eq x y src (h.1 src hs1 hs2)
  by_cases hfile : ∃ c, x.stat src = some (.file c)
  · obtain ⟨c, hc⟩ := hfile
    have hcy : y.stat src = some (.file c) := hst ▸ hc
    by_cases hdd : x.stat (d ++ [name]) = some .dir
    · obtain ⟨e1, h1⟩ := copyFileSync_error_of_dest_dir x src _ hdd
      obtain ⟨e2, h2⟩ := copyFileSync_error_of_dest_dir y src _ ((h.2.2 name).1 hdd)
      exact Or.inl ⟨e1, e2, h1, h2⟩
    · have hddy : y.stat (d ++ [name]) ≠ some .dir := fun hy => hdd ((h.2.2 name).2 hy)
      by_cases hpar : x.stat d = some .dir
      · obtain ⟨x2, hx2⟩ := copyFileSync_ok x src d name c hc hpar hdd
        obtain ⟨y2, hy2⟩ := copyFileSync_ok y src d name c hcy (h.2.1.1 hpar) hddy
        refine Or.inr ⟨x2, y2, hx2, hy2, writtenInto_copyFileSync d x x2 src name hx2,
          writtenInto_copyFileSync d y y2 src name hy2, fun q => ?_⟩
        obtain ⟨c1, hc1, hq1⟩ := stat_copyFileSync x x2 src _ hx2
        obtain ⟨c2, hc2, hq2⟩ := stat_copyFileSync y y2 src _ hy2
        have e1 : c1 = c := by rw [hc] at hc1; simpa using hc1.symm
        have e2 : c2 = c := by rw [hcy] at hc2; simpa using hc2.symm
        subst e1 e2
        by_cases he : q = d ++ [name]
        · exact Or.inr (by rw [hq1, hq2, if_pos he, if_pos he])
        · exact Or.inl ⟨by rw [hq1, if_neg he], by rw [hq2, if_neg he]⟩
      · obtain ⟨e1, h1⟩ := copyFileSync_error_of_parent x src d name hpar
        obtain ⟨e2, h2⟩ := copyFileSync_error_of_parent y src d name
          (fun hy => hpar (h.2.1.2 hy))
        exact Or.inl ⟨e1, e2, h1, h2⟩
  · push_neg at hfile
    obtain ⟨e1, h1⟩ := copyFileSync_error_of_src x src (d ++ [name]) hfile
    obtain ⟨e2, h2⟩ := copyFileSync_error_of_src y src (d ++ [name])
      (fun c hy => hfile c (hst ▸ hy))
    exact Or.inl ⟨e1, e2, h1, h2⟩

theorem copyDependencyFiles_lockstep (s d : Path)
    (hs : ∀ name, ¬ d <+: s ++ [name] ∧ ¬ s ++ [name] <+: d) :
    ∀ (todo : List String) (x y : FsNode) (lx ly : List Console), AgreeAround d x y →
      Lockstep d x y (CopyAssets.copyDependencyFiles s d todo x lx).1
        (CopyAssets.copyDependencyFiles s d todo y ly).1 := by
  intro todo
  induction todo with
  | nil =>
    intro x y lx ly _
    exact lockstep_refl d x y none none rfl
  | cons file rest ih =>
    intro x y lx ly h
    have hst : x.stat (s ++ [file]) = y.stat (s ++ [file]) :=
      stat_eq_of_lookup_eq x y _ (h.1 _ (hs file).1 (hs file).2)
    unfold CopyAssets.copyDependencyFiles
    rw [← hst]
    cases hx : x.stat (s ++ [file]) with
    | none => exact lockstep_refl d x y _ _ rfl
    | some st =>
      simp only []
      by_cases hd : st.isDir = true
      · simp only [hd, Bool.not_true, Bool.false_eq_true, if_false]
        exact ih x y lx ly h
      · have hd2 : st.isDir = false := by simpa using hd
        simp only [hd2, Bool.not_false, if_true]
        rcases copyFileSync_lockstep d x y h (s ++ [file]) (hs file).1 (hs file).2 file with
          ⟨e1, e2, h1, h2⟩ | ⟨x2, y2, h1, h2, wx, wy, sw⟩
        · simp only [h1, h2]
          exact lockstep_refl d x y _ _ rfl
        · simp only [h1, h2]
          exact lockstep_trans d x y x2 y2 _ _ wx wy sw
            (ih x2 y2 _ _ (agreeAround_of_written d x y x2 y2 h wx wy))

theorem copyBundleFiles_lockstep (s d : Path)
    (hs : ∀ name, ¬ d <+: s ++ [name] ∧ ¬ s ++ [name] <+: d) :
    ∀ (todo : List String) (x y : FsNode) (lx ly : List Console), AgreeAround d x y →
      Lockstep d x y (CopyAssets.copyBundleFiles s d todo x lx).1
        (CopyAssets.copyBundleFiles s d todo y ly).1 := by
  intro todo
  induction todo with
  | nil =>
    intro x y lx ly _
    exact lockstep_refl d x y none none rfl
  | cons file rest ih =>
    intro x y lx ly h
    unfold CopyAssets.copyBundleFiles
    by_cases hm : CopyAssets.matchesBundlePattern file = true
    · simp only [hm, if_true]
      rcases copyFileSync_lockstep d x y h (s ++ [file]) (hs file).1 (hs file).2 file with
        ⟨e1, e2, h1, h2⟩ | ⟨x2, y2, h1, h2, wx, wy, sw⟩
      · simp only [h1, h2]
        exact lockstep_refl d x y _ _ rfl
      · simp only [h1, h2]
        exact lockstep_trans d x y x2 y2 _ _ wx wy sw
          (ih x2 y2 _ _ (agreeAround_of_written d x y x2 y2 h wx wy))
    · have hm2 : CopyAssets.matchesBundlePattern file = false := by simpa using hm
      simp only [hm2, Bool.false_eq_true, if_false]
      exact ih x y lx ly h

theorem existsSync_eq_of_lookup_eq (x y : FsNode) (q : Path) (h : x.lookup q = y.lookup q) :
    existsSync x q = existsSync y q := by
  unfold existsSync
  rw [h]

theorem copyWebsiteFiles_lockstep (s d : Path)
    (hs : ∀ name, ¬ d <+: s ++ [name] ∧ ¬ s ++ [name] <+: d) :
    ∀ (todo : List String) (x y : FsNode) (lx ly : List Console), AgreeAround d x y →
      Lockstep d x y (CopyAssets.copyWebsiteFiles s d todo x lx).1
        (CopyAssets.copyWebsiteFiles s d todo y ly).1 := by
  intro todo
  induction todo with
  | nil =>
    intro x y lx ly _
    exact lockstep_refl d x y none none rfl
  | cons file rest ih =>
    intro x y lx ly h
    have hex : existsSync x (s ++ [file]) = existsSync y (s ++ [file]) :=
      existsSync_eq_of_lookup_eq x y _ (h.1 _ (hs file).1 (hs file).2)
    unfold CopyAssets.copyWebsiteFiles
    rw [← hex]
    by_cases hm : existsSync x (s ++ [file]) = true
    · simp only [hm, if_true]
      rcases copyFileSync_lockstep d x y h (s ++ [file]) (hs file).1 (hs file).2 file with
        ⟨e1, e2, h1, h2⟩ | ⟨x2, y2, h1, h2, wx, wy, sw⟩
      · simp only [h1, h2]
        exact lockstep_refl d x y _ _ rfl
      · simp only [h1, h2]
        exact lockstep_trans d x y x2 y2 _ _ wx wy sw
          (ih x2 y2 _ _ (agreeAround_of_written d x y x2 y2 h wx wy))
    · have hm2 : existsSync x (s ++ [file]) = false := by simpa using hm
      simp only [hm2, Bool.false_eq_true, if_false]
      exact ih x y lx ly h

theorem readdirSync_eq_of_lookup_eq (x y : FsNode) (q : Path) (h : x.lookup q = y.lookup q) :
    readdirSync x q = readdirSync y q := by
  unfold readdirSync
  rw [h]

theorem dependenciesRule_lockstep (s d : Path) (hs : ∀ r, ¬ d <+: s ++ r ∧ ¬ s ++ r <+: d)
    (x y : FsNode) (h : AgreeAround d x y) :
    Lockstep d x y (CopyAssets.dependenciesRule s d x).1
      (CopyAssets.dependenciesRule s d y).1 := by
  have hl : x.lookup s = y.lookup s := by
    have := hs []
    rw [List.append_nil] at this
    exact h.1 s this.1 this.2
  unfold CopyAssets.dependenciesRule
  rw [← existsSync_eq_of_lookup_eq x y s hl, ← readdirSync_eq_of_lookup_eq x y s hl]
  by_cases hex : existsSync x s = true
  · simp only [hex, if_true]
    cases readdirSync x s with
    | error e => exact lockstep_refl d x y _ _ rfl
    | ok entries =>
      exact copyDependencyFiles_lockstep s d (fun name => hs [name]) _ x y [] [] h
  · have hex2 : existsSync x s = false := by simpa using hex
    simp only [hex2, Bool.false_eq_true, if_false]
    exact lockstep_refl d x y _ _ rfl

theorem bundleRule_lockstep (s d : Path) (hs : ∀ r, ¬ d <+: s ++ r ∧ ¬ s ++ r <+: d)
    (x y : FsNode) (h : AgreeAround d x y) :
    Lockstep d x y (CopyAssets.bundleRule s d x).1 (CopyAssets.bundleRule s d y).1 := by
  have hl : x.lookup s = y.lookup s := by
    have := hs []
    rw [List.append_nil] at this
    exact h.1 s this.1 this.2
  unfold CopyAssets.bundleRule
  rw [← existsSync_eq_of_lookup_eq x y s hl, ← readdirSync_eq_of_lookup_eq x y s hl]
  by_cases hex : existsSync x s = true
  · simp only [hex, if_true]
    cases readdirSync x s with
    | error e => exact lockstep_refl d x y _ _ rfl
    | ok entries =>
      exact copyBundleFiles_lockstep s d (fun name => hs [name]) _ x y [] [] h
  · have hex2 : existsSync x s = false := by simpa using hex
    simp only [hex2, Bool.false_eq_true, if_false]
    exact lockstep_refl d x y _ _ rfl

theorem websiteRule_lockstep (s d : Path) (hs : ∀ r, ¬ d <+: s ++ r ∧ ¬ s ++ r <+: d)
    (x y : FsNode) (h : AgreeAround d x y) :
    Lockstep d x y (CopyAssets.websiteRule s d x).1 (CopyAssets.websiteRule s d y).1 := by
  have hl : x.lookup s = y.lookup s := by
    have := hs []
    rw [List.append_nil] at this
    exact h.1 s this.1 this.2
  unfold CopyAssets.websiteRule
  rw [← existsSync_eq_of_lookup_eq x y s hl]
  by_cases hex : existsSync x s = true
  · simp only [hex, if_true]
    exact copyWebsiteFiles_lockstep s d (fun name => hs [name]) _ x y [] [] h
  · have hex2 : existsSync x s = false := by simpa using hex
    simp only [hex2, Bool.false_eq_true, if_false]
    exact lockstep_refl d x y _ _ rfl

/-- A location below the repository under a first name other than `dist` lies apart from
the dist directory. -/
theorem root_apart (rootDir : Path) (a : String) (t r : Path) (ha : a ≠ "dist") :
    ¬ (rootDir ++ ["dist"]) <+: (rootDir ++ a :: t) ++ r ∧
    ¬ (rootDir ++ a :: t) ++ r <+: rootDir ++ ["dist"] := by
  have e : (rootDir ++ a :: t) ++ r = rootDir ++ (a :: (t ++ r)) := by simp
  rw [e]
  constructor
  · intro h
    have h2 := (List.prefix_append_right_inj rootDir).1 h
    exact ha (List.cons_prefix_cons.1 h2).1.symm
  · intro h
    have h2 := (List.prefix_append_right_inj rootDir).1 h
    exact ha (List.cons_prefix_cons.1 h2).1

/-- With the dist directory there, the outcome of the script is that of the first rule
that throws, or else that of the website rule. -/
theorem script_outcome (rootDir : Path) (fs : FsNode)
    (hex : existsSync fs (rootDir ++ ["dist"]) = true) :
    (CopyAssets.script rootDir fs).1 =
      if (CopyAssets.dependenciesRule (rootDir ++ ["src", "dependencies"])
          (rootDir ++ ["dist"]) fs).1.thrown.isSome then
        (CopyAssets.dependenciesRule (rootDir ++ ["src", "dependencies"])
          (rootDir ++ ["dist"]) fs).1
      else if (CopyAssets.bundleRule (rootDir ++ ["lex-web-ui", "dist", "bundle"])
          (rootDir ++ ["dist"])
          (CopyAssets.dependenciesRule (rootDir ++ ["src", "dependencies"])
            (rootDir ++ ["dist"]) fs).1.fs).1.thrown.isSome then
        (CopyAssets.bundleRule (rootDir ++ ["lex-web-ui", "dist", "bundle"])
          (rootDir ++ ["dist"])
          (CopyAssets.dependenciesRule (rootDir ++ ["src", "dependencies"])
            (rootDir ++ ["dist"]) fs).1.fs).1
      else
        (CopyAssets.websiteRule (rootDir ++ ["src", "website"]) (rootDir ++ ["dist"])
          (CopyAssets.bundleRule (rootDir ++ ["lex-web-ui", "dist", "bundle"])
            (rootDir ++ ["dist"])
            (CopyAssets.dependenciesRule (rootDir ++ ["src", "dependencies"])
              (rootDir ++ ["dist"]) fs).1.fs).1.fs).1 := by
  unfold CopyAssets.script
  simp only [hex, Bool.not_true, Bool.false_eq_true, if_false]
  cases h1 : (CopyAssets.dependenciesRule (rootDir ++ ["src", "dependencies"])
      (rootDir ++ ["dist"]) fs).1.thrown with
  | some e => simp
  | none =>
    simp only [Option.isSome_none, Bool.false_eq_true, if_false]
    cases h2 : (CopyAssets.bundleRule (rootDir ++ ["lex-web-ui", "dist", "bundle"])
        (rootDir ++ ["dist"])
        (CopyAssets.dependenciesRule (rootDir ++ ["src", "dependencies"])
          (rootDir ++ ["dist"]) fs).1.fs).1.thrown with
    | some e => simp
    | none =>
      simp only [Option.isSome_none, Bool.false_eq_true, if_false]
      cases h3 : (CopyAssets.websiteRule (rootDir ++ ["src", "website"]) (rootDir ++ ["dist"])
          (CopyAssets.bundleRule (rootDir ++ ["lex-web-ui", "dist", "bundle"])
            (rootDir ++ ["dist"])
            (CopyAssets.dependenciesRule (rootDir ++ ["src", "dependencies"])
              (rootDir ++ ["dist"]) fs).1.fs).1.fs).1.thrown <;> rfl

/-- Two runs of the script from states that agree around the dist directory, which is
there in both, go the same way. -/
theorem script_lockstep (rootDir : Path) (x y : FsNode)
    (h : AgreeAround (rootDir ++ ["dist"]) x y)
    (hx : existsSync x (rootDir ++ ["dist"]) = true)
    (hy : existsSync y (rootDir ++ ["dist"]) = true) :
    Lockstep (rootDir ++ ["dist"]) x y (CopyAssets.script rootDir x).1
      (CopyAssets.script rootDir y).1 := by
  rw [script_outcome rootDir x hx, script_outcome rootDir y hy]
  have a1 : ∀ r, ¬ (rootDir ++ ["dist"]) <+: (rootDir ++ ["src", "dependencies"]) ++ r ∧
      ¬ (rootDir ++ ["src", "dependencies"]) ++ r <+: rootDir ++ ["dist"] :=
    fun r => root_apart rootDir "src" ["dependencies"] r (by decide)
  have a2 : ∀ r, ¬ (rootDir ++ ["dist"]) <+: (rootDir ++ ["lex-web-ui", "dist", "bundle"]) ++ r ∧
      ¬ (rootDir ++ ["lex-web-ui", "dist", "bundle"]) ++ r <+: rootDir ++ ["dist"] :=
    fun r => root_apart rootDir "lex-web-ui" ["dist", "bundle"] r (by decide)
  have a3 : ∀ r, ¬ (rootDir ++ ["dist"]) <+: (rootDir ++ ["src", "website"]) ++ r ∧
      ¬ (rootDir ++ ["src", "website"]) ++ r <+: rootDir ++ ["dist"] :=
    fun r => root_apart rootDir "src" ["website"] r (by decide)
  have l1 := dependenciesRule_lockstep _ _ a1 x y h
  by_cases t1 : (CopyAssets.dependenciesRule (rootDir ++ ["src", "dependencies"])
      (rootDir ++ ["dist"]) x).1.thrown.isSome = true
  · have t1y := t1
    rw [l1.2.2.2] at t1y
    rw [if_pos t1, if_pos t1y]
    exact l1
  · have t1y := t1
    rw [l1.2.2.2] at t1y
    rw [if_neg t1, if_neg t1y]
    have h1 := agreeAround_of_written _ x y _ _ h l1.1 l1.2.1
    have l2 := bundleRule_lockstep _ _ a2 _ _ h1
    by_cases t2 : (CopyAssets.bundleRule (rootDir ++ ["lex-web-ui", "dist", "bundle"])
        (rootDir ++ ["dist"])
        (CopyAssets.dependenciesRule (rootDir ++ ["src", "dependencies"])
          (rootDir ++ ["dist"]) x).1.fs).1.thrown.isSome = true
    · have t2y := t2
      rw [l2.2.2.2] at t2y
      rw [if_pos t2, if_pos t2y]
      exact lockstep_trans _ x y _ _ _ _ l1.1 l1.2.1 l1.2.2.1 l2
    · have t2y := t2
      rw [l2.2.2.2] at t2y
      rw [if_neg t2, if_neg t2y]
      have h2 := agreeAround_of_written _ _ _ _ _ h1 l2.1 l2.2.1
      have l3 := websiteRule_lockstep _ _ a3 _ _ h2
      exact lockstep_trans _ x y _ _ _ _ l1.1 l1.2.1 l1.2.2.1
        (lockstep_trans _ _ _ _ _ _ _ l2.1 l2.2.1 l2.2.2.1 l3)

/-- A run that had to create the dist directory goes on as a run from the state with the
directory created. -/
theorem script_of_mkdir (rootDir : Path) (fs fs0 : FsNode)
    (hex : existsSync fs (rootDir ++ ["dist"]) = false)
    (hmk : mkdirSync fs (rootDir ++ ["dist"]) = .ok fs0) :
    CopyAssets.script rootDir fs = CopyAssets.script rootDir fs0 ∧
    existsSync fs0 (rootDir ++ ["dist"]) = true := by
  have hex0 : existsSync fs0 (rootDir ++ ["dist"]) = true := by
    rw [existsSync_eq_true_iff, stat_mkdirSync _ fs fs0 hmk, if_pos (List.prefix_refl _)]
    simp
  refine ⟨?_, hex0⟩
  unfold CopyAssets.script
  simp only [hex, hex0, hmk, Bool.not_false, Bool.not_true, if_true, Bool.false_eq_true,
    if_false]

/-- A run from a state with the dist directory there: what a second run leaves, and what
the run changed. -/
theorem script_rerun (rootDir : Path) (x : FsNode)
    (hx : existsSync x (rootDir ++ ["dist"]) = true) :
    WrittenInto (rootDir ++ ["dist"]) x (CopyAssets.script rootDir x).1.fs ∧
    (∀ q, (CopyAssets.script rootDir (CopyAssets.script rootDir x).1.fs).1.fs.stat q =
      (CopyAssets.script rootDir x).1.fs.stat q) ∧
    (CopyAssets.script rootDir (CopyAssets.script rootDir x).1.fs).1.thrown.isSome =
      (CopyAssets.script rootDir x).1.thrown.isSome := by
  have l0 := script_lockstep rootDir x x (agreeAround_refl _ x) hx hx
  have w := l0.1
  have hag : AgreeAround (rootDir ++ ["dist"]) x (CopyAssets.script rootDir x).1.fs :=
    agreeAround_of_written _ x x x _ (agreeAround_refl _ x) (writtenInto_refl _ x) w
  have hx1 : existsSync (CopyAssets.script rootDir x).1.fs (rootDir ++ ["dist"]) = true := by
    rw [existsSync_eq_true_iff] at hx ⊢
    rcases w.2 (rootDir ++ ["dist"]) with e | ⟨name, c, hq, _, _⟩
    · rw [e]; exact hx
    · exact absurd hq.symm (append_singleton_ne_self _ name)
  have l1 := script_lockstep rootDir x _ hag hx hx1
  refine ⟨w, fun q => ?_, l1.2.2.2.symm⟩
  rcases l1.2.2.1 q with ⟨_, e2⟩ | e
  · exact e2
  · exact e.symm

/-- C21: for every state of the file system, a second run of the assembly script leaves
every location as the first run left it, and ends by an exception exactly when the first
run did. When the repository directory is there, a run changes nothing outside the dist
directory: every location that is not the dist directory or below it, in particular the
three source roots and all they hold, is as before the run. -/
theorem C21_script_rerunnable (rootDir : Path) (fs : FsNode) :
    (∀ q, (CopyAssets.script rootDir (CopyAssets.script rootDir fs).1.fs).1.fs.stat q =
      (CopyAssets.script rootDir fs).1.fs.stat q) ∧
    ((CopyAssets.script rootDir (CopyAssets.script rootDir fs).1.fs).1.thrown.isSome =
      (CopyAssets.script rootDir fs).1.thrown.isSome) ∧
    (fs.stat rootDir = some .dir →
      (∀ q, ¬ (rootDir ++ ["dist"]) <+: q →
        (CopyAssets.script rootDir fs).1.fs.stat q = fs.stat q) ∧
      (∀ r, (CopyAssets.script rootDir fs).1.fs.stat (rootDir ++ ["src", "dependencies"] ++ r) =
        fs.stat (rootDir ++ ["src", "dependencies"] ++ r)) ∧
      (∀ r, (CopyAssets.script rootDir fs).1.fs.stat
          (rootDir ++ ["lex-web-ui", "dist", "bundle"] ++ r) =
        fs.stat (rootDir ++ ["lex-web-ui", "dist", "bundle"] ++ r)) ∧
      (∀ r, (CopyAssets.script rootDir fs).1.fs.stat (rootDir ++ ["src", "website"] ++ r) =
        fs.stat (rootDir ++ ["src", "website"] ++ r))) := by
  have hframe : fs.stat rootDir = some .dir → ∀ q, ¬ (rootDir ++ ["dist"]) <+: q →
      (CopyAssets.script rootDir fs).1.fs.stat q = fs.stat q := by
    intro hroot q hq
    have hw : ∀ x, WrittenInto (rootDir ++ ["dist"]) x (CopyAssets.script rootDir x).1.fs →
        (CopyAssets.script rootDir x).1.fs.stat q = x.stat q := by
      intro x w
      rcases w.2 q with e | ⟨name, _, he, _, _⟩
      · exact e
      · exact absurd (he ▸ List.prefix_append _ _) hq
    by_cases hex : existsSync fs (rootDir ++ ["dist"]) = true
    · exact hw fs (script_rerun rootDir fs hex).1
    · have hex2 : existsSync fs (rootDir ++ ["dist"]) = false := by simpa using hex
      cases hmk : mkdirSync fs (rootDir ++ ["dist"]) with
      | error e =>
        have : CopyAssets.script rootDir fs = (⟨fs, some e⟩, []) := by
          simp [CopyAssets.script, hex2, hmk]
        rw [this]
      | ok fs0 =>
        obtain ⟨hs, hex0⟩ := script_of_mkdir rootDir fs fs0 hex2 hmk
        rw [hs, hw fs0 (script_rerun rootDir fs0 hex0).1, stat_mkdirSync _ fs fs0 hmk]
        by_cases hp : q <+: rootDir ++ ["dist"]
        · rw [if_pos hp]
          rcases List.prefix_concat_iff.1 hp with e | hp2
          · exact absurd (e ▸ List.prefix_refl _) hq
          · by_cases hqr : q = rootDir
            · rw [hqr, hroot]
            · exact (stat_above_of_exists fs q rootDir hp2 hqr (by rw [hroot]; simp)).symm
        · rw [if_neg hp]
  refine ⟨?_, ?_, fun hroot => ⟨hframe hroot, fun r => hframe hroot _ ?_,
    fun r => hframe hroot _ ?_, fun r => hframe hroot _ ?_⟩⟩
  · by_cases hex : existsSync fs (rootDir ++ ["dist"]) = true
    · exact (script_rerun rootDir fs hex).2.1
    · have hex2 : existsSync fs (rootDir ++ ["dist"]) = false := by simpa using hex
      cases hmk : mkdirSync fs (rootDir ++ ["dist"]) with
      | error e =>
        have : CopyAssets.script rootDir fs = (⟨fs, some e⟩, []) := by
          simp [CopyAssets.script, hex2, hmk]
        intro q
        rw [this, this]
      | ok fs0 =>
        obtain ⟨hs, hex0⟩ := script_of_mkdir rootDir fs fs0 hex2 hmk
        rw [hs]
        exact (script_rerun rootDir fs0 hex0).2.1
  · by_cases hex : existsSync fs (rootDir ++ ["dist"]) = true
    · exact (script_rerun rootDir fs hex).2.2
    · have hex2 : existsSync fs (rootDir ++ ["dist"]) = false := by simpa using hex
      cases hmk : mkdirSync fs (rootDir ++ ["dist"]) with
      | error e =>
        have : CopyAssets.script rootDir fs = (⟨fs, some e⟩, []) := by
          simp [CopyAssets.script, hex2, hmk]
        rw [this, this]
      | ok fs0 =>
        obtain ⟨hs, hex0⟩ := script_of_mkdir rootDir fs fs0 hex2 hmk
        rw [hs]
        exact (script_rerun rootDir fs0 hex0).2.2
  · exact (root_apart rootDir "src" ["dependencies"] r (by decide)).1
  · exact (root_apart rootDir "lex-web-ui" ["dist", "bundle"] r (by decide)).1
  · exact (root_apart rootDir "src" ["website"] r (by decide)).1

/-- C21 on a sample: a second run over `sampleRepo` leaves `dist/lex-web-ui.min.js` as the
first run left it, and the first run leaves the bundle file as it was. -/
theorem C21_script_rerunnable_witness :
    (CopyAssets.script ["repo"] (CopyAssets.script ["repo"] sampleRepo).1.fs).1.fs.stat
        ["repo", "dist", "lex-web-ui.min.js"] =
      (CopyAssets.script ["repo"] sampleRepo).1.fs.stat ["repo", "dist", "lex-web-ui.min.js"] ∧
    (CopyAssets.script ["repo"] sampleRepo).1.fs.stat ["repo", "dist", "lex-web-ui.min.js"] =
      some (.file [1]) ∧
    (CopyAssets.script ["repo"] sampleRepo).1.fs.stat
        ["repo", "lex-web-ui", "dist", "bundle", "lex-web-ui.min.js"] = some (.file [1]) :=
  have h := C21_script_rerunnable ["repo"] sampleRepo
  ⟨h.1 _, by decide,
    ((h.2.2 (by decide)).1 ["repo", "lex-web-ui", "dist", "bundle", "lex-web-ui.min.js"]
      (by decide)).trans (by decide)⟩

end LexWebUi
